import Mathlib

/-!
# VarianceOverLastDimensionImageMetric: a shallow embedding

Source: `src/Components/Metrics/VarianceOverLastDimension/itkVarianceOverLastDimensionImageMetric.hxx`.

Conventions of the embedding.

* `double` quantities (intensities, sums, the measure, the derivative) are rationals: the
  statements below are statements of exact arithmetic, except where the definitions with rounded
  operations are named, in which the result of every operation on doubles is rounded as the
  type `double` rounds it.
* `unsigned int` counters and sizes are `Nat`, `int` quantities are `Int`; image extents are far
  below `2^31`, so the conversions `unsigned -> int -> double` are the inclusions `Nat -> Int -> ℚ`.
* Vectors (`std::vector`, `itk::Array`) are lists. A read `v[i]` is `v.getD i default` and a write
  `v[i] = x` / `v[i] += x` is `List.set` / `List.modify`; both coincide with the C++ whenever
  `i` is inside the vector, which is the only case in which the C++ is defined.
* The collaborators that the metric inherits or calls (fixed image geometry, transform, moving mask,
  interpolator, the sample-count check of the base class, the random generator) are parameters.
-/

namespace VarianceOverLastDimension

/-! ## Configuration state -/

/-- The two data members of the metric. -/
structure Config where
  /-- The member `m_SampleLastDimensionRandomly`. -/
  m_SampleLastDimensionRandomly : Bool
  /-- The member `m_NumSamplesLastDimension`. -/
  m_NumSamplesLastDimension : Nat
  deriving DecidableEq, Repr

/-- The constructor: deterministic mode, ten samples. -/
def Config.constructor : Config :=
  { m_SampleLastDimensionRandomly := false, m_NumSamplesLastDimension := 10 }

/-- `Initialize`, on the fields of this class: `lastDimSize` is
`GetFixedImage()->GetLargestPossibleRegion().GetSize( lastDim )`. -/
def Initialize (cfg : Config) (lastDimSize : Nat) : Config :=
  if cfg.m_NumSamplesLastDimension > lastDimSize then
    { cfg with m_NumSamplesLastDimension := lastDimSize }
  else cfg

/-! ## SampleRandom -/

/-- A freshly seeded generator, seen through the only call made on it: `gen m` lists the values
that `static_cast<int>( randomGenerator->GetVariateWithClosedRange( m ) )` takes on successive
calls. A finite list stands for the draws observed so far. -/
abbrev RandomSource := Int → List Int

/-- The contract of `GetVariateWithClosedRange( m )`: every draw lies in the closed range `[0, m]`. -/
def RandomSource.InClosedRange (gen : RandomSource) (m : Int) : Prop :=
  ∀ x ∈ gen m, 0 ≤ x ∧ x ≤ m

/-- The `do { randomNum = draw } while ( find( numbers, randomNum ) != end )` loop: consumes draws up to
and including the first one that is not in `numbers`; `none` when the draws end before that. -/
def drawUntilNew (numbers : List Int) : List Int → Option (Int × List Int)
  | [] => none
  | randomNum :: rest =>
    if randomNum ∈ numbers then drawUntilNew numbers rest else some (randomNum, rest)

/-- The `for ( int i = 0; i < n; ++i )` loop of `SampleRandom`, with `iterations` rounds to go. -/
def sampleLoop : Nat → List Int → List Int → Option (List Int × List Int)
  | 0, numbers, draws => some (numbers, draws)
  | iterations + 1, numbers, draws =>
    match drawUntilNew numbers draws with
    | none => none
    | some (randomNum, rest) => sampleLoop iterations (numbers ++ [randomNum]) rest

/-- `SampleRandom( n, m, numbers )`: returns the new content of `numbers` and the draws left
unconsumed, or `none` when the procedure has not finished within the draws of `gen m`. -/
def SampleRandom (n m : Int) (gen : RandomSource) (_numbers : List Int) :
    Option (List Int × List Int) :=
  -- numbers.clear();
  let numbers : List Int := []
  sampleLoop n.toNat numbers (gen m)

/-! ## Collaborators -/

/-- Physical points and continuous indices are coordinate vectors. -/
abbrev Point := List ℚ

/-- What the metric consumes from its base class and from the objects plugged into it. The
transform is addressed through the parameter vector last passed to `SetTransformParameters`. -/
structure Collaborators where
  /-- The constant `FixedImageDimension`, also `GetFixedImage()->GetImageDimension()`. -/
  FixedImageDimension : Nat
  /-- The size `GetFixedImage()->GetLargestPossibleRegion().GetSize( lastDim )`. -/
  lastDimSize : Nat
  /-- The map `GetFixedImage()->TransformPhysicalPointToContinuousIndex`. -/
  TransformPhysicalPointToContinuousIndex : Point → Point
  /-- The map `GetFixedImage()->TransformContinuousIndexToPhysicalPoint`. -/
  TransformContinuousIndexToPhysicalPoint : Point → Point
  /-- The call `TransformPoint( fixedPoint, mappedPoint )`: the flag returned and `mappedPoint`. -/
  TransformPoint : List ℚ → Point → Bool × Point
  /-- The call `IsInsideMovingMask( mappedPoint )`. -/
  IsInsideMovingMask : Point → Bool
  /-- The call `EvaluateMovingImageValueAndDerivative( mappedPoint, movingImageValue, gradient )`:
  the second argument tells whether a derivative is requested (`gradient` is not null); the
  result is the flag returned, `movingImageValue` and the derivative written. -/
  EvaluateMovingImageValueAndDerivative : Point → Bool → Bool × ℚ × List ℚ
  /-- The call `EvaluateTransformJacobian( fixedPoint, jacobian, nzji )`: the row-major data of
  `jacobian` and the list `nzji` written. -/
  EvaluateTransformJacobian : List ℚ → Point → List ℚ × List Nat
  /-- The count `GetNumberOfParameters()`. -/
  GetNumberOfParameters : Nat
  /-- The count `m_AdvancedTransform->GetNumberOfNonZeroJacobianIndices()`. -/
  GetNumberOfNonZeroJacobianIndices : Nat
  /-- The call `CheckNumberOfSamples( wanted, found )` of the base class: `false` when it raises
  the exception that too few samples are valid, `true` when it comes back. -/
  CheckNumberOfSamples : Nat → Nat → Bool

/-- The index `lastDim = GetImageDimension() - 1` of the slowest varying dimension. -/
def Collaborators.lastDim (c : Collaborators) : Nat := c.FixedImageDimension - 1

/-- How a call of `GetValue` or `GetValueAndDerivative` ends. -/
inductive Outcome (α : Type) where
  /-- The exception of `CheckNumberOfSamples` leaves the function. -/
  | insufficientSamples : Outcome α
  /-- The function reaches `/= static_cast<double>( 0 )`: it comes back, and the doubles it
  hands over are `0.0 / 0.0`, which are not numbers. -/
  | divisionByZero : Outcome α
  /-- A call of `SampleRandom` has not finished within the draws supplied. -/
  | samplerUnfinished : Outcome α
  /-- The function comes back with numbers. -/
  | returned : α → Outcome α
  deriving DecidableEq, Repr

/-- The component-wise image of an outcome. -/
def Outcome.map {α β : Type} (f : α → β) : Outcome α → Outcome β
  | .insufficientSamples => .insufficientSamples
  | .divisionByZero => .divisionByZero
  | .samplerUnfinished => .samplerUnfinished
  | .returned a => .returned (f a)

/-- The three checks made on one last-dimension position (lines 209-224 and 376-391):
the flag `sampleOk` after the checks, `movingImageValue` and `movingImageDerivative`. The mask is
asked only when the transform says yes, the interpolator only when the mask says yes. -/
def checkSample (c : Collaborators) (parameters : List ℚ) (fixedPoint : Point)
    (wantDerivative : Bool) : Bool × ℚ × List ℚ :=
  let transformed := c.TransformPoint parameters fixedPoint
  let mappedPoint := transformed.2
  let sampleOk := transformed.1
  let sampleOk := if sampleOk then c.IsInsideMovingMask mappedPoint else sampleOk
  if sampleOk then c.EvaluateMovingImageValueAndDerivative mappedPoint wantDerivative
  else (sampleOk, 0, [])

/-- The vector `lastDimPositions` as first filled: `lastDimPositions[ i ] = i`. -/
def allPositions (lastDimSize : Nat) : List Int :=
  (List.range lastDimSize).map Int.ofNat

/-! ## GetValue -/

/-- The variables of the loop over the slowest varying dimension in `GetValue`. -/
structure ValueLoopState where
  /-- The variable `voxelCoord`. -/
  voxelCoord : Point
  /-- The variable `fixedPoint`. -/
  fixedPoint : Point
  /-- The variable `sumValues`. -/
  sumValues : ℚ
  /-- The variable `sumValuesSquared`. -/
  sumValuesSquared : ℚ
  /-- The variable `numSamplesOk`. -/
  numSamplesOk : Nat

/-- One round `d` of `for ( d = 0; d < realNumLastDimPositions; ++d )` in `GetValue`. -/
def valueLoopBody (c : Collaborators) (parameters : List ℚ) (lastDimPositions : List Int)
    (s : ValueLoopState) (d : Nat) : ValueLoopState :=
  let voxelCoord := s.voxelCoord.set c.lastDim ((lastDimPositions.getD d 0 : Int) : ℚ)
  let fixedPoint := c.TransformContinuousIndexToPhysicalPoint voxelCoord
  let checked := checkSample c parameters fixedPoint false
  let movingImageValue := checked.2.1
  if checked.1 then
    { voxelCoord := voxelCoord
      fixedPoint := fixedPoint
      sumValues := s.sumValues + movingImageValue
      sumValuesSquared := s.sumValuesSquared + movingImageValue * movingImageValue
      numSamplesOk := s.numSamplesOk + 1 }
  else
    { s with voxelCoord := voxelCoord, fixedPoint := fixedPoint }

/-- The variables of `GetValue` that live across the loop over the sample container. -/
structure ValueState where
  /-- The member `m_NumberOfPixelsCounted`. -/
  m_NumberOfPixelsCounted : Nat
  /-- The variable `measure`. -/
  measure : ℚ
  /-- The variable `lastDimPositions`. -/
  lastDimPositions : List Int

/-- The body of the loop over the sample container in `GetValue` for the sample at `fixedPoint`;
`gen` is the generator that `SampleRandom` creates in this round. -/
def valueSampleBody (cfg : Config) (c : Collaborators) (parameters : List ℚ) (gen : RandomSource)
    (st : ValueState) (fixedPoint : Point) : Option ValueState :=
  let numLastDimSamples := cfg.m_NumSamplesLastDimension
  let sampled :=
    if cfg.m_SampleLastDimensionRandomly then
      (SampleRandom numLastDimSamples c.lastDimSize gen st.lastDimPositions).map Prod.fst
    else some st.lastDimPositions
  match sampled with
  | none => none
  | some lastDimPositions =>
    let voxelCoord := c.TransformPhysicalPointToContinuousIndex fixedPoint
    let realNumLastDimPositions := lastDimPositions.length
    let s := (List.range realNumLastDimPositions).foldl
      (valueLoopBody c parameters lastDimPositions)
      { voxelCoord := voxelCoord, fixedPoint := fixedPoint,
        sumValues := 0, sumValuesSquared := 0, numSamplesOk := 0 }
    if s.numSamplesOk > 0 then
      let expectedValue := s.sumValues / (s.numSamplesOk : ℚ)
      let expectedSquaredValue := s.sumValuesSquared / (s.numSamplesOk : ℚ)
      some { m_NumberOfPixelsCounted := st.m_NumberOfPixelsCounted + 1
             measure := st.measure + (expectedSquaredValue - expectedValue * expectedValue)
             lastDimPositions := lastDimPositions }
    else
      some { st with lastDimPositions := lastDimPositions }

/-- The loop `for ( fiter = fbegin; fiter != fend; ++fiter )` of `GetValue`; `call` numbers the
rounds, and round `i` seeds the generator `rng i`. -/
def valueSampleLoop (cfg : Config) (c : Collaborators) (parameters : List ℚ)
    (rng : Nat → RandomSource) : Nat → List Point → ValueState → Option ValueState
  | _, [], st => some st
  | call, fixedPoint :: rest, st =>
    match valueSampleBody cfg c parameters (rng call) st fixedPoint with
    | none => none
    | some st' => valueSampleLoop cfg c parameters rng (call + 1) rest st'

/-- `GetValue( parameters )`. `numberOfPixelsCounted` is the value of the member
`m_NumberOfPixelsCounted` before the call and `sampleContainer` the output of the image
sampler after its `Update()`. -/
def GetValue (cfg : Config) (c : Collaborators) (rng : Nat → RandomSource)
    (_numberOfPixelsCounted : Nat) (parameters : List ℚ) (sampleContainer : List Point) :
    Outcome ℚ :=
  let init : ValueState :=
    { m_NumberOfPixelsCounted := 0, measure := 0, lastDimPositions := allPositions c.lastDimSize }
  match valueSampleLoop cfg c parameters rng 0 sampleContainer init with
  | none => .samplerUnfinished
  | some st =>
    if c.CheckNumberOfSamples sampleContainer.length st.m_NumberOfPixelsCounted then
      if st.m_NumberOfPixelsCounted = 0 then .divisionByZero
      else .returned (st.measure / (st.m_NumberOfPixelsCounted : ℚ))
    else .insufficientSamples

/-! ## EvaluateTransformJacobianInnerProduct -/

/-- `EvaluateTransformJacobianInnerProduct( jacobian, movingImageDerivative, imageJacobian )`:
the new content of `imageJacobian`. The iterator `jac` is the offset carried in the first
component of the loop state; `imjac` stands at offset `mu`. -/
def EvaluateTransformJacobianInnerProduct (FixedImageDimension : Nat) (jacobian : List ℚ)
    (movingImageDerivative : List ℚ) (imageJacobian : List ℚ) : List ℚ :=
  -- imageJacobian.Fill( 0.0 );
  let sizeImageJacobian := imageJacobian.length
  let filled : List ℚ := List.replicate sizeImageJacobian 0
  ((List.range FixedImageDimension).foldl
    (fun (st : Nat × List ℚ) dim =>
      let imDeriv := movingImageDerivative.getD dim 0
      (List.range sizeImageJacobian).foldl
        (fun (st : Nat × List ℚ) mu =>
          (st.1 + 1, st.2.modify (fun x => x + jacobian.getD st.1 0 * imDeriv) mu))
        st)
    (0, filled)).2

/-! ## GetValueAndDerivative -/

/-- The variables of the first loop over the slowest varying dimension in
`GetValueAndDerivative`, with the buffers it writes. -/
structure DerivativeLoopState where
  /-- The variable `voxelCoord`. -/
  voxelCoord : Point
  /-- The variable `fixedPoint`. -/
  fixedPoint : Point
  /-- The variable `sumValues`. -/
  sumValues : ℚ
  /-- The variable `sumValuesSquared`. -/
  sumValuesSquared : ℚ
  /-- The variable `numSamplesOk`. -/
  numSamplesOk : Nat
  /-- The variable `imageJacobian`. -/
  imageJacobian : List ℚ
  /-- The variable `nzjis`. -/
  nzjis : List (List Nat)
  /-- The variable `MT`. -/
  MT : List ℚ
  /-- The variable `dMTdmu`. -/
  dMTdmu : List (List ℚ)

/-- One round `d` of the first loop over `t` in `GetValueAndDerivative` (lines 365-418). -/
def derivativeLoopBody (c : Collaborators) (parameters : List ℚ) (lastDimPositions : List Int)
    (s : DerivativeLoopState) (d : Nat) : DerivativeLoopState :=
  let voxelCoord := s.voxelCoord.set c.lastDim ((lastDimPositions.getD d 0 : Int) : ℚ)
  let fixedPoint := c.TransformContinuousIndexToPhysicalPoint voxelCoord
  let checked := checkSample c parameters fixedPoint true
  let movingImageValue := checked.2.1
  let movingImageDerivative := checked.2.2
  if checked.1 then
    let evaluated := c.EvaluateTransformJacobian parameters fixedPoint
    let jacobian := evaluated.1
    let imageJacobian := EvaluateTransformJacobianInnerProduct c.FixedImageDimension
      jacobian movingImageDerivative s.imageJacobian
    { voxelCoord := voxelCoord
      fixedPoint := fixedPoint
      sumValues := s.sumValues + movingImageValue
      sumValuesSquared := s.sumValuesSquared + movingImageValue * movingImageValue
      numSamplesOk := s.numSamplesOk + 1
      imageJacobian := imageJacobian
      nzjis := s.nzjis.set d evaluated.2
      MT := s.MT.set d movingImageValue
      dMTdmu := s.dMTdmu.set d imageJacobian }
  else
    { s with
      voxelCoord := voxelCoord
      fixedPoint := fixedPoint
      dMTdmu := s.dMTdmu.set d (List.replicate c.GetNumberOfNonZeroJacobianIndices 0)
      nzjis := s.nzjis.set d (List.replicate c.GetNumberOfNonZeroJacobianIndices 0) }

/-- The second loop over `t` (lines 431-437): for every slot `d` and every `j` below
`nzjis[ d ].size()`, `derivative[ nzjis[ d ][ j ] ] += ( 2.0 * ( MT[ d ] - expectedValue ) *
dMTdmu[ d ][ j ] ) / numSamplesOk`. -/
def updateDerivative (realNumLastDimPositions : Nat) (nzjis : List (List Nat)) (MT : List ℚ)
    (dMTdmu : List (List ℚ)) (expectedValue : ℚ) (numSamplesOk : Nat) (derivative : List ℚ) :
    List ℚ :=
  (List.range realNumLastDimPositions).foldl
    (fun derivative d =>
      (List.range (nzjis.getD d []).length).foldl
        (fun derivative j =>
          derivative.modify
            (fun x => x + (2 * (MT.getD d 0 - expectedValue) * (dMTdmu.getD d []).getD j 0)
              / (numSamplesOk : ℚ))
            ((nzjis.getD d []).getD j 0))
        derivative)
    derivative

/-- The variables of `GetValueAndDerivative` that live across the loop over the sample
container. -/
structure DerivativeState where
  /-- The member `m_NumberOfPixelsCounted`. -/
  m_NumberOfPixelsCounted : Nat
  /-- The variable `measure`. -/
  measure : ℚ
  /-- The argument `derivative`. -/
  derivative : List ℚ
  /-- The variable `lastDimPositions`. -/
  lastDimPositions : List Int
  /-- The variable `imageJacobian`. -/
  imageJacobian : List ℚ
  /-- The variable `nzjis`. -/
  nzjis : List (List Nat)
  /-- The variable `MT`. -/
  MT : List ℚ
  /-- The variable `dMTdmu`. -/
  dMTdmu : List (List ℚ)

/-- The number `realNumLastDimPositions` of `GetValueAndDerivative` (line 331). -/
def realNumLastDimPositions (cfg : Config) (c : Collaborators) : Nat :=
  if cfg.m_SampleLastDimensionRandomly then cfg.m_NumSamplesLastDimension else c.lastDimSize

/-- The body of the loop over the sample container in `GetValueAndDerivative` for the sample at
`fixedPoint`; `gen` is the generator that `SampleRandom` creates in this round. -/
def derivativeSampleBody (cfg : Config) (c : Collaborators) (parameters : List ℚ)
    (gen : RandomSource) (st : DerivativeState) (fixedPoint : Point) : Option DerivativeState :=
  let numLastDimSamples := cfg.m_NumSamplesLastDimension
  let sampled :=
    if cfg.m_SampleLastDimensionRandomly then
      (SampleRandom numLastDimSamples c.lastDimSize gen st.lastDimPositions).map Prod.fst
    else some st.lastDimPositions
  match sampled with
  | none => none
  | some lastDimPositions =>
    -- std::fill( MT.begin(), MT.end(), 0 );
    let MT : List ℚ := List.replicate st.MT.length 0
    let voxelCoord := c.TransformPhysicalPointToContinuousIndex fixedPoint
    let s := (List.range (realNumLastDimPositions cfg c)).foldl
      (derivativeLoopBody c parameters lastDimPositions)
      { voxelCoord := voxelCoord, fixedPoint := fixedPoint,
        sumValues := 0, sumValuesSquared := 0, numSamplesOk := 0,
        imageJacobian := st.imageJacobian, nzjis := st.nzjis, MT := MT, dMTdmu := st.dMTdmu }
    if s.numSamplesOk > 0 then
      let expectedValue := s.sumValues / (s.numSamplesOk : ℚ)
      let expectedSquaredValue := s.sumValuesSquared / (s.numSamplesOk : ℚ)
      some { m_NumberOfPixelsCounted := st.m_NumberOfPixelsCounted + 1
             measure := st.measure + (expectedSquaredValue - expectedValue * expectedValue)
             derivative := updateDerivative (realNumLastDimPositions cfg c) s.nzjis s.MT s.dMTdmu
               expectedValue s.numSamplesOk st.derivative
             lastDimPositions := lastDimPositions
             imageJacobian := s.imageJacobian
             nzjis := s.nzjis
             MT := s.MT
             dMTdmu := s.dMTdmu }
    else
      some { st with
             lastDimPositions := lastDimPositions
             imageJacobian := s.imageJacobian
             nzjis := s.nzjis
             MT := s.MT
             dMTdmu := s.dMTdmu }

/-- The loop `for ( fiter = fbegin; fiter != fend; ++fiter )` of `GetValueAndDerivative`; round
`i` seeds the generator `rng i`. -/
def derivativeSampleLoop (cfg : Config) (c : Collaborators) (parameters : List ℚ)
    (rng : Nat → RandomSource) : Nat → List Point → DerivativeState → Option DerivativeState
  | _, [], st => some st
  | call, fixedPoint :: rest, st =>
    match derivativeSampleBody cfg c parameters (rng call) st fixedPoint with
    | none => none
    | some st' => derivativeSampleLoop cfg c parameters rng (call + 1) rest st'

/-- The state of `GetValueAndDerivative` when it enters the loop over the sample container
(lines 295-338). -/
def derivativeInit (cfg : Config) (c : Collaborators) : DerivativeState :=
  { m_NumberOfPixelsCounted := 0
    measure := 0
    derivative := List.replicate c.GetNumberOfParameters 0
    lastDimPositions := allPositions c.lastDimSize
    imageJacobian := List.replicate c.GetNumberOfNonZeroJacobianIndices 0
    nzjis := List.replicate (realNumLastDimPositions cfg c) []
    MT := List.replicate (realNumLastDimPositions cfg c) 0
    dMTdmu := List.replicate (realNumLastDimPositions cfg c) [] }

/-- `GetValueAndDerivative( parameters, value, derivative )`: the numbers written to `value` and
`derivative`. `numberOfPixelsCounted` is the member `m_NumberOfPixelsCounted` before the call,
`derivative` the content of the output argument before the call. -/
def GetValueAndDerivative (cfg : Config) (c : Collaborators) (rng : Nat → RandomSource)
    (_numberOfPixelsCounted : Nat) (parameters : List ℚ) (sampleContainer : List Point)
    (_derivative : List ℚ) : Outcome (ℚ × List ℚ) :=
  match derivativeSampleLoop cfg c parameters rng 0 sampleContainer (derivativeInit cfg c) with
  | none => .samplerUnfinished
  | some st =>
    if c.CheckNumberOfSamples sampleContainer.length st.m_NumberOfPixelsCounted then
      if st.m_NumberOfPixelsCounted = 0 then .divisionByZero
      else .returned (st.measure / (st.m_NumberOfPixelsCounted : ℚ),
        st.derivative.map (fun x => x / (st.m_NumberOfPixelsCounted : ℚ)))
    else .insufficientSamples

/-- `GetDerivative( parameters, derivative )`: calls `GetValueAndDerivative` with a dummy value
and keeps the derivative. -/
def GetDerivative (cfg : Config) (c : Collaborators) (rng : Nat → RandomSource)
    (numberOfPixelsCounted : Nat) (parameters : List ℚ) (sampleContainer : List Point)
    (derivative : List ℚ) : Outcome (List ℚ) :=
  (GetValueAndDerivative cfg c rng numberOfPixelsCounted parameters sampleContainer
    derivative).map Prod.snd

/-! ## The position sets of a call -/

/-- The content of `lastDimPositions` during the round of one spatial sample: the list drawn by
`SampleRandom( numLastDimSamples, lastDimSize, lastDimPositions )` in stochastic mode, the
list filled before the loop otherwise. -/
def chosenPositions (cfg : Config) (c : Collaborators) (gen : RandomSource) : Option (List Int) :=
  if cfg.m_SampleLastDimensionRandomly then
    (SampleRandom cfg.m_NumSamplesLastDimension c.lastDimSize gen []).map Prod.fst
  else some (allPositions c.lastDimSize)

/-- Every spatial sample of the container with the position list of its round; `none` when
some call of `SampleRandom` does not finish. -/
def positionsPerSample (cfg : Config) (c : Collaborators) (rng : Nat → RandomSource) :
    Nat → List Point → Option (List (Point × List Int))
  | _, [] => some []
  | call, x :: rest =>
    match chosenPositions cfg c (rng call), positionsPerSample cfg c rng (call + 1) rest with
    | some positions, some tagged => some ((x, positions) :: tagged)
    | _, _ => none

/-- The positions that the loop over `d` of `GetValue` writes into `voxelCoord[ lastDim ]`:
`lastDimPositions[ d ]` for `d` below `lastDimPositions.size()`. -/
def valuePathPositions (lastDimPositions : List Int) : List Int :=
  (List.range lastDimPositions.length).map (fun d => lastDimPositions.getD d 0)

/-- The positions that the first loop over `d` of `GetValueAndDerivative` writes into
`voxelCoord[ lastDim ]`: `lastDimPositions[ d ]` for `d` below `realNumLastDimPositions`. -/
def derivativePathPositions (cfg : Config) (c : Collaborators) (lastDimPositions : List Int) :
    List Int :=
  (List.range (realNumLastDimPositions cfg c)).map (fun d => lastDimPositions.getD d 0)

/-! ## Reference definitions, after the specification -/

namespace Reference

/-- The full deterministic sequence `0..lastDimSize-1`. -/
def fullSequence (lastDimSize : Nat) : List Int :=
  (List.range lastDimSize).map Int.ofNat

/-- The fixed-space point of spatial sample `x` at last-dimension position `p`: the grid-index
coordinates of `x` with the last axis overwritten by `p`, converted back to physical
coordinates. -/
def pointAt (c : Collaborators) (x : Point) (p : Int) : Point :=
  c.TransformContinuousIndexToPhysicalPoint
    ((c.TransformPhysicalPointToContinuousIndex x).set c.lastDim (p : ℚ))

/-- The moving-space point that the transform maps `pointAt c x p` to. -/
def mappedAt (c : Collaborators) (parameters : List ℚ) (x : Point) (p : Int) : Point :=
  (c.TransformPoint parameters (pointAt c x p)).2

/-- A position is valid iff all three checks pass: the transform reports the point inside its
support, the mapped point lies inside the moving mask, the moving image can be evaluated. -/
def isValid (c : Collaborators) (parameters : List ℚ) (gradientMode : Bool) (x : Point)
    (p : Int) : Bool :=
  (c.TransformPoint parameters (pointAt c x p)).1
    && c.IsInsideMovingMask (mappedAt c parameters x p)
    && (c.EvaluateMovingImageValueAndDerivative (mappedAt c parameters x p) gradientMode).1

/-- The moving intensity observed for sample `x` at position `p`. -/
def intensityAt (c : Collaborators) (parameters : List ℚ) (gradientMode : Bool) (x : Point)
    (p : Int) : ℚ :=
  (c.EvaluateMovingImageValueAndDerivative (mappedAt c parameters x p) gradientMode).2.1

/-- The intensities `v_1..v_k` of the valid positions of one spatial sample. -/
def validIntensities (c : Collaborators) (parameters : List ℚ) (gradientMode : Bool)
    (sample : Point × List Int) : List ℚ :=
  (sample.2.filter (isValid c parameters gradientMode sample.1)).map
    (intensityAt c parameters gradientMode sample.1)

/-- The biased variance `(Σ v²)/k − ((Σ v)/k)²` of `k` intensities. -/
def variance (vs : List ℚ) : ℚ :=
  (vs.map (fun v => v ^ 2)).sum / (vs.length : ℚ) - (vs.sum / (vs.length : ℚ)) ^ 2

/-- The spatial samples that have at least one valid last-dimension position. -/
def countedSamples (c : Collaborators) (parameters : List ℚ) (gradientMode : Bool)
    (tagged : List (Point × List Int)) : List (Point × List Int) :=
  tagged.filter (fun sample => 1 ≤ (validIntensities c parameters gradientMode sample).length)

/-- The accumulated cost: the sum of the variances of the counted samples. -/
def accumulatedCost (c : Collaborators) (parameters : List ℚ) (gradientMode : Bool)
    (tagged : List (Point × List Int)) : ℚ :=
  ((countedSamples c parameters gradientMode tagged).map
    (fun sample => variance (validIntensities c parameters gradientMode sample))).sum

/-- The value: the accumulated cost divided by the count of counted samples. -/
def value (c : Collaborators) (parameters : List ℚ) (gradientMode : Bool)
    (tagged : List (Point × List Int)) : ℚ :=
  accumulatedCost c parameters gradientMode tagged
    / ((countedSamples c parameters gradientMode tagged).length : ℚ)

/-- The nonzero-Jacobian index list of sample `x` at position `p`. -/
def nonZeroIndicesAt (c : Collaborators) (parameters : List ℚ) (x : Point) (p : Int) :
    List Nat :=
  (c.EvaluateTransformJacobian parameters (pointAt c x p)).2

/-- The gradient-contribution vector of sample `x` at position `p`: the inner product of the
intensity's spatial derivative with the transform Jacobian, one entry per slot of the
nonzero-index list. -/
def contributionAt (c : Collaborators) (parameters : List ℚ) (x : Point) (p : Int) : List ℚ :=
  EvaluateTransformJacobianInnerProduct c.FixedImageDimension
    (c.EvaluateTransformJacobian parameters (pointAt c x p)).1
    (c.EvaluateMovingImageValueAndDerivative (mappedAt c parameters x p) true).2.2
    (List.replicate c.GetNumberOfNonZeroJacobianIndices 0)

/-- What one valid position `p` of a sample with mean `μ` and `k` valid positions adds to
gradient entry `j`: the sum over the slots `i` with `nzji_p[i] = j` of
`2·(v_p − μ)·contribution_p[i] / k`. -/
def positionGradient (c : Collaborators) (parameters : List ℚ) (x : Point) (mean : ℚ) (k : Nat)
    (j : Nat) (p : Int) : ℚ :=
  (((List.range (nonZeroIndicesAt c parameters x p).length).filter
      (fun i => (nonZeroIndicesAt c parameters x p).getD i 0 = j)).map
    (fun i => 2 * (intensityAt c parameters true x p - mean)
      * (contributionAt c parameters x p).getD i 0 / (k : ℚ))).sum

/-- What one spatial sample adds to gradient entry `j`: the sum of `positionGradient` over its
valid positions. -/
def sampleGradient (c : Collaborators) (parameters : List ℚ) (j : Nat)
    (sample : Point × List Int) : ℚ :=
  let vs := validIntensities c parameters true sample
  ((sample.2.filter (isValid c parameters true sample.1)).map
    (positionGradient c parameters sample.1 (vs.sum / (vs.length : ℚ)) vs.length j)).sum

/-- Entry `j` of the gradient: `1/counted` times the sum of `sampleGradient` over the counted
samples. -/
def gradient (c : Collaborators) (parameters : List ℚ) (tagged : List (Point × List Int))
    (j : Nat) : ℚ :=
  (1 / ((countedSamples c parameters true tagged).length : ℚ))
    * ((countedSamples c parameters true tagged).map (sampleGradient c parameters j)).sum

end Reference

/-! ## The buffers after the first loop of GetValueAndDerivative -/

/-- What the first loop leaves in `nzjis[ d ]` when slot `d` holds position `p` of sample `x`:
the index list of the transform when the position is valid, a list of zeros otherwise. -/
def slotIndices (c : Collaborators) (parameters : List ℚ) (x : Point) (p : Int) : List Nat :=
  if Reference.isValid c parameters true x p then Reference.nonZeroIndicesAt c parameters x p
  else List.replicate c.GetNumberOfNonZeroJacobianIndices 0

/-- What the first loop leaves in `MT[ d ]`: the intensity when the position is valid, the
zero of `std::fill` otherwise. -/
def slotIntensity (c : Collaborators) (parameters : List ℚ) (x : Point) (p : Int) : ℚ :=
  if Reference.isValid c parameters true x p then Reference.intensityAt c parameters true x p
  else 0

/-- What the first loop leaves in `dMTdmu[ d ]`: the inner product when the position is valid,
a zero-filled vector otherwise. -/
def slotContribution (c : Collaborators) (parameters : List ℚ) (x : Point) (p : Int) : List ℚ :=
  if Reference.isValid c parameters true x p then Reference.contributionAt c parameters x p
  else List.replicate c.GetNumberOfNonZeroJacobianIndices 0

/-- The loop invariant of the first loop over `d` of `GetValueAndDerivative`, after `n` rounds
on sample `x` with buffers of `size` slots. -/
structure FirstLoopInvariant (c : Collaborators) (parameters : List ℚ) (x : Point)
    (positions : List Int) (size n : Nat) (s : DerivativeLoopState) : Prop where
  /-- Only the last axis of `voxelCoord` has been overwritten. -/
  voxel : ∀ q : ℚ, s.voxelCoord.set c.lastDim q
    = (c.TransformPhysicalPointToContinuousIndex x).set c.lastDim q
  /-- The sum of the valid intensities so far. -/
  sum : s.sumValues = (Reference.validIntensities c parameters true
    (x, (List.range n).map (fun d => positions.getD d 0))).sum
  /-- The sum of their squares. -/
  sumSq : s.sumValuesSquared = ((Reference.validIntensities c parameters true
    (x, (List.range n).map (fun d => positions.getD d 0))).map (fun v => v * v)).sum
  /-- The count of valid positions so far. -/
  ok : s.numSamplesOk = (Reference.validIntensities c parameters true
    (x, (List.range n).map (fun d => positions.getD d 0))).length
  /-- The buffer `imageJacobian` keeps its size. -/
  sizeImageJacobian : s.imageJacobian.length = c.GetNumberOfNonZeroJacobianIndices
  /-- The buffer `nzjis` keeps its size. -/
  sizeNzjis : s.nzjis.length = size
  /-- The buffer `MT` keeps its size. -/
  sizeMT : s.MT.length = size
  /-- The buffer `dMTdmu` keeps its size. -/
  sizeDMTdmu : s.dMTdmu.length = size
  /-- The slots of `nzjis` written so far. -/
  slotNzjis : ∀ d, d < n → s.nzjis.getD d [] = slotIndices c parameters x (positions.getD d 0)
  /-- The slots of `MT`: written ones, and zeros beyond. -/
  slotMT : ∀ d, s.MT.getD d 0
    = if d < n then slotIntensity c parameters x (positions.getD d 0) else 0
  /-- The slots of `dMTdmu` written so far. -/
  slotDMTdmu : ∀ d, d < n
    → s.dMTdmu.getD d [] = slotContribution c parameters x (positions.getD d 0)

/-- The invariant of the loop over the sample container of `GetValueAndDerivative`: the sizes of
the buffers, and in deterministic mode the content of `lastDimPositions`. -/
structure SampleLoopInvariant (cfg : Config) (c : Collaborators) (st : DerivativeState) :
    Prop where
  /-- In deterministic mode `lastDimPositions` is never written. -/
  positions : cfg.m_SampleLastDimensionRandomly = false
    → st.lastDimPositions = allPositions c.lastDimSize
  /-- The size of `derivative`. -/
  sizeDerivative : st.derivative.length = c.GetNumberOfParameters
  /-- The size of `imageJacobian`. -/
  sizeImageJacobian : st.imageJacobian.length = c.GetNumberOfNonZeroJacobianIndices
  /-- The size of `nzjis`. -/
  sizeNzjis : st.nzjis.length = realNumLastDimPositions cfg c
  /-- The size of `MT`. -/
  sizeMT : st.MT.length = realNumLastDimPositions cfg c
  /-- The size of `dMTdmu`. -/
  sizeDMTdmu : st.dMTdmu.length = realNumLastDimPositions cfg c

/-- What the second loop adds to `derivative[ j ]` for a slot that holds position `p` of
sample `x`, with `expectedValue = mean` and `numSamplesOk = k`. -/
def slotGradient (c : Collaborators) (parameters : List ℚ) (x : Point) (mean : ℚ) (k : Nat)
    (j : Nat) (p : Int) : ℚ :=
  (((List.range (slotIndices c parameters x p).length).filter
      (fun i => (slotIndices c parameters x p).getD i 0 = j)).map
    (fun i => 2 * (slotIntensity c parameters x p - mean)
      * (slotContribution c parameters x p).getD i 0 / (k : ℚ))).sum

/-! ## Concrete scenes -/

/-- A scene with one spatial axis and the last dimension: points are `(x, t)`, image geometry
and transform are identities, the moving mask and the moving image depend on `t` alone, and
the transform has one parameter whose Jacobian column is `(1, 0)`, so that the inner product
at `t` is `contribution t`. -/
def tableScene (lastDimSize : Nat) (valid : ℚ → Bool) (intensity contribution : ℚ → ℚ)
    (policy : Nat → Nat → Bool) : Collaborators :=
  { FixedImageDimension := 2
    lastDimSize := lastDimSize
    TransformPhysicalPointToContinuousIndex := fun p => p
    TransformContinuousIndexToPhysicalPoint := fun p => p
    TransformPoint := fun _ p => (true, p)
    IsInsideMovingMask := fun p => valid (p.getD 1 0)
    EvaluateMovingImageValueAndDerivative := fun p _ =>
      (true, intensity (p.getD 1 0), [contribution (p.getD 1 0), 0])
    EvaluateTransformJacobian := fun _ _ => ([1, 0], [0])
    GetNumberOfParameters := 1
    GetNumberOfNonZeroJacobianIndices := 1
    CheckNumberOfSamples := policy }

/-- Three last-dimension positions with intensities `1, 1, 4` and contributions `1, 2, 1`, all
valid, under a policy that accepts every count. -/
def sceneRegression : Collaborators :=
  tableScene 3 (fun _ => true) (fun t => if t = 2 then 4 else 1)
    (fun t => if t = 1 then 2 else 1) (fun _ _ => true)

/-- The scene `sceneRegression` behind a moving mask that excludes every point. -/
def sceneNothingValid : Collaborators :=
  tableScene 3 (fun _ => false) (fun t => if t = 2 then 4 else 1)
    (fun t => if t = 1 then 2 else 1) (fun _ _ => true)

/-- The scene `sceneRegression` under the policy that asks for at least a quarter of the
samples. -/
def sceneQuarter : Collaborators :=
  tableScene 3 (fun _ => true) (fun t => if t = 2 then 4 else 1)
    (fun t => if t = 1 then 2 else 1) (fun wanted found => decide (wanted ≤ 4 * found))

/-- A last dimension of size two. -/
def sceneTwo : Collaborators :=
  tableScene 2 (fun _ => true) (fun t => t) (fun _ => 1) (fun _ _ => true)

/-- Stochastic mode with the number of samples requested. -/
def stochastic (numSamples : Nat) : Config :=
  { m_SampleLastDimensionRandomly := true, m_NumSamplesLastDimension := numSamples }

/-- A random source that yields the same draws at every call. -/
def fixedDraws (draws : List Int) : Nat → RandomSource := fun _ _ => draws

/-! ## Further scenes, the log of the checks, first occurrences -/

/-- The regression scene with the same contribution `1` at every position and the intensities
`1, 2, 3`. -/
def sceneConstantJacobian : Collaborators :=
  tableScene 3 (fun _ => true) (fun t => t + 1) (fun _ => 1) (fun _ _ => true)

/-- The regression scene with the same contribution `1` at every position and the intensities
`1, 1, 4`. -/
def sceneConstantJacobianSkewed : Collaborators :=
  tableScene 3 (fun _ => true) (fun t => if t = 2 then 4 else 1) (fun _ => 1) (fun _ _ => true)

/-- The regression scene with the intensity `5` at every position. -/
def sceneFlat : Collaborators :=
  tableScene 3 (fun _ => true) (fun _ => 5) (fun t => if t = 1 then 2 else 1) (fun _ _ => true)

/-- The regression scene behind a moving mask that keeps only the points whose first
coordinate is `0`. -/
def sceneHalfMasked : Collaborators :=
  { sceneRegression with IsInsideMovingMask := fun p => decide (p.getD 0 0 = 0) }

/-- The collaborators that the checks on one last-dimension position may consult. -/
inductive Consulted where
  /-- A call of `TransformPoint`. -/
  | transform : Consulted
  /-- A call of `IsInsideMovingMask`. -/
  | movingMask : Consulted
  /-- A call of `EvaluateMovingImageValueAndDerivative`. -/
  | interpolator : Consulted
  deriving DecidableEq, Repr

/-- The three checks of `checkSample` (lines 209-224 and 376-391) once more, with the list of
the collaborators consulted, in the order of the calls. -/
def checkSampleLogged (c : Collaborators) (parameters : List ℚ) (fixedPoint : Point)
    (wantDerivative : Bool) : (Bool × ℚ × List ℚ) × List Consulted :=
  let transformed := c.TransformPoint parameters fixedPoint
  let mappedPoint := transformed.2
  let afterTransform : Bool × List Consulted := (transformed.1, [Consulted.transform])
  let afterMask : Bool × List Consulted :=
    if afterTransform.1 then
      (c.IsInsideMovingMask mappedPoint, afterTransform.2 ++ [Consulted.movingMask])
    else afterTransform
  if afterMask.1 then
    (c.EvaluateMovingImageValueAndDerivative mappedPoint wantDerivative,
      afterMask.2 ++ [Consulted.interpolator])
  else ((afterMask.1, 0, []), afterMask.2)

/-- The values seen so far, extended by the values of `draws` that are new, each where it
first occurs. -/
def Reference.collectNew (seen draws : List Int) : List Int :=
  draws.foldl (fun seen r => if r ∈ seen then seen else seen ++ [r]) seen

/-- The distinct values of a draw sequence, listed in the order of their first occurrence. -/
def Reference.firstOccurrences (draws : List Int) : List Int :=
  Reference.collectNew [] draws

/-! ## Shifted intensities and the indexed accesses of GetValueAndDerivative -/

/-- The collaborators with the moving image's intensity replaced by intensity plus `shift` at
every point; validity flags, spatial derivatives and everything else are kept. -/
def shiftIntensity (c : Collaborators) (shift : ℚ) : Collaborators :=
  { c with
    EvaluateMovingImageValueAndDerivative := fun p wantDerivative =>
      ((c.EvaluateMovingImageValueAndDerivative p wantDerivative).1,
        (c.EvaluateMovingImageValueAndDerivative p wantDerivative).2.1 + shift,
        (c.EvaluateMovingImageValueAndDerivative p wantDerivative).2.2) }

/-- The vectors that `GetValueAndDerivative` indexes. -/
inductive Buffer where
  /-- The vector `lastDimPositions`. -/
  | lastDimPositions : Buffer
  /-- The vector `nzjis`. -/
  | nzjis : Buffer
  /-- The vector `MT`. -/
  | MT : Buffer
  /-- The vector `dMTdmu`. -/
  | dMTdmu : Buffer
  /-- The index list `nzjis[ d ]`. -/
  | nzjisRow : Buffer
  /-- The array `dMTdmu[ d ]`. -/
  | dMTdmuRow : Buffer
  /-- The array `derivative`. -/
  | derivative : Buffer
  deriving DecidableEq, Repr

/-- One indexed access: the vector, the index used and the size of the vector at that
moment. -/
structure Access where
  /-- The vector indexed. -/
  buffer : Buffer
  /-- The index used. -/
  index : Nat
  /-- The size of the vector. -/
  size : Nat
  deriving DecidableEq, Repr

/-- The indexed accesses of round `d` of the first loop over `t` (lines 365-418), entered in
state `s`: `lastDimPositions[ d ]`, then `nzjis[ d ]`, `MT[ d ]`, `dMTdmu[ d ]` for a valid
position and `dMTdmu[ d ]` twice and `nzjis[ d ]` otherwise. -/
def derivativeLoopAccesses (c : Collaborators) (parameters : List ℚ)
    (lastDimPositions : List Int) (s : DerivativeLoopState) (d : Nat) : List Access :=
  let voxelCoord := s.voxelCoord.set c.lastDim ((lastDimPositions.getD d 0 : Int) : ℚ)
  let fixedPoint := c.TransformContinuousIndexToPhysicalPoint voxelCoord
  let checked := checkSample c parameters fixedPoint true
  { buffer := Buffer.lastDimPositions, index := d, size := lastDimPositions.length } ::
    (if checked.1 then
      [{ buffer := Buffer.nzjis, index := d, size := s.nzjis.length },
       { buffer := Buffer.MT, index := d, size := s.MT.length },
       { buffer := Buffer.dMTdmu, index := d, size := s.dMTdmu.length }]
    else
      [{ buffer := Buffer.dMTdmu, index := d, size := s.dMTdmu.length },
       { buffer := Buffer.dMTdmu, index := d, size := s.dMTdmu.length },
       { buffer := Buffer.nzjis, index := d, size := s.nzjis.length }])

/-- The first loop over `t` with the list of its indexed accesses next to its state. -/
def derivativeLoopTraced (c : Collaborators) (parameters : List ℚ)
    (lastDimPositions : List Int) (realNumLastDimPositions : Nat) (s : DerivativeLoopState) :
    DerivativeLoopState × List Access :=
  (List.range realNumLastDimPositions).foldl
    (fun (traced : DerivativeLoopState × List Access) d =>
      (derivativeLoopBody c parameters lastDimPositions traced.1 d,
        traced.2 ++ derivativeLoopAccesses c parameters lastDimPositions traced.1 d))
    (s, [])

/-- The indexed accesses of the second loop over `t` (lines 431-437): for every `d` the read
`nzjis[ d ]` of the loop condition, and for every `j` below `nzjis[ d ].size()` the reads
`nzjis[ d ][ j ]`, `MT[ d ]`, `dMTdmu[ d ][ j ]` and the write `derivative[ nzjis[ d ][ j ] ]`. -/
def updateDerivativeAccesses (realNumLastDimPositions : Nat) (nzjis : List (List Nat))
    (MT : List ℚ) (dMTdmu : List (List ℚ)) (derivative : List ℚ) : List Access :=
  (List.range realNumLastDimPositions).flatMap (fun d =>
    { buffer := Buffer.nzjis, index := d, size := nzjis.length } ::
      (List.range (nzjis.getD d []).length).flatMap (fun j =>
        [{ buffer := Buffer.nzjis, index := d, size := nzjis.length },
         { buffer := Buffer.nzjisRow, index := j, size := (nzjis.getD d []).length },
         { buffer := Buffer.derivative, index := (nzjis.getD d []).getD j 0,
           size := derivative.length },
         { buffer := Buffer.MT, index := d, size := MT.length },
         { buffer := Buffer.dMTdmu, index := d, size := dMTdmu.length },
         { buffer := Buffer.dMTdmuRow, index := j, size := (dMTdmu.getD d []).length }]))

/-- The indexed accesses of the round of one spatial sample in `GetValueAndDerivative`; none
when `SampleRandom` does not finish. -/
def derivativeSampleAccesses (cfg : Config) (c : Collaborators) (parameters : List ℚ)
    (gen : RandomSource) (st : DerivativeState) (fixedPoint : Point) : List Access :=
  let numLastDimSamples := cfg.m_NumSamplesLastDimension
  let sampled :=
    if cfg.m_SampleLastDimensionRandomly then
      (SampleRandom numLastDimSamples c.lastDimSize gen st.lastDimPositions).map Prod.fst
    else some st.lastDimPositions
  match sampled with
  | none => []
  | some lastDimPositions =>
    let MT : List ℚ := List.replicate st.MT.length 0
    let voxelCoord := c.TransformPhysicalPointToContinuousIndex fixedPoint
    let traced := derivativeLoopTraced c parameters lastDimPositions
      (realNumLastDimPositions cfg c)
      { voxelCoord := voxelCoord, fixedPoint := fixedPoint,
        sumValues := 0, sumValuesSquared := 0, numSamplesOk := 0,
        imageJacobian := st.imageJacobian, nzjis := st.nzjis, MT := MT, dMTdmu := st.dMTdmu }
    traced.2 ++
      (if traced.1.numSamplesOk > 0 then
        updateDerivativeAccesses (realNumLastDimPositions cfg c) traced.1.nzjis traced.1.MT
          traced.1.dMTdmu st.derivative
      else [])

/-- The indexed accesses of the loop over the sample container in `GetValueAndDerivative`. -/
def derivativeSampleLoopAccesses (cfg : Config) (c : Collaborators) (parameters : List ℚ)
    (rng : Nat → RandomSource) : Nat → List Point → DerivativeState → List Access
  | _, [], _ => []
  | call, fixedPoint :: rest, st =>
    derivativeSampleAccesses cfg c parameters (rng call) st fixedPoint ++
      (match derivativeSampleBody cfg c parameters (rng call) st fixedPoint with
      | none => []
      | some st' => derivativeSampleLoopAccesses cfg c parameters rng (call + 1) rest st')

/-- The indexed accesses to `lastDimPositions`, `nzjis`, `MT`, `dMTdmu` and `derivative` that
a call of `GetValueAndDerivative` makes in its loop over the sample container. -/
def GetValueAndDerivativeAccesses (cfg : Config) (c : Collaborators)
    (rng : Nat → RandomSource) (parameters : List ℚ) (sampleContainer : List Point) :
    List Access :=
  derivativeSampleLoopAccesses cfg c parameters rng 0 sampleContainer (derivativeInit cfg c)

/-! ## The coordinates that a call evaluates -/

/-- The coordinate `voxelCoord[ lastDim ]` at which round `d` of the loop over `t` in `GetValue`
evaluates the sample, read from the state that `valueLoopBody` leaves, for every round below
`realNumLastDimPositions`. -/
def valueLoopVisited (c : Collaborators) (parameters : List ℚ) (lastDimPositions : List Int)
    (realNumLastDimPositions : Nat) (s : ValueLoopState) : ValueLoopState × List ℚ :=
  (List.range realNumLastDimPositions).foldl
    (fun (traced : ValueLoopState × List ℚ) d =>
      ((valueLoopBody c parameters lastDimPositions traced.1 d),
        traced.2 ++
          [(valueLoopBody c parameters lastDimPositions traced.1 d).voxelCoord.getD c.lastDim 0]))
    (s, [])

/-- The last-dimension coordinates at which the round of one spatial sample in `GetValue`
evaluates the moving image: the call of `SampleRandom` and the loop bound
`lastDimPositions.size()` are those of `valueSampleBody`. -/
def valueSampleVisited (cfg : Config) (c : Collaborators) (parameters : List ℚ)
    (gen : RandomSource) (st : ValueState) (fixedPoint : Point) : Option (List ℚ) :=
  let numLastDimSamples := cfg.m_NumSamplesLastDimension
  let sampled :=
    if cfg.m_SampleLastDimensionRandomly then
      (SampleRandom numLastDimSamples c.lastDimSize gen st.lastDimPositions).map Prod.fst
    else some st.lastDimPositions
  match sampled with
  | none => none
  | some lastDimPositions =>
    let voxelCoord := c.TransformPhysicalPointToContinuousIndex fixedPoint
    let realNumLastDimPositions := lastDimPositions.length
    some (valueLoopVisited c parameters lastDimPositions realNumLastDimPositions
      { voxelCoord := voxelCoord, fixedPoint := fixedPoint,
        sumValues := 0, sumValuesSquared := 0, numSamplesOk := 0 }).2

/-- The coordinates visited by the loop over the sample container in `GetValue`, one list for
every spatial sample. -/
def valueSampleLoopVisited (cfg : Config) (c : Collaborators) (parameters : List ℚ)
    (rng : Nat → RandomSource) : Nat → List Point → ValueState → Option (List (List ℚ))
  | _, [], _ => some []
  | call, fixedPoint :: rest, st =>
    match valueSampleVisited cfg c parameters (rng call) st fixedPoint,
      valueSampleBody cfg c parameters (rng call) st fixedPoint with
    | some visited, some st' =>
      (valueSampleLoopVisited cfg c parameters rng (call + 1) rest st').map
        (fun later => visited :: later)
    | _, _ => none

/-- The last-dimension coordinates at which a call of `GetValue` evaluates the moving image,
one list for every spatial sample of the container. -/
def GetValueVisited (cfg : Config) (c : Collaborators) (rng : Nat → RandomSource)
    (parameters : List ℚ) (sampleContainer : List Point) : Option (List (List ℚ)) :=
  valueSampleLoopVisited cfg c parameters rng 0 sampleContainer
    { m_NumberOfPixelsCounted := 0, measure := 0, lastDimPositions := allPositions c.lastDimSize }

/-- The coordinate `voxelCoord[ lastDim ]` at which round `d` of the first loop over `t` in
`GetValueAndDerivative` evaluates the sample, read from the state that `derivativeLoopBody`
leaves, for every round below `realNumLastDimPositions`. -/
def derivativeLoopVisited (c : Collaborators) (parameters : List ℚ)
    (lastDimPositions : List Int) (realNumLastDimPositions : Nat) (s : DerivativeLoopState) :
    DerivativeLoopState × List ℚ :=
  (List.range realNumLastDimPositions).foldl
    (fun (traced : DerivativeLoopState × List ℚ) d =>
      ((derivativeLoopBody c parameters lastDimPositions traced.1 d),
        traced.2 ++
          [(derivativeLoopBody c parameters lastDimPositions traced.1 d).voxelCoord.getD
            c.lastDim 0]))
    (s, [])

/-- The last-dimension coordinates at which the round of one spatial sample in
`GetValueAndDerivative` evaluates the moving image: the call of `SampleRandom` and the loop
bound `realNumLastDimPositions` are those of `derivativeSampleBody`. -/
def derivativeSampleVisited (cfg : Config) (c : Collaborators) (parameters : List ℚ)
    (gen : RandomSource) (st : DerivativeState) (fixedPoint : Point) : Option (List ℚ) :=
  let numLastDimSamples := cfg.m_NumSamplesLastDimension
  let sampled :=
    if cfg.m_SampleLastDimensionRandomly then
      (SampleRandom numLastDimSamples c.lastDimSize gen st.lastDimPositions).map Prod.fst
    else some st.lastDimPositions
  match sampled with
  | none => none
  | some lastDimPositions =>
    let MT : List ℚ := List.replicate st.MT.length 0
    let voxelCoord := c.TransformPhysicalPointToContinuousIndex fixedPoint
    some (derivativeLoopVisited c parameters lastDimPositions (realNumLastDimPositions cfg c)
      { voxelCoord := voxelCoord, fixedPoint := fixedPoint,
        sumValues := 0, sumValuesSquared := 0, numSamplesOk := 0,
        imageJacobian := st.imageJacobian, nzjis := st.nzjis, MT := MT, dMTdmu := st.dMTdmu }).2

/-- The coordinates visited by the loop over the sample container in `GetValueAndDerivative`,
one list for every spatial sample. -/
def derivativeSampleLoopVisited (cfg : Config) (c : Collaborators) (parameters : List ℚ)
    (rng : Nat → RandomSource) : Nat → List Point → DerivativeState → Option (List (List ℚ))
  | _, [], _ => some []
  | call, fixedPoint :: rest, st =>
    match derivativeSampleVisited cfg c parameters (rng call) st fixedPoint,
      derivativeSampleBody cfg c parameters (rng call) st fixedPoint with
    | some visited, some st' =>
      (derivativeSampleLoopVisited cfg c parameters rng (call + 1) rest st').map
        (fun later => visited :: later)
    | _, _ => none

/-- The last-dimension coordinates at which a call of `GetValueAndDerivative` evaluates the
moving image, one list for every spatial sample of the container. -/
def GetValueAndDerivativeVisited (cfg : Config) (c : Collaborators) (rng : Nat → RandomSource)
    (parameters : List ℚ) (sampleContainer : List Point) : Option (List (List ℚ)) :=
  derivativeSampleLoopVisited cfg c parameters rng 0 sampleContainer (derivativeInit cfg c)

/-- The coordinates of a list that are positions of the last dimension, `0 .. lastDimSize - 1`. -/
def positionsInside (lastDimSize : Nat) (visited : List ℚ) : List ℚ :=
  visited.filter (fun p => decide (0 ≤ p ∧ p ≤ (lastDimSize : ℚ) - 1))

/-! ## The arithmetic of the type double -/

/-- The integer nearest to `x`, the even one when two are equally near. -/
def roundHalfEven (x : ℚ) : Int :=
  let f := ⌊x⌋
  let r := x - (f : ℚ)
  if r < 1 / 2 then f
  else if 1 / 2 < r then f + 1
  else if f % 2 = 0 then f else f + 1

/-- The position of the leading binary digit of `n`, for `n ≥ 1`; `fuel` bounds the number of
halvings. -/
def leadingBit : Nat → Nat → Nat
  | 0, _ => 0
  | fuel + 1, n => if n < 2 then 0 else leadingBit fuel (n / 2) + 1

/-- The exponent `e` with `2 ^ e ≤ |q| < 2 ^ (e + 1)`, for `q ≠ 0`. -/
def binaryExponent (q : ℚ) : Int :=
  let e0 : Int :=
    (leadingBit q.num.natAbs q.num.natAbs : Int) - (leadingBit q.den q.den : Int)
  if |q| < (2 : ℚ) ^ e0 then e0 - 1 else e0

/-- The value of type `double` (IEEE 754 binary64: 53 significant binary digits, least exponent
`-1022`, gradual underflow) that the default rounding, to nearest with ties to even, makes of
the exact result `q` of an operation. Results beyond the largest finite double are outside
this description. -/
def roundToDouble (q : ℚ) : ℚ :=
  if q = 0 then 0
  else
    let e := max (binaryExponent q) (-1022)
    let ulp : ℚ := (2 : ℚ) ^ (e - 52)
    (roundHalfEven (q / ulp) : ℚ) * ulp

/-! ## GetValue and GetValueAndDerivative with rounded operations

The definitions of the sections `GetValue`, `EvaluateTransformJacobianInnerProduct` and
`GetValueAndDerivative` once more, with the result of every operation on doubles passed
through `fl`: the identity gives the definitions above, `roundToDouble` the arithmetic of the
compiled code. The conversions of counters and positions to `double` are exact. -/

/-- One round `d` of the loop over `t` in `GetValue` (lines 198-232), operations rounded. -/
def valueLoopBodyRounded (fl : ℚ → ℚ) (c : Collaborators) (parameters : List ℚ)
    (lastDimPositions : List Int) (s : ValueLoopState) (d : Nat) : ValueLoopState :=
  let voxelCoord := s.voxelCoord.set c.lastDim ((lastDimPositions.getD d 0 : Int) : ℚ)
  let fixedPoint := c.TransformContinuousIndexToPhysicalPoint voxelCoord
  let checked := checkSample c parameters fixedPoint false
  let movingImageValue := checked.2.1
  if checked.1 then
    { voxelCoord := voxelCoord
      fixedPoint := fixedPoint
      sumValues := fl (s.sumValues + movingImageValue)
      sumValuesSquared := fl (s.sumValuesSquared + fl (movingImageValue * movingImageValue))
      numSamplesOk := s.numSamplesOk + 1 }
  else
    { s with voxelCoord := voxelCoord, fixedPoint := fixedPoint }

/-- The body of the loop over the sample container in `GetValue`, operations rounded. -/
def valueSampleBodyRounded (fl : ℚ → ℚ) (cfg : Config) (c : Collaborators)
    (parameters : List ℚ) (gen : RandomSource) (st : ValueState) (fixedPoint : Point) :
    Option ValueState :=
  let numLastDimSamples := cfg.m_NumSamplesLastDimension
  let sampled :=
    if cfg.m_SampleLastDimensionRandomly then
      (SampleRandom numLastDimSamples c.lastDimSize gen st.lastDimPositions).map Prod.fst
    else some st.lastDimPositions
  match sampled with
  | none => none
  | some lastDimPositions =>
    let voxelCoord := c.TransformPhysicalPointToContinuousIndex fixedPoint
    let realNumLastDimPositions := lastDimPositions.length
    let s := (List.range realNumLastDimPositions).foldl
      (valueLoopBodyRounded fl c parameters lastDimPositions)
      { voxelCoord := voxelCoord, fixedPoint := fixedPoint,
        sumValues := 0, sumValuesSquared := 0, numSamplesOk := 0 }
    if s.numSamplesOk > 0 then
      let expectedValue := fl (s.sumValues / (s.numSamplesOk : ℚ))
      let expectedSquaredValue := fl (s.sumValuesSquared / (s.numSamplesOk : ℚ))
      some { m_NumberOfPixelsCounted := st.m_NumberOfPixelsCounted + 1
             measure :=
               fl (st.measure + fl (expectedSquaredValue - fl (expectedValue * expectedValue)))
             lastDimPositions := lastDimPositions }
    else
      some { st with lastDimPositions := lastDimPositions }

/-- The loop over the sample container of `GetValue`, operations rounded. -/
def valueSampleLoopRounded (fl : ℚ → ℚ) (cfg : Config) (c : Collaborators)
    (parameters : List ℚ) (rng : Nat → RandomSource) :
    Nat → List Point → ValueState → Option ValueState
  | _, [], st => some st
  | call, fixedPoint :: rest, st =>
    match valueSampleBodyRounded fl cfg c parameters (rng call) st fixedPoint with
    | none => none
    | some st' => valueSampleLoopRounded fl cfg c parameters rng (call + 1) rest st'

/-- `GetValue( parameters )` with the result of every operation on doubles passed through
`fl`. -/
def GetValueRounded (fl : ℚ → ℚ) (cfg : Config) (c : Collaborators) (rng : Nat → RandomSource)
    (_numberOfPixelsCounted : Nat) (parameters : List ℚ) (sampleContainer : List Point) :
    Outcome ℚ :=
  let init : ValueState :=
    { m_NumberOfPixelsCounted := 0, measure := 0, lastDimPositions := allPositions c.lastDimSize }
  match valueSampleLoopRounded fl cfg c parameters rng 0 sampleContainer init with
  | none => .samplerUnfinished
  | some st =>
    if c.CheckNumberOfSamples sampleContainer.length st.m_NumberOfPixelsCounted then
      if st.m_NumberOfPixelsCounted = 0 then .divisionByZero
      else .returned (fl (st.measure / (st.m_NumberOfPixelsCounted : ℚ)))
    else .insufficientSamples

/-- `EvaluateTransformJacobianInnerProduct` (lines 120-134) with `(*imjac) += (*jac) * imDeriv`
rounded after the product and after the sum. -/
def EvaluateTransformJacobianInnerProductRounded (fl : ℚ → ℚ) (FixedImageDimension : Nat)
    (jacobian : List ℚ) (movingImageDerivative : List ℚ) (imageJacobian : List ℚ) : List ℚ :=
  let sizeImageJacobian := imageJacobian.length
  let filled : List ℚ := List.replicate sizeImageJacobian 0
  ((List.range FixedImageDimension).foldl
    (fun (st : Nat × List ℚ) dim =>
      let imDeriv := movingImageDerivative.getD dim 0
      (List.range sizeImageJacobian).foldl
        (fun (st : Nat × List ℚ) mu =>
          (st.1 + 1, st.2.modify (fun x => fl (x + fl (jacobian.getD st.1 0 * imDeriv))) mu))
        st)
    (0, filled)).2

/-- One round `d` of the first loop over `t` in `GetValueAndDerivative` (lines 365-418),
operations rounded. -/
def derivativeLoopBodyRounded (fl : ℚ → ℚ) (c : Collaborators) (parameters : List ℚ)
    (lastDimPositions : List Int) (s : DerivativeLoopState) (d : Nat) : DerivativeLoopState :=
  let voxelCoord := s.voxelCoord.set c.lastDim ((lastDimPositions.getD d 0 : Int) : ℚ)
  let fixedPoint := c.TransformContinuousIndexToPhysicalPoint voxelCoord
  let checked := checkSample c parameters fixedPoint true
  let movingImageValue := checked.2.1
  let movingImageDerivative := checked.2.2
  if checked.1 then
    let evaluated := c.EvaluateTransformJacobian parameters fixedPoint
    let jacobian := evaluated.1
    let imageJacobian := EvaluateTransformJacobianInnerProductRounded fl c.FixedImageDimension
      jacobian movingImageDerivative s.imageJacobian
    { voxelCoord := voxelCoord
      fixedPoint := fixedPoint
      sumValues := fl (s.sumValues + movingImageValue)
      sumValuesSquared := fl (s.sumValuesSquared + fl (movingImageValue * movingImageValue))
      numSamplesOk := s.numSamplesOk + 1
      imageJacobian := imageJacobian
      nzjis := s.nzjis.set d evaluated.2
      MT := s.MT.set d movingImageValue
      dMTdmu := s.dMTdmu.set d imageJacobian }
  else
    { s with
      voxelCoord := voxelCoord
      fixedPoint := fixedPoint
      dMTdmu := s.dMTdmu.set d (List.replicate c.GetNumberOfNonZeroJacobianIndices 0)
      nzjis := s.nzjis.set d (List.replicate c.GetNumberOfNonZeroJacobianIndices 0) }

/-- The second loop over `t` (lines 431-437), rounded after the difference, after each of the
two products, after the quotient and after the sum of
`derivative[ nzjis[ d ][ j ] ] += ( 2.0 * ( MT[ d ] - expectedValue ) * dMTdmu[ d ][ j ] ) /
numSamplesOk`. -/
def updateDerivativeRounded (fl : ℚ → ℚ) (realNumLastDimPositions : Nat)
    (nzjis : List (List Nat)) (MT : List ℚ) (dMTdmu : List (List ℚ)) (expectedValue : ℚ)
    (numSamplesOk : Nat) (derivative : List ℚ) : List ℚ :=
  (List.range realNumLastDimPositions).foldl
    (fun derivative d =>
      (List.range (nzjis.getD d []).length).foldl
        (fun derivative j =>
          derivative.modify
            (fun x => fl (x +
              fl (fl (fl (2 * fl (MT.getD d 0 - expectedValue)) * (dMTdmu.getD d []).getD j 0)
                / (numSamplesOk : ℚ))))
            ((nzjis.getD d []).getD j 0))
        derivative)
    derivative

/-- The body of the loop over the sample container in `GetValueAndDerivative`, operations
rounded. -/
def derivativeSampleBodyRounded (fl : ℚ → ℚ) (cfg : Config) (c : Collaborators)
    (parameters : List ℚ) (gen : RandomSource) (st : DerivativeState) (fixedPoint : Point) :
    Option DerivativeState :=
  let numLastDimSamples := cfg.m_NumSamplesLastDimension
  let sampled :=
    if cfg.m_SampleLastDimensionRandomly then
      (SampleRandom numLastDimSamples c.lastDimSize gen st.lastDimPositions).map Prod.fst
    else some st.lastDimPositions
  match sampled with
  | none => none
  | some lastDimPositions =>
    let MT : List ℚ := List.replicate st.MT.length 0
    let voxelCoord := c.TransformPhysicalPointToContinuousIndex fixedPoint
    let s := (List.range (realNumLastDimPositions cfg c)).foldl
      (derivativeLoopBodyRounded fl c parameters lastDimPositions)
      { voxelCoord := voxelCoord, fixedPoint := fixedPoint,
        sumValues := 0, sumValuesSquared := 0, numSamplesOk := 0,
        imageJacobian := st.imageJacobian, nzjis := st.nzjis, MT := MT, dMTdmu := st.dMTdmu }
    if s.numSamplesOk > 0 then
      let expectedValue := fl (s.sumValues / (s.numSamplesOk : ℚ))
      let expectedSquaredValue := fl (s.sumValuesSquared / (s.numSamplesOk : ℚ))
      some { m_NumberOfPixelsCounted := st.m_NumberOfPixelsCounted + 1
             measure :=
               fl (st.measure + fl (expectedSquaredValue - fl (expectedValue * expectedValue)))
             derivative := updateDerivativeRounded fl (realNumLastDimPositions cfg c) s.nzjis
               s.MT s.dMTdmu expectedValue s.numSamplesOk st.derivative
             lastDimPositions := lastDimPositions
             imageJacobian := s.imageJacobian
             nzjis := s.nzjis
             MT := s.MT
             dMTdmu := s.dMTdmu }
    else
      some { st with
             lastDimPositions := lastDimPositions
             imageJacobian := s.imageJacobian
             nzjis := s.nzjis
             MT := s.MT
             dMTdmu := s.dMTdmu }

/-- The loop over the sample container of `GetValueAndDerivative`, operations rounded. -/
def derivativeSampleLoopRounded (fl : ℚ → ℚ) (cfg : Config) (c : Collaborators)
    (parameters : List ℚ) (rng : Nat → RandomSource) :
    Nat → List Point → DerivativeState → Option DerivativeState
  | _, [], st => some st
  | call, fixedPoint :: rest, st =>
    match derivativeSampleBodyRounded fl cfg c parameters (rng call) st fixedPoint with
    | none => none
    | some st' => derivativeSampleLoopRounded fl cfg c parameters rng (call + 1) rest st'

/-- `GetValueAndDerivative( parameters, value, derivative )` with the result of every operation
on doubles passed through `fl`. -/
def GetValueAndDerivativeRounded (fl : ℚ → ℚ) (cfg : Config) (c : Collaborators)
    (rng : Nat → RandomSource) (_numberOfPixelsCounted : Nat) (parameters : List ℚ)
    (sampleContainer : List Point) (_derivative : List ℚ) : Outcome (ℚ × List ℚ) :=
  match derivativeSampleLoopRounded fl cfg c parameters rng 0 sampleContainer
      (derivativeInit cfg c) with
  | none => .samplerUnfinished
  | some st =>
    if c.CheckNumberOfSamples sampleContainer.length st.m_NumberOfPixelsCounted then
      if st.m_NumberOfPixelsCounted = 0 then .divisionByZero
      else .returned (fl (st.measure / (st.m_NumberOfPixelsCounted : ℚ)),
        st.derivative.map (fun x => fl (x / (st.m_NumberOfPixelsCounted : ℚ))))
    else .insufficientSamples

/-- The double nearest to one tenth. -/
def tenth : ℚ := 3602879701896397 / 36028797018963968

/-- The regression scene with the intensity `tenth` at every position. -/
def sceneFlatTenth : Collaborators :=
  tableScene 3 (fun _ => true) (fun _ => tenth) (fun t => if t = 1 then 2 else 1)
    (fun _ _ => true)

/-- The regression scene with the same contribution `1` at every position and the intensities
`tenth`, `2 * tenth`, `4 * tenth`, the doubles nearest to `0.1`, `0.2` and `0.4`. -/
def sceneConstantJacobianTenths : Collaborators :=
  tableScene 3 (fun _ => true)
    (fun t => if t = 0 then tenth else if t = 1 then 2 * tenth else 4 * tenth)
    (fun _ => 1) (fun _ _ => true)

/-! ## Initialize -/

theorem Initialize_clamp_aux (cfg : Config) (lastDimSize : Nat) :
    (Initialize cfg lastDimSize).m_NumSamplesLastDimension
        = min cfg.m_NumSamplesLastDimension lastDimSize
      ∧ (Initialize cfg lastDimSize).m_NumSamplesLastDimension
        = (if cfg.m_NumSamplesLastDimension > lastDimSize then lastDimSize
           else cfg.m_NumSamplesLastDimension)
      ∧ (Initialize cfg lastDimSize).m_NumSamplesLastDimension ≤ lastDimSize
      ∧ (Initialize cfg lastDimSize).m_SampleLastDimensionRandomly
        = cfg.m_SampleLastDimensionRandomly
      ∧ Initialize (Initialize cfg lastDimSize) lastDimSize = Initialize cfg lastDimSize := by
  unfold Initialize
  by_cases h : cfg.m_NumSamplesLastDimension > lastDimSize
  · simp [h, Nat.min_eq_right (Nat.le_of_lt h)]
  · have h' : cfg.m_NumSamplesLastDimension ≤ lastDimSize := Nat.le_of_not_gt h
    simp [h, Nat.min_eq_left h', h']

/-- C9. After `Initialize` the effective `m_NumSamplesLastDimension` is `min r L`: exactly `L`
when the requested `r` exceeds `L`, unchanged otherwise; so it is at most `lastDimSize`, the
sampling mode is untouched, and a second `Initialize` changes nothing. -/
theorem Initialize_clamp (cfg : Config) (lastDimSize : Nat) :
    (Initialize cfg lastDimSize).m_NumSamplesLastDimension
        = min cfg.m_NumSamplesLastDimension lastDimSize
      ∧ (Initialize cfg lastDimSize).m_NumSamplesLastDimension
        = (if cfg.m_NumSamplesLastDimension > lastDimSize then lastDimSize
           else cfg.m_NumSamplesLastDimension)
      ∧ (Initialize cfg lastDimSize).m_NumSamplesLastDimension ≤ lastDimSize
      ∧ (Initialize cfg lastDimSize).m_SampleLastDimensionRandomly
        = cfg.m_SampleLastDimensionRandomly
      ∧ Initialize (Initialize cfg lastDimSize) lastDimSize = Initialize cfg lastDimSize :=
  Initialize_clamp_aux cfg lastDimSize

/-! ## SampleRandom -/

theorem drawUntilNew_some {numbers draws rest : List Int} {r : Int}
    (h : drawUntilNew numbers draws = some (r, rest)) :
    r ∉ numbers ∧ r ∈ draws ∧ (∀ y ∈ rest, y ∈ draws)
      ∧ (∀ y ∈ draws, y ∉ numbers → y = r ∨ y ∈ rest) := by
  induction draws with
  | nil => simp [drawUntilNew] at h
  | cons a tl ih =>
    unfold drawUntilNew at h
    by_cases ha : a ∈ numbers
    · rw [if_pos ha] at h
      obtain ⟨h1, h2, h3, h4⟩ := ih h
      refine ⟨h1, List.mem_cons_of_mem _ h2, fun y hy => List.mem_cons_of_mem _ (h3 y hy), ?_⟩
      intro y hy hyn
      rcases List.mem_cons.1 hy with rfl | hy'
      · exact absurd ha hyn
      · exact h4 y hy' hyn
    · rw [if_neg ha] at h
      simp only [Option.some.injEq, Prod.mk.injEq] at h
      obtain ⟨rfl, rfl⟩ := h
      refine ⟨ha, List.mem_cons_self _ _, fun y hy => List.mem_cons_of_mem _ hy, ?_⟩
      intro y hy _
      rcases List.mem_cons.1 hy with rfl | hy'
      · exact Or.inl rfl
      · exact Or.inr hy'

theorem drawUntilNew_isSome {numbers draws : List Int} {y : Int} (hy : y ∈ draws)
    (hyn : y ∉ numbers) : ∃ r rest, drawUntilNew numbers draws = some (r, rest) := by
  induction draws with
  | nil => simp at hy
  | cons a tl ih =>
    unfold drawUntilNew
    by_cases ha : a ∈ numbers
    · rw [if_pos ha]
      rcases List.mem_cons.1 hy with rfl | hy'
      · exact absurd ha hyn
      · exact ih hy'
    · rw [if_neg ha]
      exact ⟨a, tl, rfl⟩

theorem sampleLoop_some {k : Nat} {numbers draws out rest : List Int}
    (h : sampleLoop k numbers draws = some (out, rest)) :
    out.length = numbers.length + k ∧ (numbers.Nodup → out.Nodup)
      ∧ (∀ y ∈ out, y ∈ numbers ∨ y ∈ draws) := by
  induction k generalizing numbers draws with
  | zero =>
    simp only [sampleLoop, Option.some.injEq, Prod.mk.injEq] at h
    obtain ⟨rfl, rfl⟩ := h
    exact ⟨rfl, id, fun y hy => Or.inl hy⟩
  | succ k ih =>
    unfold sampleLoop at h
    cases hd : drawUntilNew numbers draws with
    | none => simp [hd] at h
    | some pr =>
      obtain ⟨r, rest'⟩ := pr
      simp only [hd] at h
      obtain ⟨h1, h2, h3, _⟩ := drawUntilNew_some hd
      obtain ⟨i1, i2, i3⟩ := ih h
      refine ⟨?_, ?_, ?_⟩
      · rw [i1, List.length_append, List.length_singleton]; omega
      · intro hnd
        apply i2
        rw [List.nodup_append]
        refine ⟨hnd, List.nodup_singleton r, ?_⟩
        intro a ha hb
        rw [List.mem_singleton] at hb
        subst hb
        exact h1 ha
      · intro y hy
        rcases i3 y hy with hy' | hy'
        · rcases List.mem_append.1 hy' with hy'' | hy''
          · exact Or.inl hy''
          · rw [List.mem_singleton] at hy''
            subst hy''
            exact Or.inr h2
        · exact Or.inr (h3 y hy')

theorem drawUntilNew_rest_length {numbers draws rest : List Int} {r : Int}
    (h : drawUntilNew numbers draws = some (r, rest)) : rest.length < draws.length := by
  induction draws with
  | nil => simp [drawUntilNew] at h
  | cons a tl ih =>
    unfold drawUntilNew at h
    by_cases ha : a ∈ numbers
    · rw [if_pos ha] at h
      have := ih h
      simp only [List.length_cons]
      omega
    · rw [if_neg ha] at h
      simp only [Option.some.injEq, Prod.mk.injEq] at h
      rw [← h.2]
      simp

theorem sampleLoop_rest_length {k : Nat} {numbers draws out rest : List Int}
    (h : sampleLoop k numbers draws = some (out, rest)) : rest.length ≤ draws.length := by
  induction k generalizing numbers draws with
  | zero =>
    simp only [sampleLoop, Option.some.injEq, Prod.mk.injEq] at h
    rw [h.2]
  | succ k ih =>
    unfold sampleLoop at h
    cases hd : drawUntilNew numbers draws with
    | none => simp [hd] at h
    | some pr =>
      obtain ⟨r, rest'⟩ := pr
      simp only [hd] at h
      exact (ih h).trans (Nat.le_of_lt (drawUntilNew_rest_length hd))

theorem sampleLoop_isSome (k : Nat) (numbers draws : List Int)
    (h : k ≤ (draws.toFinset \ numbers.toFinset).card) :
    ∃ out rest, sampleLoop k numbers draws = some (out, rest) := by
  induction k generalizing numbers draws with
  | zero => exact ⟨numbers, draws, rfl⟩
  | succ k ih =>
    have hpos : 0 < (draws.toFinset \ numbers.toFinset).card := by omega
    obtain ⟨y, hy⟩ := Finset.card_pos.1 hpos
    rw [Finset.mem_sdiff, List.mem_toFinset, List.mem_toFinset] at hy
    obtain ⟨r, rest, hd⟩ := drawUntilNew_isSome hy.1 hy.2
    obtain ⟨_, _, _, h4⟩ := drawUntilNew_some hd
    have hsub : draws.toFinset \ numbers.toFinset
        ⊆ insert r (rest.toFinset \ (numbers ++ [r]).toFinset) := by
      intro z hz
      rw [Finset.mem_sdiff, List.mem_toFinset, List.mem_toFinset] at hz
      rw [Finset.mem_insert, Finset.mem_sdiff, List.mem_toFinset, List.mem_toFinset]
      by_cases hzr : z = r
      · exact Or.inl hzr
      · right
        rcases h4 z hz.1 hz.2 with h' | h'
        · exact absurd h' hzr
        · refine ⟨h', ?_⟩
          intro hmem
          rcases List.mem_append.1 hmem with h'' | h''
          · exact hz.2 h''
          · exact hzr (List.mem_singleton.1 h'')
    have hcard := (Finset.card_le_card hsub).trans (Finset.card_insert_le _ _)
    obtain ⟨out, rest', hl⟩ := ih (numbers ++ [r]) rest (by omega)
    refine ⟨out, rest', ?_⟩
    unfold sampleLoop
    simp only [hd]
    exact hl

theorem SampleRandom_length {n m : Int} {gen : RandomSource} {numbers out rest : List Int}
    (h : SampleRandom n m gen numbers = some (out, rest)) : out.length = n.toNat := by
  have := (sampleLoop_some h).1
  simpa using this

/-- C6. Whenever `SampleRandom( n, m, numbers )` returns, with `n ≥ 0`, `m ≥ 0` and a random
source whose draws lie in the closed range `[0, m]`, the vector `numbers`, whatever it held
before, has exactly `n` elements, pairwise distinct, each in `[0, m]`. -/
theorem SampleRandom_postcondition (n m : Int) (gen : RandomSource) (numbers out rest : List Int)
    (hn : 0 ≤ n) (_hm : 0 ≤ m) (hgen : gen.InClosedRange m)
    (h : SampleRandom n m gen numbers = some (out, rest)) :
    (out.length : Int) = n ∧ out.Nodup ∧ ∀ x ∈ out, 0 ≤ x ∧ x ≤ m := by
  obtain ⟨h1, h2, h3⟩ := sampleLoop_some h
  refine ⟨?_, h2 List.nodup_nil, ?_⟩
  · rw [h1]
    simp [Int.toNat_of_nonneg hn]
  · intro x hx
    rcases h3 x hx with h' | h'
    · simp at h'
    · exact hgen x h'

/-- Witness of C6: two values out of `[0, 3]`, drawn from `1, 1, 2`, into a vector that held
`7`. -/
theorem SampleRandom_postcondition_witness :
    SampleRandom 2 3 (fun _ => [1, 1, 2]) [7] = some ([1, 2], [])
      ∧ ((([1, 2] : List Int).length : Int) = 2 ∧ ([1, 2] : List Int).Nodup
        ∧ ∀ x ∈ ([1, 2] : List Int), 0 ≤ x ∧ x ≤ 3) :=
  ⟨by decide,
    SampleRandom_postcondition 2 3 (fun _ => [1, 1, 2]) [7] [1, 2] [] (by decide) (by decide)
      (by
        intro x hx
        have : x = 1 ∨ x = 2 := by simpa using hx
        rcases this with rfl | rfl <;> decide)
      (by decide)⟩

/-- C10. For `0 ≤ n ≤ m + 1` and a draw sequence over `[0, m]` in which every value of `[0, m]`
occurs, `SampleRandom( n, m )` finishes within the sequence; for `n = m + 1` what it returns is
a permutation of `0..m`. -/
theorem SampleRandom_terminates (n m : Int) (gen : RandomSource) (numbers : List Int)
    (hn : 0 ≤ n) (hnm : n ≤ m + 1) (hgen : gen.InClosedRange m)
    (hall : ∀ v : Int, 0 ≤ v → v ≤ m → v ∈ gen m) :
    ∃ out rest, SampleRandom n m gen numbers = some (out, rest)
      ∧ rest.length ≤ (gen m).length
      ∧ (n = m + 1 → out.Perm ((List.range (m + 1).toNat).map Int.ofNat)) := by
  have hcard : n.toNat ≤ ((gen m).toFinset \ ([] : List Int).toFinset).card := by
    have hsub : Finset.Icc (0 : Int) m ⊆ (gen m).toFinset \ ([] : List Int).toFinset := by
      intro v hv
      rw [Finset.mem_Icc] at hv
      simp [hall v hv.1 hv.2]
    have := Finset.card_le_card hsub
    rw [Int.card_Icc] at this
    have h2 : n.toNat ≤ (m + 1 - 0).toNat := Int.toNat_le_toNat (by omega)
    omega
  obtain ⟨out, rest, h⟩ := sampleLoop_isSome n.toNat [] (gen m) hcard
  have hS : SampleRandom n m gen numbers = some (out, rest) := h
  obtain ⟨h1, h2, h3⟩ := sampleLoop_some h
  have hrest : rest.length ≤ (gen m).length := sampleLoop_rest_length h
  refine ⟨out, rest, hS, hrest, ?_⟩
  intro hEq
  have hnd : out.Nodup := h2 List.nodup_nil
  have hmem : ∀ x ∈ out, 0 ≤ x ∧ x ≤ m := by
    intro x hx
    rcases h3 x hx with h' | h'
    · simp at h'
    · exact hgen x h'
  have hlen : out.length = (m + 1).toNat := by
    rw [h1, hEq]; simp
  have hnd2 : ((List.range (m + 1).toNat).map Int.ofNat).Nodup :=
    (List.nodup_range _).map (fun a b hab => Int.ofNat.inj hab)
  apply List.perm_of_nodup_nodup_toFinset_eq hnd hnd2
  have hsub : out.toFinset ⊆ ((List.range (m + 1).toNat).map Int.ofNat).toFinset := by
    intro x hx
    rw [List.mem_toFinset] at hx
    obtain ⟨hx0, hxm⟩ := hmem x hx
    rw [List.mem_toFinset, List.mem_map]
    refine ⟨x.toNat, ?_, Int.toNat_of_nonneg hx0⟩
    rw [List.mem_range]
    omega
  apply Finset.eq_of_subset_of_card_le hsub
  rw [List.toFinset_card_of_nodup hnd, List.toFinset_card_of_nodup hnd2, hlen]
  simp

/-- Witness of C10: `n = 3 = m + 1` on the draws `2, 2, 0, 2, 1`. -/
theorem SampleRandom_terminates_witness :
    ∃ out rest, SampleRandom 3 2 (fun _ => [2, 2, 0, 2, 1]) [] = some (out, rest)
      ∧ rest.length ≤ ([2, 2, 0, 2, 1] : List Int).length
      ∧ ((3 : Int) = 2 + 1 → out.Perm ((List.range ((2 : Int) + 1).toNat).map Int.ofNat)) :=
  SampleRandom_terminates 3 2 (fun _ => [2, 2, 0, 2, 1]) [] (by decide) (by decide)
    (by
      intro x hx
      have : x = 2 ∨ x = 0 ∨ x = 2 ∨ x = 1 := by simpa using hx
      rcases this with rfl | rfl | rfl | rfl <;> decide)
    (by
      intro v h0 hm
      have : v = 0 ∨ v = 1 ∨ v = 2 := by omega
      rcases this with rfl | rfl | rfl <;> simp)

/-! ## The checks on one position -/

theorem checkSample_fst (c : Collaborators) (parameters : List ℚ) (x : Point) (p : Int)
    (gradientMode : Bool) :
    (checkSample c parameters (Reference.pointAt c x p) gradientMode).1
      = Reference.isValid c parameters gradientMode x p := by
  unfold checkSample Reference.isValid Reference.mappedAt
  cases h1 : (c.TransformPoint parameters (Reference.pointAt c x p)).1 <;>
    cases h2 : c.IsInsideMovingMask (c.TransformPoint parameters (Reference.pointAt c x p)).2 <;>
    simp [h1, h2]

theorem checkSample_snd (c : Collaborators) (parameters : List ℚ) (x : Point) (p : Int)
    (gradientMode : Bool) (h : Reference.isValid c parameters gradientMode x p = true) :
    (checkSample c parameters (Reference.pointAt c x p) gradientMode).2
      = (c.EvaluateMovingImageValueAndDerivative (Reference.mappedAt c parameters x p)
          gradientMode).2 := by
  unfold Reference.isValid at h
  simp only [Bool.and_eq_true] at h
  unfold checkSample
  simp only [h.1.1]
  unfold Reference.mappedAt at h
  simp [h.1.2, Reference.mappedAt]

theorem visited_positions_succ (positions : List Int) (n : Nat) :
    (List.range (n + 1)).map (fun d => positions.getD d 0)
      = (List.range n).map (fun d => positions.getD d 0) ++ [positions.getD n 0] := by
  rw [List.range_succ, List.map_append]
  rfl

theorem visited_positions_length (positions : List Int) :
    (List.range positions.length).map (fun d => positions.getD d 0) = positions := by
  apply List.ext_getElem
  · simp
  · intro i h1 h2
    simp [List.getElem?_eq_getElem h2]

theorem validIntensities_append (c : Collaborators) (parameters : List ℚ) (gradientMode : Bool)
    (x : Point) (ps : List Int) (p : Int) :
    Reference.validIntensities c parameters gradientMode (x, ps ++ [p])
      = Reference.validIntensities c parameters gradientMode (x, ps)
        ++ (if Reference.isValid c parameters gradientMode x p
            then [Reference.intensityAt c parameters gradientMode x p] else []) := by
  unfold Reference.validIntensities
  by_cases h : Reference.isValid c parameters gradientMode x p = true
  · simp [List.filter_append, h]
  · simp [List.filter_append, h]

/-! ## The value path -/

theorem valueLoop_fold (c : Collaborators) (parameters : List ℚ) (x : Point)
    (positions : List Int) (n : Nat) :
    (∀ q : ℚ, ((List.range n).foldl (valueLoopBody c parameters positions)
        { voxelCoord := c.TransformPhysicalPointToContinuousIndex x, fixedPoint := x,
          sumValues := 0, sumValuesSquared := 0, numSamplesOk := 0 }).voxelCoord.set c.lastDim q
        = (c.TransformPhysicalPointToContinuousIndex x).set c.lastDim q)
    ∧ ((List.range n).foldl (valueLoopBody c parameters positions)
        { voxelCoord := c.TransformPhysicalPointToContinuousIndex x, fixedPoint := x,
          sumValues := 0, sumValuesSquared := 0, numSamplesOk := 0 }).sumValues
        = (Reference.validIntensities c parameters false
            (x, (List.range n).map (fun d => positions.getD d 0))).sum
    ∧ ((List.range n).foldl (valueLoopBody c parameters positions)
        { voxelCoord := c.TransformPhysicalPointToContinuousIndex x, fixedPoint := x,
          sumValues := 0, sumValuesSquared := 0, numSamplesOk := 0 }).sumValuesSquared
        = ((Reference.validIntensities c parameters false
            (x, (List.range n).map (fun d => positions.getD d 0))).map (fun v => v * v)).sum
    ∧ ((List.range n).foldl (valueLoopBody c parameters positions)
        { voxelCoord := c.TransformPhysicalPointToContinuousIndex x, fixedPoint := x,
          sumValues := 0, sumValuesSquared := 0, numSamplesOk := 0 }).numSamplesOk
        = (Reference.validIntensities c parameters false
            (x, (List.range n).map (fun d => positions.getD d 0))).length := by
  induction n with
  | zero => simp [Reference.validIntensities]
  | succ n ih =>
    obtain ⟨ih1, ih2, ih3, ih4⟩ := ih
    rw [visited_positions_succ, validIntensities_append, List.range_succ, List.foldl_append]
    simp only [List.foldl_cons, List.foldl_nil]
    generalize (List.range n).foldl (valueLoopBody c parameters positions)
        { voxelCoord := c.TransformPhysicalPointToContinuousIndex x, fixedPoint := x,
          sumValues := 0, sumValuesSquared := 0, numSamplesOk := 0 } = s at ih1 ih2 ih3 ih4
    have hpt : c.TransformContinuousIndexToPhysicalPoint
        (s.voxelCoord.set c.lastDim ((positions.getD n 0 : Int) : ℚ))
        = Reference.pointAt c x (positions.getD n 0) := by
      rw [ih1]; rfl
    unfold valueLoopBody
    simp only [hpt, checkSample_fst]
    by_cases hv : Reference.isValid c parameters false x (positions.getD n 0) = true
    · have h2 := checkSample_snd c parameters x (positions.getD n 0) false hv
      simp only [hv, if_true, h2]
      refine ⟨?_, ?_, ?_, ?_⟩
      · intro q; rw [List.set_set, ih1]
      · simp [ih2, Reference.intensityAt]
      · simp [ih3, Reference.intensityAt]
      · simp [ih4]
    · simp only [hv]
      refine ⟨?_, ?_, ?_, ?_⟩
      · intro q; simp [List.set_set, ih1]
      · simp [ih2]
      · simp [ih3]
      · simp [ih4]

theorem variance_eq (vs : List ℚ) :
    (vs.map (fun v => v * v)).sum / (vs.length : ℚ)
        - vs.sum / (vs.length : ℚ) * (vs.sum / (vs.length : ℚ))
      = Reference.variance vs := by
  unfold Reference.variance
  have h : (fun v : ℚ => v ^ 2) = (fun v : ℚ => v * v) := by
    funext v; ring
  rw [h]; ring

theorem chosenPositions_sampled (cfg : Config) (c : Collaborators) (gen : RandomSource)
    (lastDimPositions ps : List Int) (hps : chosenPositions cfg c gen = some ps)
    (hdet : cfg.m_SampleLastDimensionRandomly = false
      → lastDimPositions = allPositions c.lastDimSize) :
    (if cfg.m_SampleLastDimensionRandomly then
      (SampleRandom cfg.m_NumSamplesLastDimension c.lastDimSize gen lastDimPositions).map Prod.fst
    else some lastDimPositions) = some ps := by
  unfold chosenPositions at hps
  cases hr : cfg.m_SampleLastDimensionRandomly with
  | true =>
    rw [hr] at hps
    simpa [SampleRandom] using hps
  | false =>
    rw [hr] at hps
    rw [hdet hr]
    simpa using hps

theorem chosenPositions_deterministic (cfg : Config) (c : Collaborators) (gen : RandomSource)
    (hdet : cfg.m_SampleLastDimensionRandomly = false) :
    chosenPositions cfg c gen = some (allPositions c.lastDimSize) := by
  simp [chosenPositions, hdet]

theorem valueSampleBody_eq (cfg : Config) (c : Collaborators) (parameters : List ℚ)
    (gen : RandomSource) (st : ValueState) (x : Point) (ps : List Int)
    (hps : chosenPositions cfg c gen = some ps)
    (hdet : cfg.m_SampleLastDimensionRandomly = false
      → st.lastDimPositions = allPositions c.lastDimSize) :
    ∃ st', valueSampleBody cfg c parameters gen st x = some st'
      ∧ st'.lastDimPositions = ps
      ∧ st'.m_NumberOfPixelsCounted = st.m_NumberOfPixelsCounted
          + (if 1 ≤ (Reference.validIntensities c parameters false (x, ps)).length then 1 else 0)
      ∧ st'.measure = st.measure
          + (if 1 ≤ (Reference.validIntensities c parameters false (x, ps)).length
             then Reference.variance (Reference.validIntensities c parameters false (x, ps))
             else 0) := by
  have hs := chosenPositions_sampled cfg c gen st.lastDimPositions ps hps hdet
  obtain ⟨_, f2, f3, f4⟩ := valueLoop_fold c parameters x ps ps.length
  rw [visited_positions_length] at f2 f3 f4
  unfold valueSampleBody
  simp only [hs]
  by_cases hk : 1 ≤ (Reference.validIntensities c parameters false (x, ps)).length
  · have hk' : ((List.range ps.length).foldl (valueLoopBody c parameters ps)
        { voxelCoord := c.TransformPhysicalPointToContinuousIndex x, fixedPoint := x,
          sumValues := 0, sumValuesSquared := 0, numSamplesOk := 0 }).numSamplesOk > 0 := by
      rw [f4]; exact hk
    simp only [hk', if_true, hk]
    refine ⟨_, rfl, rfl, rfl, ?_⟩
    simp only [f2, f3, f4, variance_eq]
  · have hk' : ¬ ((List.range ps.length).foldl (valueLoopBody c parameters ps)
        { voxelCoord := c.TransformPhysicalPointToContinuousIndex x, fixedPoint := x,
          sumValues := 0, sumValuesSquared := 0, numSamplesOk := 0 }).numSamplesOk > 0 := by
      rw [f4]; exact hk
    simp only [hk', if_false, hk]
    exact ⟨_, rfl, rfl, by simp, by simp⟩

theorem positionsPerSample_cons {cfg : Config} {c : Collaborators} {rng : Nat → RandomSource}
    {call : Nat} {x : Point} {rest : List Point} {tagged : List (Point × List Int)}
    (h : positionsPerSample cfg c rng call (x :: rest) = some tagged) :
    ∃ ps tl, chosenPositions cfg c (rng call) = some ps
      ∧ positionsPerSample cfg c rng (call + 1) rest = some tl ∧ tagged = (x, ps) :: tl := by
  unfold positionsPerSample at h
  cases h1 : chosenPositions cfg c (rng call) with
  | none => simp [h1] at h
  | some ps =>
    cases h2 : positionsPerSample cfg c rng (call + 1) rest with
    | none => simp [h1, h2] at h
    | some tl =>
      simp only [h1, h2, Option.some.injEq] at h
      exact ⟨ps, tl, rfl, rfl, h.symm⟩

theorem positionsPerSample_deterministic (cfg : Config) (c : Collaborators)
    (rng : Nat → RandomSource) (hdet : cfg.m_SampleLastDimensionRandomly = false)
    (call : Nat) (xs : List Point) :
    positionsPerSample cfg c rng call xs
      = some (xs.map (fun x => (x, Reference.fullSequence c.lastDimSize))) := by
  induction xs generalizing call with
  | nil => rfl
  | cons x rest ih =>
    unfold positionsPerSample
    rw [chosenPositions_deterministic cfg c _ hdet, ih]
    rfl

theorem positionsPerSample_length {cfg : Config} {c : Collaborators} {rng : Nat → RandomSource}
    {call : Nat} {xs : List Point} {tagged : List (Point × List Int)}
    (h : positionsPerSample cfg c rng call xs = some tagged) : tagged.length = xs.length := by
  induction xs generalizing call tagged with
  | nil =>
    simp only [positionsPerSample, Option.some.injEq] at h
    subst h
    rfl
  | cons x rest ih =>
    obtain ⟨ps, tl, _, h2, rfl⟩ := positionsPerSample_cons h
    simp [ih h2]

theorem countedSamples_cons (c : Collaborators) (parameters : List ℚ) (gradientMode : Bool)
    (sample : Point × List Int) (tl : List (Point × List Int)) :
    Reference.countedSamples c parameters gradientMode (sample :: tl)
      = if 1 ≤ (Reference.validIntensities c parameters gradientMode sample).length
        then sample :: Reference.countedSamples c parameters gradientMode tl
        else Reference.countedSamples c parameters gradientMode tl := by
  unfold Reference.countedSamples
  rw [List.filter_cons]
  simp

theorem countedSamples_length_le (c : Collaborators) (parameters : List ℚ) (gradientMode : Bool)
    (tagged : List (Point × List Int)) :
    (Reference.countedSamples c parameters gradientMode tagged).length ≤ tagged.length :=
  List.length_filter_le _ _

theorem valueSampleLoop_eq (cfg : Config) (c : Collaborators) (parameters : List ℚ)
    (rng : Nat → RandomSource) (xs : List Point) :
    ∀ (call : Nat) (st : ValueState) (tagged : List (Point × List Int)),
      positionsPerSample cfg c rng call xs = some tagged →
      (cfg.m_SampleLastDimensionRandomly = false
        → st.lastDimPositions = allPositions c.lastDimSize) →
      ∃ st', valueSampleLoop cfg c parameters rng call xs st = some st'
        ∧ st'.m_NumberOfPixelsCounted = st.m_NumberOfPixelsCounted
            + (Reference.countedSamples c parameters false tagged).length
        ∧ st'.measure = st.measure + Reference.accumulatedCost c parameters false tagged := by
  induction xs with
  | nil =>
    intro call st tagged h _
    simp only [positionsPerSample, Option.some.injEq] at h
    subst h
    exact ⟨st, rfl, by simp [Reference.countedSamples],
      by simp [Reference.accumulatedCost, Reference.countedSamples]⟩
  | cons x rest ih =>
    intro call st tagged h hdet
    obtain ⟨ps, tl, h1, h2, rfl⟩ := positionsPerSample_cons h
    obtain ⟨st1, b1, b2, b3, b4⟩ := valueSampleBody_eq cfg c parameters (rng call) st x ps h1 hdet
    have hdet1 : cfg.m_SampleLastDimensionRandomly = false
        → st1.lastDimPositions = allPositions c.lastDimSize := by
      intro hd
      rw [b2]
      have := chosenPositions_deterministic cfg c (rng call) hd
      rw [h1] at this
      exact Option.some.inj this
    obtain ⟨st2, l1, l2, l3⟩ := ih (call + 1) st1 tl h2 hdet1
    refine ⟨st2, ?_, ?_, ?_⟩
    · unfold valueSampleLoop
      simp only [b1]
      exact l1
    · rw [l2, b3, countedSamples_cons]
      by_cases hk : 1 ≤ (Reference.validIntensities c parameters false (x, ps)).length
      · simp only [hk, if_true, List.length_cons]; omega
      · simp only [hk, if_false]; omega
    · rw [l3, b4]
      unfold Reference.accumulatedCost
      rw [countedSamples_cons]
      by_cases hk : 1 ≤ (Reference.validIntensities c parameters false (x, ps)).length
      · simp only [hk, if_true, List.map_cons, List.sum_cons]; ring
      · simp only [hk, if_false]; ring

/-- What `GetValue` does with the position sets `tagged` of its spatial samples. -/
theorem GetValue_eq (cfg : Config) (c : Collaborators) (rng : Nat → RandomSource)
    (numberOfPixelsCounted : Nat) (parameters : List ℚ) (sampleContainer : List Point)
    (tagged : List (Point × List Int))
    (h : positionsPerSample cfg c rng 0 sampleContainer = some tagged) :
    GetValue cfg c rng numberOfPixelsCounted parameters sampleContainer
      = if c.CheckNumberOfSamples sampleContainer.length
            (Reference.countedSamples c parameters false tagged).length then
          if (Reference.countedSamples c parameters false tagged).length = 0 then
            .divisionByZero
          else .returned (Reference.value c parameters false tagged)
        else .insufficientSamples := by
  obtain ⟨st, l1, l2, l3⟩ := valueSampleLoop_eq cfg c parameters rng sampleContainer 0
    { m_NumberOfPixelsCounted := 0, measure := 0, lastDimPositions := allPositions c.lastDimSize }
    tagged h (fun _ => rfl)
  unfold GetValue
  simp only [l1, l2, l3, Nat.zero_add, zero_add]
  rfl

/-! ## The gradient path -/

theorem getD_set_eq {α : Type} (l : List α) (i : Nat) (a d : α) (h : i < l.length) :
    (l.set i a).getD i d = a := by
  simp [List.getElem?_set, h]

theorem getD_set_ne {α : Type} (l : List α) {i j : Nat} (a d : α) (h : i ≠ j) :
    (l.set i a).getD j d = l.getD j d := by
  simp [List.getElem?_set, h]

theorem getD_modify_add (l : List ℚ) (i j : Nat) (t : ℚ) (hj : j < l.length) :
    (l.modify (fun x => x + t) i).getD j 0 = l.getD j 0 + if i = j then t else 0 := by
  simp only [List.getD_eq_getElem?_getD, List.getElem?_modify, List.getElem?_eq_getElem hj]
  by_cases h : i = j <;> simp [h]

theorem innerProduct_prior (F : Nat) (jacobian movingImageDerivative imageJacobian : List ℚ) :
    EvaluateTransformJacobianInnerProduct F jacobian movingImageDerivative imageJacobian
      = EvaluateTransformJacobianInnerProduct F jacobian movingImageDerivative
          (List.replicate imageJacobian.length 0) := by
  simp [EvaluateTransformJacobianInnerProduct]

theorem innerProduct_inner_length (jacobian : List ℚ) (imDeriv : ℚ) (mus : List Nat)
    (st : Nat × List ℚ) :
    (mus.foldl (fun (st : Nat × List ℚ) mu =>
        (st.1 + 1, st.2.modify (fun x => x + jacobian.getD st.1 0 * imDeriv) mu)) st).2.length
      = st.2.length := by
  induction mus generalizing st with
  | nil => rfl
  | cons mu rest ih =>
    rw [List.foldl_cons, ih]
    simp

theorem innerProduct_length (F : Nat) (jacobian movingImageDerivative imageJacobian : List ℚ) :
    (EvaluateTransformJacobianInnerProduct F jacobian movingImageDerivative imageJacobian).length
      = imageJacobian.length := by
  unfold EvaluateTransformJacobianInnerProduct
  have key : ∀ (dims : List Nat) (st : Nat × List ℚ),
      (dims.foldl (fun (st : Nat × List ℚ) dim =>
        (List.range imageJacobian.length).foldl
          (fun (st : Nat × List ℚ) mu =>
            (st.1 + 1, st.2.modify
              (fun x => x + jacobian.getD st.1 0 * movingImageDerivative.getD dim 0) mu))
          st) st).2.length = st.2.length := by
    intro dims
    induction dims with
    | nil => intro st; rfl
    | cons dim rest ih =>
      intro st
      rw [List.foldl_cons, ih, innerProduct_inner_length]
  simpa using key (List.range F) (0, List.replicate imageJacobian.length 0)

theorem getD_replicate_zero (n d : Nat) : (List.replicate n (0 : ℚ)).getD d 0 = 0 := by
  simp only [List.getD_eq_getElem?_getD, List.getElem?_replicate]
  split <;> rfl

theorem derivativeLoopBody_invariant (c : Collaborators) (parameters : List ℚ) (x : Point)
    (positions : List Int) (size n : Nat) (s : DerivativeLoopState) (hn : n < size)
    (h : FirstLoopInvariant c parameters x positions size n s) :
    FirstLoopInvariant c parameters x positions size (n + 1)
      (derivativeLoopBody c parameters positions s n) := by
  have hpt : c.TransformContinuousIndexToPhysicalPoint
      (s.voxelCoord.set c.lastDim ((positions.getD n 0 : Int) : ℚ))
      = Reference.pointAt c x (positions.getD n 0) := by
    rw [h.voxel]; rfl
  unfold derivativeLoopBody
  simp only [hpt, checkSample_fst]
  by_cases hv : Reference.isValid c parameters true x (positions.getD n 0) = true
  · have h2 := checkSample_snd c parameters x (positions.getD n 0) true hv
    simp only [hv, if_true, h2]
    have hcontrib : EvaluateTransformJacobianInnerProduct c.FixedImageDimension
        (c.EvaluateTransformJacobian parameters (Reference.pointAt c x (positions.getD n 0))).1
        (c.EvaluateMovingImageValueAndDerivative
          (Reference.mappedAt c parameters x (positions.getD n 0)) true).2.2 s.imageJacobian
        = Reference.contributionAt c parameters x (positions.getD n 0) := by
      rw [innerProduct_prior, h.sizeImageJacobian]; rfl
    constructor
    · intro q; simp only [List.set_set]; exact h.voxel q
    · rw [visited_positions_succ, validIntensities_append]
      simp only [hv, if_true]
      simp [h.sum, Reference.intensityAt]
    · rw [visited_positions_succ, validIntensities_append]
      simp only [hv, if_true]
      simp [h.sumSq, Reference.intensityAt]
    · rw [visited_positions_succ, validIntensities_append]
      simp only [hv, if_true]
      simp [h.ok]
    · simp only [innerProduct_length]; exact h.sizeImageJacobian
    · simp only [List.length_set]; exact h.sizeNzjis
    · simp only [List.length_set]; exact h.sizeMT
    · simp only [List.length_set]; exact h.sizeDMTdmu
    · intro d hd
      by_cases hdn : d = n
      · subst hdn
        rw [getD_set_eq _ _ _ _ (by rw [h.sizeNzjis]; exact hn)]
        unfold slotIndices; rw [if_pos hv]; rfl
      · rw [getD_set_ne _ _ _ (Ne.symm hdn)]
        exact h.slotNzjis d (by omega)
    · intro d
      by_cases hdn : d = n
      · subst hdn
        rw [getD_set_eq _ _ _ _ (by rw [h.sizeMT]; exact hn)]
        unfold slotIntensity; rw [if_pos (by omega), if_pos hv]; rfl
      · rw [getD_set_ne _ _ _ (Ne.symm hdn), h.slotMT d]
        by_cases hlt : d < n
        · rw [if_pos hlt, if_pos (by omega)]
        · rw [if_neg hlt, if_neg (by omega)]
    · intro d hd
      by_cases hdn : d = n
      · subst hdn
        rw [getD_set_eq _ _ _ _ (by rw [h.sizeDMTdmu]; exact hn), hcontrib]
        unfold slotContribution; rw [if_pos hv]
      · rw [getD_set_ne _ _ _ (Ne.symm hdn)]
        exact h.slotDMTdmu d (by omega)
  · have hv' : Reference.isValid c parameters true x (positions.getD n 0) = false := by
      simpa using hv
    simp only [hv', Bool.false_eq_true, if_false]
    constructor
    · intro q; simp only [List.set_set]; exact h.voxel q
    · rw [visited_positions_succ, validIntensities_append]
      simp only [hv', Bool.false_eq_true, if_false]
      simp [h.sum]
    · rw [visited_positions_succ, validIntensities_append]
      simp only [hv', Bool.false_eq_true, if_false]
      simp [h.sumSq]
    · rw [visited_positions_succ, validIntensities_append]
      simp only [hv', Bool.false_eq_true, if_false]
      simp [h.ok]
    · exact h.sizeImageJacobian
    · simp only [List.length_set]; exact h.sizeNzjis
    · exact h.sizeMT
    · simp only [List.length_set]; exact h.sizeDMTdmu
    · intro d hd
      by_cases hdn : d = n
      · subst hdn
        rw [getD_set_eq _ _ _ _ (by rw [h.sizeNzjis]; exact hn)]
        unfold slotIndices; rw [hv']; rfl
      · rw [getD_set_ne _ _ _ (Ne.symm hdn)]
        exact h.slotNzjis d (by omega)
    · intro d
      by_cases hdn : d = n
      · subst hdn
        rw [h.slotMT d, if_neg (by omega), if_pos (by omega)]
        unfold slotIntensity; rw [hv']; rfl
      · rw [h.slotMT d]
        by_cases hlt : d < n
        · rw [if_pos hlt, if_pos (by omega)]
        · rw [if_neg hlt, if_neg (by omega)]
    · intro d hd
      by_cases hdn : d = n
      · subst hdn
        rw [getD_set_eq _ _ _ _ (by rw [h.sizeDMTdmu]; exact hn)]
        unfold slotContribution; rw [hv']; rfl
      · rw [getD_set_ne _ _ _ (Ne.symm hdn)]
        exact h.slotDMTdmu d (by omega)

theorem derivativeLoop_invariant (c : Collaborators) (parameters : List ℚ) (x : Point)
    (positions : List Int) (size : Nat) (s0 : DerivativeLoopState)
    (h0 : FirstLoopInvariant c parameters x positions size 0 s0) (n : Nat) (hn : n ≤ size) :
    FirstLoopInvariant c parameters x positions size n
      ((List.range n).foldl (derivativeLoopBody c parameters positions) s0) := by
  induction n with
  | zero => simpa using h0
  | succ n ih =>
    rw [List.range_succ, List.foldl_append]
    simp only [List.foldl_cons, List.foldl_nil]
    exact derivativeLoopBody_invariant c parameters x positions size n _ (by omega)
      (ih (by omega))

theorem firstLoopInvariant_init (c : Collaborators) (parameters : List ℚ) (x : Point)
    (positions : List Int) (size : Nat) (imageJacobian : List ℚ) (nzjis : List (List Nat))
    (dMTdmu : List (List ℚ)) (h1 : imageJacobian.length = c.GetNumberOfNonZeroJacobianIndices)
    (h2 : nzjis.length = size) (h3 : dMTdmu.length = size) :
    FirstLoopInvariant c parameters x positions size 0
      { voxelCoord := c.TransformPhysicalPointToContinuousIndex x, fixedPoint := x,
        sumValues := 0, sumValuesSquared := 0, numSamplesOk := 0,
        imageJacobian := imageJacobian, nzjis := nzjis, MT := List.replicate size 0,
        dMTdmu := dMTdmu } := by
  constructor
  · intro q; rfl
  · simp [Reference.validIntensities]
  · simp [Reference.validIntensities]
  · simp [Reference.validIntensities]
  · exact h1
  · exact h2
  · simp
  · exact h3
  · intro d hd; omega
  · intro d; rw [getD_replicate_zero]; simp
  · intro d hd; omega

theorem foldl_modify_length (is : List Nat) (idx : Nat → Nat) (t : Nat → ℚ) (der : List ℚ) :
    (is.foldl (fun der i => der.modify (fun x => x + t i) (idx i)) der).length = der.length := by
  induction is generalizing der with
  | nil => rfl
  | cons a rest ih => rw [List.foldl_cons, ih, List.length_modify]

theorem foldl_modify_getD (is : List Nat) (idx : Nat → Nat) (t : Nat → ℚ) (der : List ℚ)
    (j : Nat) (hj : j < der.length) :
    (is.foldl (fun der i => der.modify (fun x => x + t i) (idx i)) der).getD j 0
      = der.getD j 0 + ((is.filter (fun i => idx i = j)).map t).sum := by
  induction is generalizing der with
  | nil => simp
  | cons a rest ih =>
    rw [List.foldl_cons, ih _ (by rw [List.length_modify]; exact hj), getD_modify_add _ _ _ _ hj,
      List.filter_cons]
    by_cases h : idx a = j
    · simp only [h, if_true, decide_True, List.map_cons, List.sum_cons]; ring
    · simp only [h, if_false, decide_False, Bool.false_eq_true]; ring

theorem updateDerivative_length (n : Nat) (nzjis : List (List Nat)) (MT : List ℚ)
    (dMTdmu : List (List ℚ)) (mean : ℚ) (k : Nat) (der : List ℚ) :
    (updateDerivative n nzjis MT dMTdmu mean k der).length = der.length := by
  unfold updateDerivative
  generalize List.range n = ds
  induction ds generalizing der with
  | nil => rfl
  | cons d rest ih =>
    rw [List.foldl_cons, ih]
    exact foldl_modify_length _ (fun j => (nzjis.getD d []).getD j 0)
      (fun j => (2 * (MT.getD d 0 - mean) * (dMTdmu.getD d []).getD j 0) / (k : ℚ)) der

theorem updateDerivative_getD (n : Nat) (nzjis : List (List Nat)) (MT : List ℚ)
    (dMTdmu : List (List ℚ)) (mean : ℚ) (k : Nat) (der : List ℚ) (j : Nat)
    (hj : j < der.length) :
    (updateDerivative n nzjis MT dMTdmu mean k der).getD j 0
      = der.getD j 0 + ((List.range n).map (fun d =>
          (((List.range (nzjis.getD d []).length).filter
              (fun i => (nzjis.getD d []).getD i 0 = j)).map
            (fun i => 2 * (MT.getD d 0 - mean) * (dMTdmu.getD d []).getD i 0 / (k : ℚ))).sum)).sum := by
  unfold updateDerivative
  generalize List.range n = ds
  induction ds generalizing der with
  | nil => simp
  | cons d rest ih =>
    rw [List.foldl_cons, ih _ (by
      rw [foldl_modify_length _ (fun j => (nzjis.getD d []).getD j 0)
        (fun j => (2 * (MT.getD d 0 - mean) * (dMTdmu.getD d []).getD j 0) / (k : ℚ)) der]
      exact hj)]
    rw [foldl_modify_getD _ (fun j => (nzjis.getD d []).getD j 0)
        (fun j => (2 * (MT.getD d 0 - mean) * (dMTdmu.getD d []).getD j 0) / (k : ℚ)) der j hj]
    rw [List.map_cons, List.sum_cons]
    ring

theorem slotGradient_eq (c : Collaborators) (parameters : List ℚ) (x : Point) (mean : ℚ)
    (k j : Nat) (p : Int) :
    slotGradient c parameters x mean k j p
      = if Reference.isValid c parameters true x p
        then Reference.positionGradient c parameters x mean k j p else 0 := by
  unfold slotGradient slotIndices slotIntensity slotContribution Reference.positionGradient
  cases hv : Reference.isValid c parameters true x p with
  | true => simp
  | false =>
    simp only [Bool.false_eq_true, if_false]
    apply List.sum_eq_zero
    intro y hy
    rw [List.mem_map] at hy
    obtain ⟨i, _, rfl⟩ := hy
    rw [getD_replicate_zero]
    ring

theorem sum_map_filter_eq {α : Type} (l : List α) (v : α → Bool) (g h : α → ℚ)
    (hg : ∀ a, g a = if v a then h a else 0) :
    (l.map g).sum = ((l.filter v).map h).sum := by
  induction l with
  | nil => rfl
  | cons a rest ih =>
    rw [List.map_cons, List.sum_cons, ih, List.filter_cons, hg a]
    cases hv : v a <;> simp

theorem chosenPositions_length (cfg : Config) (c : Collaborators) (gen : RandomSource)
    (ps : List Int) (hps : chosenPositions cfg c gen = some ps) :
    ps.length = realNumLastDimPositions cfg c := by
  unfold chosenPositions at hps
  unfold realNumLastDimPositions
  cases hr : cfg.m_SampleLastDimensionRandomly with
  | true =>
    rw [hr] at hps
    simp only [if_true, Option.map_eq_some', Prod.exists, exists_and_right, exists_eq_right] at hps
    obtain ⟨rest, hS⟩ := hps
    simpa using SampleRandom_length hS
  | false =>
    rw [hr] at hps
    simp only [Bool.false_eq_true, if_false, Option.some.injEq] at hps
    rw [← hps]
    simp [allPositions]

theorem derivativeSampleBody_eq (cfg : Config) (c : Collaborators) (parameters : List ℚ)
    (gen : RandomSource) (st : DerivativeState) (x : Point) (ps : List Int)
    (hps : chosenPositions cfg c gen = some ps) (hinv : SampleLoopInvariant cfg c st) :
    ∃ st', derivativeSampleBody cfg c parameters gen st x = some st'
      ∧ SampleLoopInvariant cfg c st'
      ∧ st'.lastDimPositions = ps
      ∧ st'.m_NumberOfPixelsCounted = st.m_NumberOfPixelsCounted
          + (if 1 ≤ (Reference.validIntensities c parameters true (x, ps)).length then 1 else 0)
      ∧ st'.measure = st.measure
          + (if 1 ≤ (Reference.validIntensities c parameters true (x, ps)).length
             then Reference.variance (Reference.validIntensities c parameters true (x, ps))
             else 0)
      ∧ ∀ j, j < c.GetNumberOfParameters →
          st'.derivative.getD j 0 = st.derivative.getD j 0
            + (if 1 ≤ (Reference.validIntensities c parameters true (x, ps)).length
               then Reference.sampleGradient c parameters j (x, ps) else 0) := by
  have hs := chosenPositions_sampled cfg c gen st.lastDimPositions ps hps hinv.positions
  have hlen := chosenPositions_length cfg c gen ps hps
  have hdetps : cfg.m_SampleLastDimensionRandomly = false → ps = allPositions c.lastDimSize := by
    intro hd
    have := chosenPositions_deterministic cfg c gen hd
    rw [hps] at this
    exact Option.some.inj this
  have inv := derivativeLoop_invariant c parameters x ps (realNumLastDimPositions cfg c)
    { voxelCoord := c.TransformPhysicalPointToContinuousIndex x, fixedPoint := x,
      sumValues := 0, sumValuesSquared := 0, numSamplesOk := 0,
      imageJacobian := st.imageJacobian, nzjis := st.nzjis,
      MT := List.replicate (realNumLastDimPositions cfg c) 0, dMTdmu := st.dMTdmu }
    (firstLoopInvariant_init c parameters x ps _ _ _ _ hinv.sizeImageJacobian hinv.sizeNzjis
      hinv.sizeDMTdmu) (realNumLastDimPositions cfg c) (Nat.le_refl _)
  have hvisited : (List.range (realNumLastDimPositions cfg c)).map (fun d => ps.getD d 0) = ps := by
    rw [← hlen]; exact visited_positions_length ps
  unfold derivativeSampleBody
  simp only [hs, hinv.sizeMT]
  generalize (List.range (realNumLastDimPositions cfg c)).foldl
    (derivativeLoopBody c parameters ps)
    { voxelCoord := c.TransformPhysicalPointToContinuousIndex x, fixedPoint := x,
      sumValues := 0, sumValuesSquared := 0, numSamplesOk := 0,
      imageJacobian := st.imageJacobian, nzjis := st.nzjis,
      MT := List.replicate (realNumLastDimPositions cfg c) 0, dMTdmu := st.dMTdmu } = s at inv
  have f2 := inv.sum
  have f3 := inv.sumSq
  have f4 := inv.ok
  rw [hvisited] at f2 f3 f4
  by_cases hk : 1 ≤ (Reference.validIntensities c parameters true (x, ps)).length
  · have hk' : s.numSamplesOk > 0 := by rw [f4]; exact hk
    simp only [hk', if_true, hk]
    refine ⟨_, rfl, ?_, rfl, rfl, ?_, ?_⟩
    · constructor
      · exact hdetps
      · simp only [updateDerivative_length]; exact hinv.sizeDerivative
      · exact inv.sizeImageJacobian
      · exact inv.sizeNzjis
      · exact inv.sizeMT
      · exact inv.sizeDMTdmu
    · simp only [f2, f3, f4, variance_eq]
    · intro j hj
      simp only []
      rw [updateDerivative_getD _ _ _ _ _ _ _ j (by rw [hinv.sizeDerivative]; exact hj)]
      congr 1
      have hcongr : (List.range (realNumLastDimPositions cfg c)).map (fun d =>
          (((List.range (s.nzjis.getD d []).length).filter
              (fun i => (s.nzjis.getD d []).getD i 0 = j)).map
            (fun i => 2 * (s.MT.getD d 0 - s.sumValues / (s.numSamplesOk : ℚ))
              * (s.dMTdmu.getD d []).getD i 0 / (s.numSamplesOk : ℚ))).sum)
          = (List.range (realNumLastDimPositions cfg c)).map (fun d =>
              slotGradient c parameters x (s.sumValues / (s.numSamplesOk : ℚ)) s.numSamplesOk j
                (ps.getD d 0)) := by
        apply List.map_congr_left
        intro d hd
        rw [List.mem_range] at hd
        unfold slotGradient
        rw [inv.slotNzjis d hd, inv.slotMT d, if_pos hd, inv.slotDMTdmu d hd]
      rw [hcongr]
      have hmap : (List.range (realNumLastDimPositions cfg c)).map (fun d =>
              slotGradient c parameters x (s.sumValues / (s.numSamplesOk : ℚ)) s.numSamplesOk j
                (ps.getD d 0))
          = ps.map (slotGradient c parameters x (s.sumValues / (s.numSamplesOk : ℚ))
              s.numSamplesOk j) := by
        conv_rhs => rw [← hvisited]
        rw [List.map_map]
        rfl
      rw [hmap, sum_map_filter_eq ps (Reference.isValid c parameters true x) _
        (Reference.positionGradient c parameters x (s.sumValues / (s.numSamplesOk : ℚ))
          s.numSamplesOk j) (fun p => slotGradient_eq c parameters x _ _ j p)]
      unfold Reference.sampleGradient
      simp only [f2, f4]
  · have hk' : ¬ s.numSamplesOk > 0 := by rw [f4]; exact hk
    simp only [hk', if_false, hk]
    refine ⟨_, rfl, ?_, rfl, by simp, by simp, ?_⟩
    · constructor
      · exact hdetps
      · exact hinv.sizeDerivative
      · exact inv.sizeImageJacobian
      · exact inv.sizeNzjis
      · exact inv.sizeMT
      · exact inv.sizeDMTdmu
    · intro j _
      simp

theorem derivativeSampleLoop_eq (cfg : Config) (c : Collaborators) (parameters : List ℚ)
    (rng : Nat → RandomSource) (xs : List Point) :
    ∀ (call : Nat) (st : DerivativeState) (tagged : List (Point × List Int)),
      positionsPerSample cfg c rng call xs = some tagged →
      SampleLoopInvariant cfg c st →
      ∃ st', derivativeSampleLoop cfg c parameters rng call xs st = some st'
        ∧ st'.derivative.length = c.GetNumberOfParameters
        ∧ st'.m_NumberOfPixelsCounted = st.m_NumberOfPixelsCounted
            + (Reference.countedSamples c parameters true tagged).length
        ∧ st'.measure = st.measure + Reference.accumulatedCost c parameters true tagged
        ∧ ∀ j, j < c.GetNumberOfParameters →
            st'.derivative.getD j 0 = st.derivative.getD j 0
              + ((Reference.countedSamples c parameters true tagged).map
                  (Reference.sampleGradient c parameters j)).sum := by
  induction xs with
  | nil =>
    intro call st tagged h hinv
    simp only [positionsPerSample, Option.some.injEq] at h
    subst h
    exact ⟨st, rfl, hinv.sizeDerivative, by simp [Reference.countedSamples],
      by simp [Reference.accumulatedCost, Reference.countedSamples],
      fun j _ => by simp [Reference.countedSamples]⟩
  | cons x rest ih =>
    intro call st tagged h hinv
    obtain ⟨ps, tl, h1, h2, rfl⟩ := positionsPerSample_cons h
    obtain ⟨st1, b1, binv, _, b3, b4, b5⟩ :=
      derivativeSampleBody_eq cfg c parameters (rng call) st x ps h1 hinv
    obtain ⟨st2, l1, llen, l2, l3, l4⟩ := ih (call + 1) st1 tl h2 binv
    refine ⟨st2, ?_, llen, ?_, ?_, ?_⟩
    · unfold derivativeSampleLoop
      simp only [b1]
      exact l1
    · rw [l2, b3, countedSamples_cons]
      by_cases hk : 1 ≤ (Reference.validIntensities c parameters true (x, ps)).length
      · simp only [hk, if_true, List.length_cons]; omega
      · simp only [hk, if_false]; omega
    · rw [l3, b4]
      unfold Reference.accumulatedCost
      rw [countedSamples_cons]
      by_cases hk : 1 ≤ (Reference.validIntensities c parameters true (x, ps)).length
      · simp only [hk, if_true, List.map_cons, List.sum_cons]; ring
      · simp only [hk, if_false]; ring
    · intro j hj
      rw [l4 j hj, b5 j hj, countedSamples_cons]
      by_cases hk : 1 ≤ (Reference.validIntensities c parameters true (x, ps)).length
      · simp only [hk, if_true, List.map_cons, List.sum_cons]; ring
      · simp only [hk, if_false]; ring

theorem derivativeInit_invariant (cfg : Config) (c : Collaborators) :
    SampleLoopInvariant cfg c (derivativeInit cfg c) := by
  constructor
  · intro _; rfl
  · simp [derivativeInit]
  · simp [derivativeInit]
  · simp [derivativeInit]
  · simp [derivativeInit]
  · simp [derivativeInit]

/-- What `GetValueAndDerivative` does with the position sets `tagged` of its spatial samples. -/
theorem GetValueAndDerivative_eq (cfg : Config) (c : Collaborators) (rng : Nat → RandomSource)
    (numberOfPixelsCounted : Nat) (parameters : List ℚ) (sampleContainer : List Point)
    (derivative : List ℚ) (tagged : List (Point × List Int))
    (h : positionsPerSample cfg c rng 0 sampleContainer = some tagged) :
    GetValueAndDerivative cfg c rng numberOfPixelsCounted parameters sampleContainer derivative
      = if c.CheckNumberOfSamples sampleContainer.length
            (Reference.countedSamples c parameters true tagged).length then
          if (Reference.countedSamples c parameters true tagged).length = 0 then
            .divisionByZero
          else .returned (Reference.value c parameters true tagged,
            (List.range c.GetNumberOfParameters).map (Reference.gradient c parameters tagged))
        else .insufficientSamples := by
  obtain ⟨st, l1, llen, l2, l3, l4⟩ := derivativeSampleLoop_eq cfg c parameters rng
    sampleContainer 0 (derivativeInit cfg c) tagged h (derivativeInit_invariant cfg c)
  have hcount : st.m_NumberOfPixelsCounted
      = (Reference.countedSamples c parameters true tagged).length := by
    rw [l2]; simp [derivativeInit]
  have hmeasure : st.measure = Reference.accumulatedCost c parameters true tagged := by
    rw [l3]; simp [derivativeInit]
  have hder : st.derivative.map (fun x => x / (st.m_NumberOfPixelsCounted : ℚ))
      = (List.range c.GetNumberOfParameters).map (Reference.gradient c parameters tagged) := by
    apply List.ext_getElem
    · simp [llen]
    · intro j hj1 hj2
      have hj : j < c.GetNumberOfParameters := by simpa using hj2
      have hjd : j < st.derivative.length := by rw [llen]; exact hj
      have := l4 j hj
      rw [List.getD_eq_getElem _ _ hjd] at this
      simp only [List.getElem_map, List.getElem_range, this, hcount]
      unfold Reference.gradient
      simp only [derivativeInit, getD_replicate_zero]
      ring
  unfold GetValueAndDerivative
  simp only [l1, hder, hmeasure]
  rw [hcount]
  rfl

/-! ## Value and gradient against the reference definitions -/

/-- C1. In deterministic mode, when the sample-count policy accepts, `GetValue` returns the sum
over the spatial samples with `k ≥ 1` valid positions among `0..lastDimSize-1` of
`(Σ v²)/k − ((Σ v)/k)²`, divided by the number of those samples; when that number is zero the
division is the division by the zero count. -/
theorem GetValue_reference (cfg : Config) (c : Collaborators) (rng : Nat → RandomSource)
    (numberOfPixelsCounted : Nat) (parameters : List ℚ) (sampleContainer : List Point)
    (hdet : cfg.m_SampleLastDimensionRandomly = false)
    (hpolicy : c.CheckNumberOfSamples sampleContainer.length
      (Reference.countedSamples c parameters false
        (sampleContainer.map (fun x => (x, Reference.fullSequence c.lastDimSize)))).length
      = true) :
    GetValue cfg c rng numberOfPixelsCounted parameters sampleContainer
      = if (Reference.countedSamples c parameters false
            (sampleContainer.map (fun x => (x, Reference.fullSequence c.lastDimSize)))).length = 0
        then .divisionByZero
        else .returned
          (((Reference.countedSamples c parameters false
              (sampleContainer.map (fun x => (x, Reference.fullSequence c.lastDimSize)))).map
            (fun sample => Reference.variance
              (Reference.validIntensities c parameters false sample))).sum
          / ((Reference.countedSamples c parameters false
              (sampleContainer.map
                (fun x => (x, Reference.fullSequence c.lastDimSize)))).length : ℚ)) := by
  rw [GetValue_eq cfg c rng numberOfPixelsCounted parameters sampleContainer _
    (positionsPerSample_deterministic cfg c rng hdet 0 sampleContainer), hpolicy]
  rfl

/-- Witness of C1: one spatial sample of the regression scene, intensities `1, 1, 4`, whose
variance is `18/3 − 2² = 2`. -/
theorem GetValue_reference_witness :
    (Config.constructor.m_SampleLastDimensionRandomly = false
      ∧ sceneRegression.CheckNumberOfSamples ([[0, 0]] : List Point).length
          (Reference.countedSamples sceneRegression [] false
            (([[0, 0]] : List Point).map
              (fun x => (x, Reference.fullSequence sceneRegression.lastDimSize)))).length = true)
    ∧ GetValue Config.constructor sceneRegression (fixedDraws []) 7 [] [[0, 0]] = .returned 2 :=
  ⟨⟨rfl, rfl⟩, (GetValue_reference Config.constructor sceneRegression (fixedDraws []) 7 []
    [[0, 0]] rfl rfl).trans (by
      simp [Reference.countedSamples, Reference.validIntensities, Reference.isValid,
        Reference.intensityAt, Reference.mappedAt, Reference.pointAt, Reference.variance,
        Reference.fullSequence, sceneRegression, tableScene, Collaborators.lastDim, List.range,
        List.range.loop]
      norm_num)⟩

theorem positionGradient_absent (c : Collaborators) (parameters : List ℚ) (x : Point)
    (mean : ℚ) (k j : Nat) (p : Int)
    (h : j ∉ Reference.nonZeroIndicesAt c parameters x p) :
    Reference.positionGradient c parameters x mean k j p = 0 := by
  unfold Reference.positionGradient
  have hnil : (List.range (Reference.nonZeroIndicesAt c parameters x p).length).filter
      (fun i => (Reference.nonZeroIndicesAt c parameters x p).getD i 0 = j) = [] := by
    rw [List.filter_eq_nil_iff]
    intro i hi hij
    rw [List.mem_range] at hi
    apply h
    have hget : (Reference.nonZeroIndicesAt c parameters x p).getD i 0 = j := by
      simpa using hij
    rw [List.getD_eq_getElem _ _ hi] at hget
    rw [← hget]
    exact List.getElem_mem _
  rw [hnil]
  rfl

theorem gradient_absent (c : Collaborators) (parameters : List ℚ)
    (tagged : List (Point × List Int)) (j : Nat)
    (h : ∀ sample ∈ tagged, ∀ p ∈ sample.2,
      Reference.isValid c parameters true sample.1 p = true
        → j ∉ Reference.nonZeroIndicesAt c parameters sample.1 p) :
    Reference.gradient c parameters tagged j = 0 := by
  unfold Reference.gradient
  have hz : ((Reference.countedSamples c parameters true tagged).map
      (Reference.sampleGradient c parameters j)).sum = 0 := by
    apply List.sum_eq_zero
    intro y hy
    rw [List.mem_map] at hy
    obtain ⟨sample, hs, rfl⟩ := hy
    have hmem : sample ∈ tagged := (List.mem_filter.1 hs).1
    unfold Reference.sampleGradient
    apply List.sum_eq_zero
    intro z hz
    rw [List.mem_map] at hz
    obtain ⟨p, hp, rfl⟩ := hz
    rw [List.mem_filter] at hp
    exact positionGradient_absent c parameters sample.1 _ _ j p (h sample hmem p hp.1 hp.2)
  rw [hz, mul_zero]

/-- C2. When the policy accepts, `GetValueAndDerivative` returns a gradient of as many entries
as the transform has parameters, and entry `j` is `1/counted` times the sum, over the spatial
samples with `k ≥ 1`, over their valid positions `d`, over the slots `i` with `nzji_d[i] = j`,
of `2·(v_d − μ)·contribution_d[i]/k`: the slots of invalid positions add nothing, and an
index that occurs in no valid position's index list has entry zero. `tagged` pairs every
spatial sample with the positions of its round, in either sampling mode. -/
theorem GetValueAndDerivative_gradient_reference (cfg : Config) (c : Collaborators)
    (rng : Nat → RandomSource) (numberOfPixelsCounted : Nat) (parameters : List ℚ)
    (sampleContainer : List Point) (derivative : List ℚ) (tagged : List (Point × List Int))
    (hpos : positionsPerSample cfg c rng 0 sampleContainer = some tagged)
    (hpolicy : c.CheckNumberOfSamples sampleContainer.length
      (Reference.countedSamples c parameters true tagged).length = true) :
    GetValueAndDerivative cfg c rng numberOfPixelsCounted parameters sampleContainer derivative
        = (if (Reference.countedSamples c parameters true tagged).length = 0
          then .divisionByZero
          else .returned (Reference.value c parameters true tagged,
            (List.range c.GetNumberOfParameters).map (Reference.gradient c parameters tagged)))
      ∧ ((List.range c.GetNumberOfParameters).map
          (Reference.gradient c parameters tagged)).length = c.GetNumberOfParameters
      ∧ (∀ j, j < c.GetNumberOfParameters →
          ((List.range c.GetNumberOfParameters).map
              (Reference.gradient c parameters tagged)).getD j 0
            = (1 / ((Reference.countedSamples c parameters true tagged).length : ℚ))
              * ((Reference.countedSamples c parameters true tagged).map (fun sample =>
                  ((sample.2.filter (Reference.isValid c parameters true sample.1)).map
                    (fun d =>
                      (((List.range
                          (Reference.nonZeroIndicesAt c parameters sample.1 d).length).filter
                        (fun i =>
                          (Reference.nonZeroIndicesAt c parameters sample.1 d).getD i 0 = j)).map
                      (fun i =>
                        2 * (Reference.intensityAt c parameters true sample.1 d
                            - (Reference.validIntensities c parameters true sample).sum
                              / ((Reference.validIntensities c parameters true sample).length : ℚ))
                          * (Reference.contributionAt c parameters sample.1 d).getD i 0
                          / ((Reference.validIntensities c parameters true sample).length : ℚ))
                      ).sum)).sum)).sum)
      ∧ (∀ j, (∀ sample ∈ tagged, ∀ p ∈ sample.2,
            Reference.isValid c parameters true sample.1 p = true
              → j ∉ Reference.nonZeroIndicesAt c parameters sample.1 p)
          → ((List.range c.GetNumberOfParameters).map
              (Reference.gradient c parameters tagged)).getD j 0 = 0) := by
  refine ⟨?_, by simp, ?_, ?_⟩
  · rw [GetValueAndDerivative_eq cfg c rng numberOfPixelsCounted parameters sampleContainer
      derivative tagged hpos, hpolicy]
    rfl
  · intro j hj
    rw [List.getD_eq_getElem _ _ (by simpa using hj)]
    simp only [List.getElem_map, List.getElem_range]
    rfl
  · intro j h
    by_cases hj : j < c.GetNumberOfParameters
    · rw [List.getD_eq_getElem _ _ (by simpa using hj)]
      simp only [List.getElem_map, List.getElem_range]
      exact gradient_absent c parameters tagged j h
    · rw [List.getD_eq_default _ _ (by simpa using hj)]

/-- Witness of C2: stochastic mode, two spatial samples, each with the positions `2, 0` drawn
from `2, 2, 0`: intensities `4, 1`, equal contributions, so variance `9/4` and gradient `0`. -/
theorem GetValueAndDerivative_gradient_reference_witness :
    (positionsPerSample (stochastic 2) sceneRegression (fixedDraws [2, 2, 0]) 0 [[0, 0], [1, 0]]
        = some [([0, 0], [2, 0]), ([1, 0], [2, 0])]
      ∧ sceneRegression.CheckNumberOfSamples ([[0, 0], [1, 0]] : List Point).length
          (Reference.countedSamples sceneRegression [] true
            [([0, 0], [2, 0]), ([1, 0], [2, 0])]).length = true)
    ∧ GetValueAndDerivative (stochastic 2) sceneRegression (fixedDraws [2, 2, 0]) 7 []
        [[0, 0], [1, 0]] [5, 5] = .returned (9 / 4, [0]) :=
  ⟨⟨rfl, rfl⟩, (GetValueAndDerivative_gradient_reference (stochastic 2) sceneRegression
    (fixedDraws [2, 2, 0]) 7 [] [[0, 0], [1, 0]] [5, 5] [([0, 0], [2, 0]), ([1, 0], [2, 0])]
    rfl rfl).1.trans (by
      simp [Reference.value, Reference.gradient, Reference.sampleGradient,
        Reference.positionGradient, Reference.nonZeroIndicesAt, Reference.contributionAt,
        EvaluateTransformJacobianInnerProduct, Reference.accumulatedCost,
        Reference.countedSamples, Reference.validIntensities, Reference.isValid,
        Reference.intensityAt, Reference.mappedAt, Reference.pointAt, Reference.variance,
        sceneRegression, tableScene, Collaborators.lastDim, List.range, List.range.loop]
      norm_num)⟩

/-! ## Value-only against value-and-gradient -/

theorem validIntensities_mode (c : Collaborators) (parameters : List ℚ)
    (hacc : ∀ p : Point,
      (c.EvaluateMovingImageValueAndDerivative p false).1
          = (c.EvaluateMovingImageValueAndDerivative p true).1
        ∧ (c.EvaluateMovingImageValueAndDerivative p false).2.1
          = (c.EvaluateMovingImageValueAndDerivative p true).2.1)
    (sample : Point × List Int) :
    Reference.validIntensities c parameters false sample
      = Reference.validIntensities c parameters true sample := by
  unfold Reference.validIntensities
  have h1 : Reference.isValid c parameters false sample.1
      = Reference.isValid c parameters true sample.1 := by
    funext p
    unfold Reference.isValid
    rw [(hacc _).1]
  have h2 : Reference.intensityAt c parameters false sample.1
      = Reference.intensityAt c parameters true sample.1 := by
    funext p
    unfold Reference.intensityAt
    rw [(hacc _).2]
  rw [h1, h2]

theorem countedSamples_mode (c : Collaborators) (parameters : List ℚ)
    (hacc : ∀ p : Point,
      (c.EvaluateMovingImageValueAndDerivative p false).1
          = (c.EvaluateMovingImageValueAndDerivative p true).1
        ∧ (c.EvaluateMovingImageValueAndDerivative p false).2.1
          = (c.EvaluateMovingImageValueAndDerivative p true).2.1)
    (tagged : List (Point × List Int)) :
    Reference.countedSamples c parameters false tagged
      = Reference.countedSamples c parameters true tagged := by
  unfold Reference.countedSamples
  simp only [validIntensities_mode c parameters hacc]

theorem value_mode (c : Collaborators) (parameters : List ℚ)
    (hacc : ∀ p : Point,
      (c.EvaluateMovingImageValueAndDerivative p false).1
          = (c.EvaluateMovingImageValueAndDerivative p true).1
        ∧ (c.EvaluateMovingImageValueAndDerivative p false).2.1
          = (c.EvaluateMovingImageValueAndDerivative p true).2.1)
    (tagged : List (Point × List Int)) :
    Reference.value c parameters false tagged = Reference.value c parameters true tagged := by
  unfold Reference.value Reference.accumulatedCost
  simp only [countedSamples_mode c parameters hacc, validIntensities_mode c parameters hacc]

/-- C3. In deterministic mode, with a moving-image accessor that reports the same validity and
intensity whether or not the derivative is requested, `GetValue` ends exactly as
`GetValueAndDerivative` does and returns the value that the latter writes; one fails with the
insufficient-samples condition iff the other does; and `GetDerivative` returns exactly the
gradient of `GetValueAndDerivative`. Neither the random source nor the state before the call
matters. -/
theorem GetValue_agrees_with_GetValueAndDerivative (cfg : Config) (c : Collaborators)
    (rng rng' : Nat → RandomSource) (numberOfPixelsCounted numberOfPixelsCounted' : Nat)
    (parameters : List ℚ) (sampleContainer : List Point) (derivative : List ℚ)
    (hdet : cfg.m_SampleLastDimensionRandomly = false)
    (hacc : ∀ p : Point,
      (c.EvaluateMovingImageValueAndDerivative p false).1
          = (c.EvaluateMovingImageValueAndDerivative p true).1
        ∧ (c.EvaluateMovingImageValueAndDerivative p false).2.1
          = (c.EvaluateMovingImageValueAndDerivative p true).2.1) :
    GetValue cfg c rng numberOfPixelsCounted parameters sampleContainer
        = (GetValueAndDerivative cfg c rng' numberOfPixelsCounted' parameters sampleContainer
            derivative).map Prod.fst
      ∧ (GetValue cfg c rng numberOfPixelsCounted parameters sampleContainer
            = .insufficientSamples
          ↔ GetValueAndDerivative cfg c rng' numberOfPixelsCounted' parameters sampleContainer
            derivative = .insufficientSamples)
      ∧ GetDerivative cfg c rng' numberOfPixelsCounted' parameters sampleContainer derivative
        = (GetValueAndDerivative cfg c rng' numberOfPixelsCounted' parameters sampleContainer
            derivative).map Prod.snd := by
  have hV := GetValue_eq cfg c rng numberOfPixelsCounted parameters sampleContainer _
    (positionsPerSample_deterministic cfg c rng hdet 0 sampleContainer)
  have hG := GetValueAndDerivative_eq cfg c rng' numberOfPixelsCounted' parameters
    sampleContainer derivative _
    (positionsPerSample_deterministic cfg c rng' hdet 0 sampleContainer)
  rw [countedSamples_mode c parameters hacc, value_mode c parameters hacc] at hV
  refine ⟨?_, ?_, rfl⟩ <;> rw [hV, hG]
  · split
    · split <;> rfl
    · rfl
  · split
    · split <;> simp
    · simp

/-- Witness of C3: the regression scene, whose accessor ignores the request. -/
theorem GetValue_agrees_with_GetValueAndDerivative_witness :
    Config.constructor.m_SampleLastDimensionRandomly = false
    ∧ GetValue Config.constructor sceneRegression (fixedDraws []) 3 [] [[0, 0], [1, 0]]
      = (GetValueAndDerivative Config.constructor sceneRegression (fixedDraws [1]) 4 []
          [[0, 0], [1, 0]] [9]).map Prod.fst :=
  ⟨rfl, (GetValue_agrees_with_GetValueAndDerivative Config.constructor sceneRegression
    (fixedDraws []) (fixedDraws [1]) 3 4 [] [[0, 0], [1, 0]] [9] rfl
    (fun _ => ⟨rfl, rfl⟩)).1⟩

/-! ## The sample-count check -/

theorem countedSamples_nil_of_invalid (c : Collaborators) (parameters : List ℚ)
    (gradientMode : Bool) (tagged : List (Point × List Int))
    (h : ∀ sample ∈ tagged, ∀ p ∈ sample.2,
      Reference.isValid c parameters gradientMode sample.1 p = false) :
    Reference.countedSamples c parameters gradientMode tagged = [] := by
  unfold Reference.countedSamples
  rw [List.filter_eq_nil_iff]
  intro sample hs
  have hnil : Reference.validIntensities c parameters gradientMode sample = [] := by
    unfold Reference.validIntensities
    rw [List.map_eq_nil_iff, List.filter_eq_nil_iff]
    intro p hp
    rw [h sample hs p hp]
    simp
  rw [hnil]
  simp

/-- C4, counterexample. With the mask excluding every point no spatial sample is counted, the
policy accepts, and both functions go on to the division by the zero count instead of failing;
the same happens on the empty container under the quarter policy. -/
theorem zero_counted_reaches_division :
    (Reference.countedSamples sceneNothingValid [] false
        [([0, 0], [0, 1, 2]), ([1, 0], [0, 1, 2])]).length = 0
      ∧ GetValue Config.constructor sceneNothingValid (fixedDraws []) 0 [] [[0, 0], [1, 0]]
        = .divisionByZero
      ∧ GetValue Config.constructor sceneNothingValid (fixedDraws []) 0 [] [[0, 0], [1, 0]]
        ≠ .insufficientSamples
      ∧ GetValueAndDerivative Config.constructor sceneNothingValid (fixedDraws []) 0 []
          [[0, 0], [1, 0]] [] = .divisionByZero
      ∧ GetValueAndDerivative Config.constructor sceneNothingValid (fixedDraws []) 0 []
          [[0, 0], [1, 0]] [] ≠ .insufficientSamples
      ∧ GetValue Config.constructor sceneQuarter (fixedDraws []) 0 [] [] = .divisionByZero
      ∧ GetValueAndDerivative Config.constructor sceneQuarter (fixedDraws []) 0 [] [] []
        = .divisionByZero := by
  refine ⟨by decide, by decide, by decide, ?_, ?_, by decide, ?_⟩
  · rfl
  · have h : GetValueAndDerivative Config.constructor sceneNothingValid (fixedDraws []) 0 []
        [[0, 0], [1, 0]] [] = .divisionByZero := rfl
    rw [h]
    exact fun h' => Outcome.noConfusion h'
  · rfl

/-- C4, amended. If no spatial sample has a valid last-dimension position, `GetValue` and
`GetValueAndDerivative` fail with the insufficient-samples condition exactly when the policy
rejects the pair (container size, 0); when the policy accepts it they perform the division by
the zero count. In neither case do they return a number. -/
theorem zero_counted_outcome (cfg : Config) (c : Collaborators) (rng : Nat → RandomSource)
    (numberOfPixelsCounted : Nat) (parameters : List ℚ) (sampleContainer : List Point)
    (derivative : List ℚ) (tagged : List (Point × List Int))
    (hpos : positionsPerSample cfg c rng 0 sampleContainer = some tagged)
    (hinvalid : ∀ gradientMode, ∀ sample ∈ tagged, ∀ p ∈ sample.2,
      Reference.isValid c parameters gradientMode sample.1 p = false) :
    GetValue cfg c rng numberOfPixelsCounted parameters sampleContainer
        = (if c.CheckNumberOfSamples sampleContainer.length 0 then .divisionByZero
           else .insufficientSamples)
      ∧ GetValueAndDerivative cfg c rng numberOfPixelsCounted parameters sampleContainer
          derivative
        = (if c.CheckNumberOfSamples sampleContainer.length 0 then .divisionByZero
           else .insufficientSamples)
      ∧ (∀ v, GetValue cfg c rng numberOfPixelsCounted parameters sampleContainer
          ≠ .returned v)
      ∧ (∀ r, GetValueAndDerivative cfg c rng numberOfPixelsCounted parameters sampleContainer
          derivative ≠ .returned r) := by
  have hV := GetValue_eq cfg c rng numberOfPixelsCounted parameters sampleContainer tagged hpos
  have hG := GetValueAndDerivative_eq cfg c rng numberOfPixelsCounted parameters
    sampleContainer derivative tagged hpos
  rw [countedSamples_nil_of_invalid c parameters false tagged (hinvalid false)] at hV
  rw [countedSamples_nil_of_invalid c parameters true tagged (hinvalid true)] at hG
  simp only [List.length_nil, if_true] at hV hG
  refine ⟨hV, hG, ?_, ?_⟩
  · intro v
    rw [hV]
    split <;> exact fun h' => Outcome.noConfusion h'
  · intro r
    rw [hG]
    split <;> exact fun h' => Outcome.noConfusion h'

/-- Witness of C4 as amended: two spatial samples behind the all-excluding mask. -/
theorem zero_counted_outcome_witness :
    (positionsPerSample Config.constructor sceneNothingValid (fixedDraws []) 0
        [[0, 0], [1, 0]] = some [([0, 0], [0, 1, 2]), ([1, 0], [0, 1, 2])]
      ∧ ∀ gradientMode, ∀ sample ∈ [(([0, 0] : Point), ([0, 1, 2] : List Int)),
          ([1, 0], [0, 1, 2])], ∀ p ∈ sample.2,
        Reference.isValid sceneNothingValid [] gradientMode sample.1 p = false)
    ∧ GetValue Config.constructor sceneNothingValid (fixedDraws []) 0 [] [[0, 0], [1, 0]]
      = (if sceneNothingValid.CheckNumberOfSamples ([[0, 0], [1, 0]] : List Point).length 0
         then .divisionByZero else .insufficientSamples) :=
  ⟨⟨rfl, fun _ _ _ _ _ => rfl⟩,
    (zero_counted_outcome Config.constructor sceneNothingValid (fixedDraws []) 0 []
      [[0, 0], [1, 0]] [] [([0, 0], [0, 1, 2]), ([1, 0], [0, 1, 2])] rfl
      (fun _ _ _ _ _ => rfl)).1⟩

theorem positionsPerSample_policy (cfg : Config) (c : Collaborators) (rng : Nat → RandomSource)
    (policy : Nat → Nat → Bool) (call : Nat) (xs : List Point) :
    positionsPerSample cfg { c with CheckNumberOfSamples := policy } rng call xs
      = positionsPerSample cfg c rng call xs := by
  induction xs generalizing call with
  | nil => rfl
  | cons x rest ih =>
    unfold positionsPerSample
    rw [ih]
    rfl

/-- C5. After the pass the policy is consulted with exactly the pair (number of spatial samples
in the container, number of spatial samples with at least one valid position), whose second
component never exceeds the first: `GetValue` and `GetValueAndDerivative` fail with the
insufficient-samples condition iff the policy rejects that pair, returning nothing then, and
replacing the policy by any other that decides that one pair alike changes nothing. -/
theorem policy_decides_failure (cfg : Config) (c : Collaborators) (rng : Nat → RandomSource)
    (numberOfPixelsCounted : Nat) (parameters : List ℚ) (sampleContainer : List Point)
    (derivative : List ℚ) (tagged : List (Point × List Int))
    (hpos : positionsPerSample cfg c rng 0 sampleContainer = some tagged) :
    ((Reference.countedSamples c parameters false tagged).length ≤ sampleContainer.length
      ∧ (Reference.countedSamples c parameters true tagged).length ≤ sampleContainer.length)
    ∧ (GetValue cfg c rng numberOfPixelsCounted parameters sampleContainer
          = .insufficientSamples
        ↔ c.CheckNumberOfSamples sampleContainer.length
            (Reference.countedSamples c parameters false tagged).length = false)
    ∧ (GetValueAndDerivative cfg c rng numberOfPixelsCounted parameters sampleContainer
          derivative = .insufficientSamples
        ↔ c.CheckNumberOfSamples sampleContainer.length
            (Reference.countedSamples c parameters true tagged).length = false)
    ∧ (∀ policy : Nat → Nat → Bool,
        policy sampleContainer.length (Reference.countedSamples c parameters false tagged).length
          = c.CheckNumberOfSamples sampleContainer.length
              (Reference.countedSamples c parameters false tagged).length
        → GetValue cfg { c with CheckNumberOfSamples := policy } rng numberOfPixelsCounted
            parameters sampleContainer
          = GetValue cfg c rng numberOfPixelsCounted parameters sampleContainer)
    ∧ (∀ policy : Nat → Nat → Bool,
        policy sampleContainer.length (Reference.countedSamples c parameters true tagged).length
          = c.CheckNumberOfSamples sampleContainer.length
              (Reference.countedSamples c parameters true tagged).length
        → GetValueAndDerivative cfg { c with CheckNumberOfSamples := policy } rng
            numberOfPixelsCounted parameters sampleContainer derivative
          = GetValueAndDerivative cfg c rng numberOfPixelsCounted parameters sampleContainer
            derivative) := by
  have hV := GetValue_eq cfg c rng numberOfPixelsCounted parameters sampleContainer tagged hpos
  have hG := GetValueAndDerivative_eq cfg c rng numberOfPixelsCounted parameters
    sampleContainer derivative tagged hpos
  have hlen := positionsPerSample_length hpos
  refine ⟨⟨?_, ?_⟩, ?_, ?_, ?_, ?_⟩
  · rw [← hlen]; exact countedSamples_length_le c parameters false tagged
  · rw [← hlen]; exact countedSamples_length_le c parameters true tagged
  · rw [hV]
    cases hp : c.CheckNumberOfSamples sampleContainer.length
      (Reference.countedSamples c parameters false tagged).length
    · simp
    · simp only [if_true]
      split <;> simp
  · rw [hG]
    cases hp : c.CheckNumberOfSamples sampleContainer.length
      (Reference.countedSamples c parameters true tagged).length
    · simp
    · simp only [if_true]
      split <;> simp
  · intro policy hpol
    have hpos' : positionsPerSample cfg { c with CheckNumberOfSamples := policy } rng 0
        sampleContainer = some tagged := by
      rw [positionsPerSample_policy]; exact hpos
    have hV' := GetValue_eq cfg { c with CheckNumberOfSamples := policy } rng
      numberOfPixelsCounted parameters sampleContainer tagged hpos'
    rw [hV', hV]
    have e1 : Reference.countedSamples { c with CheckNumberOfSamples := policy } parameters
        false tagged = Reference.countedSamples c parameters false tagged := rfl
    have e2 : Reference.value { c with CheckNumberOfSamples := policy } parameters
        false tagged = Reference.value c parameters false tagged := rfl
    rw [e1, e2]
    simp only [hpol]
  · intro policy hpol
    have hpos' : positionsPerSample cfg { c with CheckNumberOfSamples := policy } rng 0
        sampleContainer = some tagged := by
      rw [positionsPerSample_policy]; exact hpos
    have hG' := GetValueAndDerivative_eq cfg { c with CheckNumberOfSamples := policy } rng
      numberOfPixelsCounted parameters sampleContainer derivative tagged hpos'
    rw [hG', hG]
    have e1 : Reference.countedSamples { c with CheckNumberOfSamples := policy } parameters
        true tagged = Reference.countedSamples c parameters true tagged := rfl
    have e2 : Reference.value { c with CheckNumberOfSamples := policy } parameters
        true tagged = Reference.value c parameters true tagged := rfl
    have e3 : Reference.gradient { c with CheckNumberOfSamples := policy } parameters tagged
        = Reference.gradient c parameters tagged := rfl
    rw [e1, e2, e3]
    simp only [hpol]

/-- Witness of C5: one spatial sample of the regression scene under the quarter policy. -/
theorem policy_decides_failure_witness :
    positionsPerSample Config.constructor sceneQuarter (fixedDraws []) 0 [[0, 0]]
        = some [([0, 0], [0, 1, 2])]
    ∧ (GetValue Config.constructor sceneQuarter (fixedDraws []) 0 [] [[0, 0]]
          = .insufficientSamples
        ↔ sceneQuarter.CheckNumberOfSamples ([[0, 0]] : List Point).length
            (Reference.countedSamples sceneQuarter [] false [([0, 0], [0, 1, 2])]).length
          = false) :=
  ⟨rfl, (policy_decides_failure Config.constructor sceneQuarter (fixedDraws []) 0 [] [[0, 0]]
    [] [([0, 0], [0, 1, 2])] rfl).2.1⟩

/-! ## Stochastic positions -/

/-- The loop over `d` of `GetValue` reads `lastDimPositions` only to write the entries of
`valuePathPositions`, one after the other, into `voxelCoord[ lastDim ]`. -/
theorem valueLoop_visits (c : Collaborators) (parameters : List ℚ) (ps : List Int)
    (s : ValueLoopState) :
    (List.range ps.length).foldl (valueLoopBody c parameters ps) s
      = (valuePathPositions ps).foldl (fun s p => valueLoopBody c parameters [p] s 0) s := by
  unfold valuePathPositions
  rw [List.foldl_map]
  rfl

/-- The first loop over `d` of `GetValueAndDerivative` reads `lastDimPositions` only at the
entries listed in `derivativePathPositions`. -/
theorem derivativeLoop_visits (cfg : Config) (c : Collaborators) (parameters : List ℚ)
    (ps : List Int) (s : DerivativeLoopState) :
    (List.range (realNumLastDimPositions cfg c)).foldl (derivativeLoopBody c parameters ps) s
      = (List.range (realNumLastDimPositions cfg c)).foldl
          (derivativeLoopBody c parameters (derivativePathPositions cfg c ps)) s := by
  apply List.foldl_ext
  intro s d hd
  rw [List.mem_range] at hd
  have h : (derivativePathPositions cfg c ps).getD d 0 = ps.getD d 0 := by
    unfold derivativePathPositions
    rw [List.getD_eq_getElem _ _ (by simpa using hd)]
    simp
  unfold derivativeLoopBody
  rw [h]

/-- C7, the code at a failing input. With `lastDimSize = 2` and one sample requested, a draw of
`2`, which the closed range `[0, lastDimSize]` passed to `SampleRandom` allows, is the
position both paths write into the last coordinate axis; it exceeds `lastDimSize - 1`. -/
theorem stochastic_position_beyond_last_index :
    RandomSource.InClosedRange (fun _ => [2]) (sceneTwo.lastDimSize : Int)
      ∧ chosenPositions (Initialize (stochastic 1) sceneTwo.lastDimSize) sceneTwo (fun _ => [2])
        = some [2]
      ∧ valuePathPositions [2] = [2]
      ∧ derivativePathPositions (Initialize (stochastic 1) sceneTwo.lastDimSize) sceneTwo [2]
        = [2]
      ∧ ¬ ((2 : Int) ≤ (sceneTwo.lastDimSize : Int) - 1) := by
  refine ⟨?_, by decide, by decide, by decide, by decide⟩
  intro x hx
  have : x = 2 := by simpa using hx
  subst this
  decide

/-- After `Initialize` with `r` samples requested on a last dimension of size `L`, in
stochastic mode the list that `SampleRandom` hands to the round of a spatial sample has
exactly `min r L` entries, pairwise distinct; the value path reads that list up to its length,
the gradient path up to `m_NumSamplesLastDimension`, and both read all of it. The entries are
draws from the closed range `[0, L]`. -/
theorem stochastic_position_count (cfg : Config) (c : Collaborators) (gen : RandomSource)
    (ps : List Int) (hmode : cfg.m_SampleLastDimensionRandomly = true)
    (hps : chosenPositions (Initialize cfg c.lastDimSize) c gen = some ps) :
    ps.length = min cfg.m_NumSamplesLastDimension c.lastDimSize
      ∧ realNumLastDimPositions (Initialize cfg c.lastDimSize) c
        = min cfg.m_NumSamplesLastDimension c.lastDimSize
      ∧ ps.Nodup
      ∧ valuePathPositions ps = ps
      ∧ derivativePathPositions (Initialize cfg c.lastDimSize) c ps = ps := by
  obtain ⟨hnum, _, _, hm, _⟩ := Initialize_clamp_aux cfg c.lastDimSize
  have hmode' : (Initialize cfg c.lastDimSize).m_SampleLastDimensionRandomly = true := by
    rw [hm]; exact hmode
  have hreal : realNumLastDimPositions (Initialize cfg c.lastDimSize) c
      = min cfg.m_NumSamplesLastDimension c.lastDimSize := by
    unfold realNumLastDimPositions
    rw [hmode', if_pos rfl, hnum]
  have hlen := chosenPositions_length _ c gen ps hps
  have hnd : ps.Nodup := by
    unfold chosenPositions at hps
    rw [hmode', if_pos rfl] at hps
    simp only [Option.map_eq_some', Prod.exists, exists_and_right, exists_eq_right] at hps
    obtain ⟨rest, hS⟩ := hps
    exact (sampleLoop_some hS).2.1 List.nodup_nil
  refine ⟨by rw [hlen, hreal], hreal, hnd, visited_positions_length ps, ?_⟩
  unfold derivativePathPositions
  rw [← hlen]
  exact visited_positions_length ps

/-- Five samples requested on a last dimension of size three: the list drawn has three
entries, one of them the draw `3`. -/
theorem stochastic_position_count_witness :
    ((stochastic 5).m_SampleLastDimensionRandomly = true
      ∧ chosenPositions (Initialize (stochastic 5) sceneRegression.lastDimSize) sceneRegression
          (fun _ => [3, 1, 3, 1, 0, 2]) = some [3, 1, 0])
    ∧ ([3, 1, 0] : List Int).length = min (stochastic 5).m_NumSamplesLastDimension
        sceneRegression.lastDimSize :=
  ⟨⟨rfl, rfl⟩, (stochastic_position_count (stochastic 5) sceneRegression
    (fun _ => [3, 1, 3, 1, 0, 2]) [3, 1, 0] rfl rfl).1⟩

/-! ## The gradient coefficient as a derivative -/

theorem sum_set_eq (l : List ℚ) (d : Nat) (t : ℚ) (hd : d < l.length) :
    (l.set d t).sum = l.sum - l.getD d 0 + t := by
  induction l generalizing d with
  | nil => simp at hd
  | cons a rest ih =>
    cases d with
    | zero => simp; ring
    | succ d =>
      have hd' : d < rest.length := by simpa using hd
      have := ih d hd'
      simp only [List.set_cons_succ, List.sum_cons, List.getD_cons_succ, this]
      ring

theorem variance_set (vs : List ℚ) (d : Nat) (t : ℚ) (hd : d < vs.length) :
    Reference.variance (vs.set d t)
      = ((vs.map (fun v => v ^ 2)).sum - (vs.getD d 0) ^ 2 + t ^ 2) / (vs.length : ℚ)
        - ((vs.sum - vs.getD d 0 + t) / (vs.length : ℚ)) ^ 2 := by
  unfold Reference.variance
  rw [List.map_set, sum_set_eq _ _ _ (by simpa using hd), sum_set_eq _ _ _ hd, List.length_set]
  congr 3
  rw [List.getD_eq_getElem _ _ (by simpa using hd), List.getD_eq_getElem _ _ hd]
  simp

theorem variance_hasDerivAt (vs : List ℚ) (d : Nat) (hd : d < vs.length) :
    HasDerivAt (fun t : ℚ => Reference.variance (vs.set d t))
      (2 * (vs.getD d 0 - vs.sum / (vs.length : ℚ)) / (vs.length : ℚ)) (vs.getD d 0) := by
  have hfun : (fun t : ℚ => Reference.variance (vs.set d t))
      = fun t : ℚ => ((vs.map (fun v => v ^ 2)).sum - (vs.getD d 0) ^ 2 + t ^ 2) / (vs.length : ℚ)
        - ((vs.sum - vs.getD d 0 + t) / (vs.length : ℚ)) ^ 2 := by
    funext t
    exact variance_set vs d t hd
  rw [hfun]
  have hk : (vs.length : ℚ) ≠ 0 := by
    have : 0 < vs.length := by omega
    exact_mod_cast this.ne'
  have h1 : HasDerivAt (fun t : ℚ => t ^ 2) (2 * vs.getD d 0) (vs.getD d 0) := by
    simpa using hasDerivAt_pow 2 (vs.getD d 0)
  have h2 := ((h1.const_add ((vs.map (fun v => v ^ 2)).sum - (vs.getD d 0) ^ 2)).div_const
    (vs.length : ℚ))
  have h3 := (((hasDerivAt_id (vs.getD d 0)).const_add (vs.sum - vs.getD d 0)).div_const
    (vs.length : ℚ)).pow 2
  have h4 := h2.sub h3
  convert h4 using 1
  simp only [id]
  field_simp
  ring

/-! ## Constant intensities and constant contributions -/

theorem variance_constant (vs : List ℚ) (v : ℚ) (hk : 1 ≤ vs.length) (hv : ∀ u ∈ vs, u = v) :
    Reference.variance vs = 0 := by
  have hrep : vs = List.replicate vs.length v := List.eq_replicate_iff.2 ⟨rfl, hv⟩
  have hk0 : (vs.length : ℚ) ≠ 0 := by
    have : 0 < vs.length := hk
    exact_mod_cast this.ne'
  unfold Reference.variance
  have h1 : vs.sum = (vs.length : ℚ) * v := by
    conv_lhs => rw [hrep]
    simp
  have h2 : (vs.map (fun u => u ^ 2)).sum = (vs.length : ℚ) * v ^ 2 := by
    conv_lhs => rw [hrep]
    simp
  rw [h1, h2]
  field_simp

theorem accumulatedCost_constant (c : Collaborators) (parameters : List ℚ) (gradientMode : Bool)
    (tagged : List (Point × List Int))
    (h : ∀ sample ∈ Reference.countedSamples c parameters gradientMode tagged,
      ∃ v, ∀ u ∈ Reference.validIntensities c parameters gradientMode sample, u = v) :
    Reference.value c parameters gradientMode tagged = 0 := by
  unfold Reference.value Reference.accumulatedCost
  have hz : ((Reference.countedSamples c parameters gradientMode tagged).map
      (fun sample => Reference.variance
        (Reference.validIntensities c parameters gradientMode sample))).sum = 0 := by
    apply List.sum_eq_zero
    intro y hy
    rw [List.mem_map] at hy
    obtain ⟨sample, hs, rfl⟩ := hy
    obtain ⟨v, hv⟩ := h sample hs
    have hk : 1 ≤ (Reference.validIntensities c parameters gradientMode sample).length := by
      have := (List.mem_filter.1 hs).2
      simpa using this
    exact variance_constant _ v hk hv
  rw [hz, zero_div]

/-- C12, amended. In exact arithmetic a spatial sample whose `k ≥ 1` valid positions all have
the same intensity adds the variance term `(k·v²)/k − ((k·v)/k)² = 0` to the measure; when that
holds for every counted spatial sample, the value that `GetValue` and `GetValueAndDerivative`
return is exactly `0`. -/
theorem constant_intensities_zero_value (cfg : Config) (c : Collaborators)
    (rng : Nat → RandomSource) (numberOfPixelsCounted : Nat) (parameters : List ℚ)
    (sampleContainer : List Point) (derivative : List ℚ) (tagged : List (Point × List Int))
    (hpos : positionsPerSample cfg c rng 0 sampleContainer = some tagged)
    (hconst : ∀ gradientMode,
      ∀ sample ∈ Reference.countedSamples c parameters gradientMode tagged,
        ∃ v, ∀ u ∈ Reference.validIntensities c parameters gradientMode sample, u = v) :
    (∀ gradientMode, ∀ sample ∈ Reference.countedSamples c parameters gradientMode tagged,
        Reference.variance (Reference.validIntensities c parameters gradientMode sample) = 0)
      ∧ GetValue cfg c rng numberOfPixelsCounted parameters sampleContainer
        = (if c.CheckNumberOfSamples sampleContainer.length
              (Reference.countedSamples c parameters false tagged).length then
            if (Reference.countedSamples c parameters false tagged).length = 0 then
              .divisionByZero
            else .returned 0
          else .insufficientSamples)
      ∧ (GetValueAndDerivative cfg c rng numberOfPixelsCounted parameters sampleContainer
          derivative).map Prod.fst
        = (if c.CheckNumberOfSamples sampleContainer.length
              (Reference.countedSamples c parameters true tagged).length then
            if (Reference.countedSamples c parameters true tagged).length = 0 then
              .divisionByZero
            else .returned 0
          else .insufficientSamples) := by
  refine ⟨?_, ?_, ?_⟩
  · intro gradientMode sample hs
    obtain ⟨v, hv⟩ := hconst gradientMode sample hs
    have hk : 1 ≤ (Reference.validIntensities c parameters gradientMode sample).length := by
      have := (List.mem_filter.1 hs).2
      simpa using this
    exact variance_constant _ v hk hv
  · rw [GetValue_eq cfg c rng numberOfPixelsCounted parameters sampleContainer tagged hpos,
      accumulatedCost_constant c parameters false tagged (hconst false)]
  · rw [GetValueAndDerivative_eq cfg c rng numberOfPixelsCounted parameters sampleContainer
      derivative tagged hpos, accumulatedCost_constant c parameters true tagged (hconst true)]
    split
    · split <;> rfl
    · rfl

/-- Witness of C12 as amended: one spatial sample of the scene with intensity `5` everywhere. -/
theorem constant_intensities_zero_value_witness :
    (positionsPerSample Config.constructor sceneFlat (fixedDraws []) 0 [[0, 0]]
        = some [([0, 0], [0, 1, 2])]
      ∧ ∀ gradientMode,
        ∀ sample ∈ Reference.countedSamples sceneFlat [] gradientMode [([0, 0], [0, 1, 2])],
          ∃ v, ∀ u ∈ Reference.validIntensities sceneFlat [] gradientMode sample, u = v)
    ∧ GetValue Config.constructor sceneFlat (fixedDraws []) 0 [] [[0, 0]] = .returned 0 :=
  ⟨⟨rfl, fun _ _ _ => ⟨5, fun u hu => by
      simp only [Reference.validIntensities, List.mem_map] at hu
      obtain ⟨p, _, rfl⟩ := hu
      rfl⟩⟩,
    (constant_intensities_zero_value Config.constructor sceneFlat (fixedDraws []) 0 []
      [[0, 0]] [] [([0, 0], [0, 1, 2])] rfl (fun _ _ _ => ⟨5, fun u hu => by
      simp only [Reference.validIntensities, List.mem_map] at hu
      obtain ⟨p, _, rfl⟩ := hu
      rfl⟩)).2.1.trans (by decide)⟩

theorem sum_map_centered (l : List Int) (f : Int → ℚ) (mean weight : ℚ) :
    (l.map (fun p => (f p - mean) * weight)).sum
      = ((l.map f).sum - (l.length : ℚ) * mean) * weight := by
  induction l with
  | nil => simp
  | cons a rest ih =>
    simp only [List.map_cons, List.sum_cons, ih, List.length_cons]
    push_cast
    ring

theorem sampleGradient_constant (c : Collaborators) (parameters : List ℚ) (j : Nat)
    (sample : Point × List Int) (nz : List Nat) (cv : List ℚ)
    (h : ∀ p ∈ sample.2, Reference.isValid c parameters true sample.1 p = true
      → Reference.nonZeroIndicesAt c parameters sample.1 p = nz
        ∧ Reference.contributionAt c parameters sample.1 p = cv) :
    Reference.sampleGradient c parameters j sample = 0 := by
  unfold Reference.sampleGradient
  simp only []
  have hmap : (sample.2.filter (Reference.isValid c parameters true sample.1)).map
      (Reference.positionGradient c parameters sample.1
        ((Reference.validIntensities c parameters true sample).sum
          / ((Reference.validIntensities c parameters true sample).length : ℚ))
        (Reference.validIntensities c parameters true sample).length j)
      = (sample.2.filter (Reference.isValid c parameters true sample.1)).map
        (fun p => (Reference.intensityAt c parameters true sample.1 p
            - (Reference.validIntensities c parameters true sample).sum
              / ((Reference.validIntensities c parameters true sample).length : ℚ))
          * (((List.range nz.length).filter (fun i => nz.getD i 0 = j)).map
              (fun i => 2 * cv.getD i 0
                / ((Reference.validIntensities c parameters true sample).length : ℚ))).sum) := by
    apply List.map_congr_left
    intro p hp
    rw [List.mem_filter] at hp
    obtain ⟨h1, h2⟩ := h p hp.1 hp.2
    unfold Reference.positionGradient
    rw [h1, h2, ← List.sum_map_mul_left]
    congr 1
    apply List.map_congr_left
    intro i _
    ring
  rw [hmap, sum_map_centered]
  have hlen : (Reference.validIntensities c parameters true sample).length
      = (sample.2.filter (Reference.isValid c parameters true sample.1)).length := by
    simp [Reference.validIntensities]
  have hsum : (Reference.validIntensities c parameters true sample).sum
      = ((sample.2.filter (Reference.isValid c parameters true sample.1)).map
          (Reference.intensityAt c parameters true sample.1)).sum := rfl
  rw [← hsum, ← hlen]
  by_cases hk : (Reference.validIntensities c parameters true sample).length = 0
  · have : Reference.validIntensities c parameters true sample = [] :=
      List.length_eq_zero.1 hk
    rw [this]
    simp
  · have hk' : ((Reference.validIntensities c parameters true sample).length : ℚ) ≠ 0 := by
      exact_mod_cast hk
    rw [mul_div_cancel₀ _ hk', sub_self, zero_mul]

/-- C11. For `k ≥ 1` intensities the partial derivative of the biased variance
`(Σ v²)/k − ((Σ v)/k)²` with respect to the intensity `v_d` is `2·(v_d − μ)/k`, and that is
the factor by which the second loop of `GetValueAndDerivative` multiplies every
`dMTdmu[ d ][ j ]` it adds to `derivative`. -/
theorem gradient_coefficient_is_derivative (vs : List ℚ) (d : Nat) (hd : d < vs.length) :
    HasDerivAt (fun t : ℚ => Reference.variance (vs.set d t))
        (2 * (vs.getD d 0 - vs.sum / (vs.length : ℚ)) / (vs.length : ℚ)) (vs.getD d 0)
      ∧ ∀ (n : Nat) (nzjis : List (List Nat)) (MT : List ℚ) (dMTdmu : List (List ℚ))
          (derivative : List ℚ) (j : Nat), j < derivative.length →
        (updateDerivative n nzjis MT dMTdmu (vs.sum / (vs.length : ℚ)) vs.length
            derivative).getD j 0
          = derivative.getD j 0 + ((List.range n).map (fun e =>
              (((List.range (nzjis.getD e []).length).filter
                  (fun i => (nzjis.getD e []).getD i 0 = j)).map
                (fun i => (2 * (MT.getD e 0 - vs.sum / (vs.length : ℚ)) / (vs.length : ℚ))
                  * (dMTdmu.getD e []).getD i 0)).sum)).sum := by
  refine ⟨variance_hasDerivAt vs d hd, ?_⟩
  intro n nzjis MT dMTdmu derivative j hj
  rw [updateDerivative_getD n nzjis MT dMTdmu _ _ derivative j hj]
  have hring : ∀ a b k : ℚ, 2 * a * b / k = 2 * a / k * b := by
    intro a b k; ring
  simp only [hring]

/-- Witness of C11: the intensities `1, 1, 4` of the regression scene, differentiated in the
last one: `2·(4 − 2)/3`. -/
theorem gradient_coefficient_is_derivative_witness :
    2 < ([1, 1, 4] : List ℚ).length
    ∧ HasDerivAt (fun t : ℚ => Reference.variance (([1, 1, 4] : List ℚ).set 2 t))
        (2 * (([1, 1, 4] : List ℚ).getD 2 0 - ([1, 1, 4] : List ℚ).sum
          / (([1, 1, 4] : List ℚ).length : ℚ)) / (([1, 1, 4] : List ℚ).length : ℚ))
        (([1, 1, 4] : List ℚ).getD 2 0) :=
  ⟨by decide, (gradient_coefficient_is_derivative [1, 1, 4] 2 (by decide)).1⟩

/-- C13, amended. In exact arithmetic a spatial sample whose valid positions all carry the
same nonzero-index list and the same contribution vector adds exactly zero to every entry of
the gradient, whatever the intensities: its reference term vanishes for every index and the
round of the sample leaves `derivative` as it was. -/
theorem constant_contribution_adds_nothing (cfg : Config) (c : Collaborators)
    (parameters : List ℚ) (gen : RandomSource) (st : DerivativeState) (x : Point)
    (ps : List Int) (nz : List Nat) (cv : List ℚ)
    (hps : chosenPositions cfg c gen = some ps) (hinv : SampleLoopInvariant cfg c st)
    (hconst : ∀ p ∈ ps, Reference.isValid c parameters true x p = true
      → Reference.nonZeroIndicesAt c parameters x p = nz
        ∧ Reference.contributionAt c parameters x p = cv) :
    (∀ j, Reference.sampleGradient c parameters j (x, ps) = 0)
      ∧ ∃ st', derivativeSampleBody cfg c parameters gen st x = some st'
        ∧ st'.derivative = st.derivative := by
  have hzero : ∀ j, Reference.sampleGradient c parameters j (x, ps) = 0 :=
    fun j => sampleGradient_constant c parameters j (x, ps) nz cv hconst
  refine ⟨hzero, ?_⟩
  obtain ⟨st', b1, binv, _, _, _, b5⟩ :=
    derivativeSampleBody_eq cfg c parameters gen st x ps hps hinv
  refine ⟨st', b1, ?_⟩
  apply List.ext_getElem
  · rw [binv.sizeDerivative, hinv.sizeDerivative]
  · intro j h1 h2
    have hj : j < c.GetNumberOfParameters := by rw [← hinv.sizeDerivative]; exact h2
    have := b5 j hj
    rw [hzero j, List.getD_eq_getElem _ _ h1, List.getD_eq_getElem _ _ h2] at this
    rw [this]
    split <;> simp

/-- Witness of C13 as amended: one spatial sample, last dimension of size three, one parameter,
contributions `1, 1, 1`; with the intensities `1, 2, 3` and with `1, 1, 4` the gradient that
`GetValueAndDerivative` returns is `0`. -/
theorem constant_contribution_adds_nothing_witness :
    (chosenPositions Config.constructor sceneConstantJacobian (fixedDraws [] 0)
        = some [0, 1, 2]
      ∧ SampleLoopInvariant Config.constructor sceneConstantJacobian
          (derivativeInit Config.constructor sceneConstantJacobian)
      ∧ ∀ p ∈ ([0, 1, 2] : List Int),
          Reference.isValid sceneConstantJacobian [] true [0, 0] p = true
          → Reference.nonZeroIndicesAt sceneConstantJacobian [] [0, 0] p = [0]
            ∧ Reference.contributionAt sceneConstantJacobian [] [0, 0] p = [1])
    ∧ (∃ st', derivativeSampleBody Config.constructor sceneConstantJacobian []
          (fixedDraws [] 0) (derivativeInit Config.constructor sceneConstantJacobian) [0, 0]
          = some st'
        ∧ st'.derivative = (derivativeInit Config.constructor sceneConstantJacobian).derivative)
    ∧ GetValueAndDerivative Config.constructor sceneConstantJacobian (fixedDraws []) 0 []
        [[0, 0]] [] = .returned (2 / 3, [0])
    ∧ GetValueAndDerivative Config.constructor sceneConstantJacobianSkewed (fixedDraws []) 0 []
        [[0, 0]] [] = .returned (2, [0]) := by
  have hconst : ∀ p ∈ ([0, 1, 2] : List Int),
      Reference.isValid sceneConstantJacobian [] true [0, 0] p = true
      → Reference.nonZeroIndicesAt sceneConstantJacobian [] [0, 0] p = [0]
        ∧ Reference.contributionAt sceneConstantJacobian [] [0, 0] p = [1] := by
    intro p _ _
    refine ⟨rfl, ?_⟩
    simp [Reference.contributionAt, EvaluateTransformJacobianInnerProduct,
      sceneConstantJacobian, tableScene, List.range, List.range.loop]
  refine ⟨⟨rfl, derivativeInit_invariant _ _, hconst⟩,
    (constant_contribution_adds_nothing Config.constructor sceneConstantJacobian []
      (fixedDraws [] 0) (derivativeInit Config.constructor sceneConstantJacobian) [0, 0]
      [0, 1, 2] [0] [1] rfl (derivativeInit_invariant _ _) hconst).2, ?_, ?_⟩
  · rw [GetValueAndDerivative_eq Config.constructor sceneConstantJacobian (fixedDraws []) 0 []
      [[0, 0]] [] [([0, 0], [0, 1, 2])] rfl]
    simp [Reference.value, Reference.gradient, Reference.sampleGradient,
      Reference.positionGradient, Reference.nonZeroIndicesAt, Reference.contributionAt,
      EvaluateTransformJacobianInnerProduct, Reference.accumulatedCost,
      Reference.countedSamples, Reference.validIntensities, Reference.isValid,
      Reference.intensityAt, Reference.mappedAt, Reference.pointAt, Reference.variance,
      sceneConstantJacobian, tableScene, Collaborators.lastDim, List.range, List.range.loop]
    norm_num
  · rw [GetValueAndDerivative_eq Config.constructor sceneConstantJacobianSkewed (fixedDraws [])
      0 [] [[0, 0]] [] [([0, 0], [0, 1, 2])] rfl]
    simp [Reference.value, Reference.gradient, Reference.sampleGradient,
      Reference.positionGradient, Reference.nonZeroIndicesAt, Reference.contributionAt,
      EvaluateTransformJacobianInnerProduct, Reference.accumulatedCost,
      Reference.countedSamples, Reference.validIntensities, Reference.isValid,
      Reference.intensityAt, Reference.mappedAt, Reference.pointAt, Reference.variance,
      sceneConstantJacobianSkewed, tableScene, Collaborators.lastDim, List.range,
      List.range.loop]
    norm_num

/-- C14. One spatial sample, last dimension of size three, deterministic mode, all positions
valid, one parameter with index list `[0]`, contributions `1, 2, 1`, intensities `1, 1, 4`,
the policy accepting: `GetValueAndDerivative` returns the value `2` and the gradient
`[-2/3]`. -/
theorem regression_scenario :
    sceneRegression.lastDimSize = 3
      ∧ sceneRegression.GetNumberOfParameters = 1
      ∧ Config.constructor.m_SampleLastDimensionRandomly = false
      ∧ (allPositions 3).map (Reference.isValid sceneRegression [] true [0, 0])
        = [true, true, true]
      ∧ (allPositions 3).map (Reference.nonZeroIndicesAt sceneRegression [] [0, 0])
        = [[0], [0], [0]]
      ∧ (allPositions 3).map (Reference.contributionAt sceneRegression [] [0, 0])
        = [[1], [2], [1]]
      ∧ (allPositions 3).map (Reference.intensityAt sceneRegression [] true [0, 0]) = [1, 1, 4]
      ∧ GetValueAndDerivative Config.constructor sceneRegression (fixedDraws []) 0 []
          [[0, 0]] [] = .returned (2, [-2 / 3]) := by
  refine ⟨rfl, rfl, rfl, by decide, by decide, ?_, ?_, ?_⟩
  · simp [allPositions, Reference.contributionAt, EvaluateTransformJacobianInnerProduct,
      Reference.mappedAt, Reference.pointAt, sceneRegression, tableScene,
      Collaborators.lastDim, List.range, List.range.loop]
  · simp [allPositions, Reference.intensityAt, Reference.mappedAt, Reference.pointAt,
      sceneRegression, tableScene, Collaborators.lastDim, List.range, List.range.loop]
  rw [GetValueAndDerivative_eq Config.constructor sceneRegression (fixedDraws []) 0 []
    [[0, 0]] [] [([0, 0], [0, 1, 2])] rfl]
  simp [Reference.value, Reference.gradient, Reference.sampleGradient,
    Reference.positionGradient, Reference.nonZeroIndicesAt, Reference.contributionAt,
    EvaluateTransformJacobianInnerProduct, Reference.accumulatedCost,
    Reference.countedSamples, Reference.validIntensities, Reference.isValid,
    Reference.intensityAt, Reference.mappedAt, Reference.pointAt, Reference.variance,
    sceneRegression, tableScene, Collaborators.lastDim, List.range, List.range.loop]
  norm_num

/-! ## The inner product of Jacobian and image derivative -/

theorem innerProduct_inner (jacobian : List ℚ) (imDeriv : ℚ) (m : Nat) (st : Nat × List ℚ) :
    ((List.range m).foldl (fun (st : Nat × List ℚ) mu =>
        (st.1 + 1, st.2.modify (fun x => x + jacobian.getD st.1 0 * imDeriv) mu)) st).1
        = st.1 + m
      ∧ ∀ mu, mu < st.2.length →
        ((List.range m).foldl (fun (st : Nat × List ℚ) mu =>
          (st.1 + 1, st.2.modify (fun x => x + jacobian.getD st.1 0 * imDeriv) mu)) st).2.getD
            mu 0
          = st.2.getD mu 0 + (if mu < m then jacobian.getD (st.1 + mu) 0 * imDeriv else 0) := by
  induction m with
  | zero => simp
  | succ m ih =>
    obtain ⟨ih1, ih2⟩ := ih
    rw [List.range_succ, List.foldl_append]
    simp only [List.foldl_cons, List.foldl_nil]
    refine ⟨by rw [ih1]; omega, ?_⟩
    intro mu hmu
    rw [getD_modify_add _ _ _ _ (by rw [innerProduct_inner_length]; exact hmu), ih2 mu hmu, ih1]
    by_cases h1 : mu < m
    · rw [if_pos h1, if_neg (by omega), if_pos (by omega)]; ring
    · by_cases h2 : m = mu
      · subst h2
        rw [if_neg h1, if_pos rfl, if_pos (by omega)]; ring
      · rw [if_neg h1, if_neg h2, if_neg (by omega)]; ring

theorem innerProduct_outer (jacobian movingImageDerivative : List ℚ) (n F : Nat)
    (st : Nat × List ℚ) (hn : st.2.length = n) :
    ((List.range F).foldl (fun (st : Nat × List ℚ) dim =>
        (List.range n).foldl (fun (st : Nat × List ℚ) mu =>
          (st.1 + 1, st.2.modify
            (fun x => x + jacobian.getD st.1 0 * movingImageDerivative.getD dim 0) mu)) st)
        st).1 = st.1 + F * n
      ∧ ((List.range F).foldl (fun (st : Nat × List ℚ) dim =>
          (List.range n).foldl (fun (st : Nat × List ℚ) mu =>
            (st.1 + 1, st.2.modify
              (fun x => x + jacobian.getD st.1 0 * movingImageDerivative.getD dim 0) mu)) st)
          st).2.length = n
      ∧ ∀ mu, mu < n →
        ((List.range F).foldl (fun (st : Nat × List ℚ) dim =>
          (List.range n).foldl (fun (st : Nat × List ℚ) mu =>
            (st.1 + 1, st.2.modify
              (fun x => x + jacobian.getD st.1 0 * movingImageDerivative.getD dim 0) mu)) st)
          st).2.getD mu 0
          = st.2.getD mu 0 + ((List.range F).map (fun dim =>
              jacobian.getD (st.1 + dim * n + mu) 0 * movingImageDerivative.getD dim 0)).sum := by
  induction F with
  | zero => simp [hn]
  | succ F ih =>
    obtain ⟨ih1, ih2, ih3⟩ := ih
    rw [List.range_succ, List.foldl_append]
    simp only [List.foldl_cons, List.foldl_nil]
    obtain ⟨i1, i2⟩ := innerProduct_inner jacobian (movingImageDerivative.getD F 0) n
      ((List.range F).foldl (fun (st : Nat × List ℚ) dim =>
        (List.range n).foldl (fun (st : Nat × List ℚ) mu =>
          (st.1 + 1, st.2.modify
            (fun x => x + jacobian.getD st.1 0 * movingImageDerivative.getD dim 0) mu)) st)
        st)
    refine ⟨?_, ?_, ?_⟩
    · rw [i1, ih1]; ring
    · rw [innerProduct_inner_length, ih2]
    · intro mu hmu
      rw [i2 mu (by rw [ih2]; exact hmu), ih3 mu hmu, if_pos hmu, ih1, List.map_append,
        List.sum_append]
      simp only [List.map_cons, List.map_nil, List.sum_cons, List.sum_nil]
      ring

/-- C15. For a Jacobian of `FixedImageDimension` rows and `size( imageJacobian )` columns,
stored row by row, after `EvaluateTransformJacobianInnerProduct` the entry `imageJacobian[mu]`
is the sum over the axes `dim` of `jacobian[dim][mu] * movingImageDerivative[dim]`; the size
of `imageJacobian` is kept and what it held before has no influence. -/
theorem innerProduct_reference (FixedImageDimension : Nat)
    (jacobian movingImageDerivative imageJacobian : List ℚ)
    (_hshape : jacobian.length = FixedImageDimension * imageJacobian.length) :
    (EvaluateTransformJacobianInnerProduct FixedImageDimension jacobian movingImageDerivative
        imageJacobian).length = imageJacobian.length
      ∧ (∀ mu, mu < imageJacobian.length →
          (EvaluateTransformJacobianInnerProduct FixedImageDimension jacobian
              movingImageDerivative imageJacobian).getD mu 0
            = ((List.range FixedImageDimension).map (fun dim =>
                jacobian.getD (dim * imageJacobian.length + mu) 0
                  * movingImageDerivative.getD dim 0)).sum)
      ∧ ∀ before : List ℚ, before.length = imageJacobian.length →
          EvaluateTransformJacobianInnerProduct FixedImageDimension jacobian
              movingImageDerivative before
            = EvaluateTransformJacobianInnerProduct FixedImageDimension jacobian
              movingImageDerivative imageJacobian := by
  refine ⟨innerProduct_length _ _ _ _, ?_, ?_⟩
  · intro mu hmu
    obtain ⟨_, _, h3⟩ := innerProduct_outer jacobian movingImageDerivative imageJacobian.length
      FixedImageDimension (0, List.replicate imageJacobian.length 0) (by simp)
    have := h3 mu hmu
    simp only [getD_replicate_zero, zero_add] at this
    unfold EvaluateTransformJacobianInnerProduct
    exact this
  · intro before hb
    rw [innerProduct_prior _ _ _ before, innerProduct_prior _ _ _ imageJacobian, hb]

/-- Witness of C15: a Jacobian of two rows and three columns. -/
theorem innerProduct_reference_witness :
    ([1, 2, 3, 4, 5, 6] : List ℚ).length = 2 * ([7, 7, 7] : List ℚ).length
    ∧ ∀ mu, mu < ([7, 7, 7] : List ℚ).length →
        (EvaluateTransformJacobianInnerProduct 2 [1, 2, 3, 4, 5, 6] [10, 100]
            [7, 7, 7]).getD mu 0
          = ((List.range 2).map (fun dim =>
              ([1, 2, 3, 4, 5, 6] : List ℚ).getD (dim * ([7, 7, 7] : List ℚ).length + mu) 0
                * ([10, 100] : List ℚ).getD dim 0)).sum :=
  ⟨by decide, (innerProduct_reference 2 [1, 2, 3, 4, 5, 6] [10, 100] [7, 7, 7]
    (by decide)).2.1⟩

theorem innerProduct_example :
    EvaluateTransformJacobianInnerProduct 2 [1, 2, 3, 4, 5, 6] [10, 100] [7, 7, 7]
      = [410, 520, 630] := by
  simp [EvaluateTransformJacobianInnerProduct, List.range, List.range.loop]
  norm_num

/-! ## Frame properties of the sample loop -/

theorem validIntensities_nil_of_invalid (c : Collaborators) (parameters : List ℚ)
    (gradientMode : Bool) (sample : Point × List Int)
    (h : ∀ p ∈ sample.2, Reference.isValid c parameters gradientMode sample.1 p = false) :
    Reference.validIntensities c parameters gradientMode sample = [] := by
  unfold Reference.validIntensities
  rw [List.map_eq_nil_iff, List.filter_eq_nil_iff]
  intro p hp
  rw [h p hp]
  simp

theorem countedSamples_insert (c : Collaborators) (parameters : List ℚ) (gradientMode : Bool)
    (tpre tpost : List (Point × List Int)) (sample : Point × List Int)
    (h : ∀ p ∈ sample.2, Reference.isValid c parameters gradientMode sample.1 p = false) :
    Reference.countedSamples c parameters gradientMode (tpre ++ sample :: tpost)
      = Reference.countedSamples c parameters gradientMode (tpre ++ tpost) := by
  unfold Reference.countedSamples
  rw [List.filter_append, List.filter_append, List.filter_cons,
    validIntensities_nil_of_invalid c parameters gradientMode sample h]
  simp

/-- C16. A spatial sample `x` none of whose last-dimension positions `ps` is valid contributes
nothing: with `x` inserted anywhere into the container, the other samples keeping their
positions, the loops of `GetValue` and `GetValueAndDerivative` end with the same accumulated
measure, the same accumulated gradient and the same tally of counted samples; only the
number of samples attempted grows by one; and unless the policy rejects one of the two
containers, value and gradient are identical. -/
theorem invalid_sample_contributes_nothing (cfg : Config) (c : Collaborators)
    (rng rng' : Nat → RandomSource) (numberOfPixelsCounted : Nat) (parameters : List ℚ)
    (pre post : List Point) (x : Point) (ps : List Int) (tpre tpost : List (Point × List Int))
    (derivative : List ℚ)
    (hwith : positionsPerSample cfg c rng 0 (pre ++ x :: post)
      = some (tpre ++ (x, ps) :: tpost))
    (hwithout : positionsPerSample cfg c rng' 0 (pre ++ post) = some (tpre ++ tpost))
    (hinvalid : ∀ gradientMode, ∀ p ∈ ps,
      Reference.isValid c parameters gradientMode x p = false) :
    (∃ s1 s2,
        valueSampleLoop cfg c parameters rng 0 (pre ++ x :: post)
            { m_NumberOfPixelsCounted := 0, measure := 0,
              lastDimPositions := allPositions c.lastDimSize } = some s1
        ∧ valueSampleLoop cfg c parameters rng' 0 (pre ++ post)
            { m_NumberOfPixelsCounted := 0, measure := 0,
              lastDimPositions := allPositions c.lastDimSize } = some s2
        ∧ s1.measure = s2.measure
        ∧ s1.m_NumberOfPixelsCounted = s2.m_NumberOfPixelsCounted)
      ∧ (∃ s1 s2,
        derivativeSampleLoop cfg c parameters rng 0 (pre ++ x :: post) (derivativeInit cfg c)
            = some s1
        ∧ derivativeSampleLoop cfg c parameters rng' 0 (pre ++ post) (derivativeInit cfg c)
            = some s2
        ∧ s1.measure = s2.measure
        ∧ s1.derivative = s2.derivative
        ∧ s1.m_NumberOfPixelsCounted = s2.m_NumberOfPixelsCounted)
      ∧ (pre ++ x :: post).length = (pre ++ post).length + 1
      ∧ (GetValue cfg c rng numberOfPixelsCounted parameters (pre ++ x :: post)
            ≠ .insufficientSamples
          → GetValue cfg c rng' numberOfPixelsCounted parameters (pre ++ post)
            ≠ .insufficientSamples
          → GetValue cfg c rng numberOfPixelsCounted parameters (pre ++ x :: post)
            = GetValue cfg c rng' numberOfPixelsCounted parameters (pre ++ post))
      ∧ (GetValueAndDerivative cfg c rng numberOfPixelsCounted parameters (pre ++ x :: post)
            derivative ≠ .insufficientSamples
          → GetValueAndDerivative cfg c rng' numberOfPixelsCounted parameters (pre ++ post)
            derivative ≠ .insufficientSamples
          → GetValueAndDerivative cfg c rng numberOfPixelsCounted parameters
              (pre ++ x :: post) derivative
            = GetValueAndDerivative cfg c rng' numberOfPixelsCounted parameters (pre ++ post)
              derivative) := by
  have hcV := countedSamples_insert c parameters false tpre tpost (x, ps) (hinvalid false)
  have hcG := countedSamples_insert c parameters true tpre tpost (x, ps) (hinvalid true)
  have haV : Reference.accumulatedCost c parameters false (tpre ++ (x, ps) :: tpost)
      = Reference.accumulatedCost c parameters false (tpre ++ tpost) := by
    unfold Reference.accumulatedCost; rw [hcV]
  have haG : Reference.accumulatedCost c parameters true (tpre ++ (x, ps) :: tpost)
      = Reference.accumulatedCost c parameters true (tpre ++ tpost) := by
    unfold Reference.accumulatedCost; rw [hcG]
  have hvV : Reference.value c parameters false (tpre ++ (x, ps) :: tpost)
      = Reference.value c parameters false (tpre ++ tpost) := by
    unfold Reference.value; rw [haV, hcV]
  have hvG : Reference.value c parameters true (tpre ++ (x, ps) :: tpost)
      = Reference.value c parameters true (tpre ++ tpost) := by
    unfold Reference.value; rw [haG, hcG]
  have hgG : Reference.gradient c parameters (tpre ++ (x, ps) :: tpost)
      = Reference.gradient c parameters (tpre ++ tpost) := by
    funext j; unfold Reference.gradient; rw [hcG]
  refine ⟨?_, ?_, by simp; omega, ?_, ?_⟩
  · obtain ⟨s1, a1, a2, a3⟩ := valueSampleLoop_eq cfg c parameters rng (pre ++ x :: post) 0
      { m_NumberOfPixelsCounted := 0, measure := 0,
        lastDimPositions := allPositions c.lastDimSize } _ hwith (fun _ => rfl)
    obtain ⟨s2, b1, b2, b3⟩ := valueSampleLoop_eq cfg c parameters rng' (pre ++ post) 0
      { m_NumberOfPixelsCounted := 0, measure := 0,
        lastDimPositions := allPositions c.lastDimSize } _ hwithout (fun _ => rfl)
    exact ⟨s1, s2, a1, b1, by rw [a3, b3, haV], by rw [a2, b2, hcV]⟩
  · obtain ⟨s1, a1, alen, a2, a3, a4⟩ := derivativeSampleLoop_eq cfg c parameters rng
      (pre ++ x :: post) 0 (derivativeInit cfg c) _ hwith (derivativeInit_invariant cfg c)
    obtain ⟨s2, b1, blen, b2, b3, b4⟩ := derivativeSampleLoop_eq cfg c parameters rng'
      (pre ++ post) 0 (derivativeInit cfg c) _ hwithout (derivativeInit_invariant cfg c)
    refine ⟨s1, s2, a1, b1, by rw [a3, b3, haG], ?_, by rw [a2, b2, hcG]⟩
    apply List.ext_getElem
    · rw [alen, blen]
    · intro j h1 h2
      have hj : j < c.GetNumberOfParameters := by rw [← alen]; exact h1
      have e1 := a4 j hj
      have e2 := b4 j hj
      rw [List.getD_eq_getElem _ _ h1] at e1
      rw [List.getD_eq_getElem _ _ h2] at e2
      rw [e1, e2, hcG]
  · intro h1 h2
    rw [GetValue_eq cfg c rng numberOfPixelsCounted parameters _ _ hwith, hcV, hvV] at h1 ⊢
    rw [GetValue_eq cfg c rng' numberOfPixelsCounted parameters _ _ hwithout] at h2 ⊢
    cases hp1 : c.CheckNumberOfSamples (pre ++ x :: post).length
        (Reference.countedSamples c parameters false (tpre ++ tpost)).length
    · rw [hp1] at h1; simp at h1
    · cases hp2 : c.CheckNumberOfSamples (pre ++ post).length
          (Reference.countedSamples c parameters false (tpre ++ tpost)).length
      · rw [hp2] at h2; simp at h2
      · rfl
  · intro h1 h2
    rw [GetValueAndDerivative_eq cfg c rng numberOfPixelsCounted parameters _ derivative _
      hwith, hcG, hvG, hgG] at h1 ⊢
    rw [GetValueAndDerivative_eq cfg c rng' numberOfPixelsCounted parameters _ derivative _
      hwithout] at h2 ⊢
    cases hp1 : c.CheckNumberOfSamples (pre ++ x :: post).length
        (Reference.countedSamples c parameters true (tpre ++ tpost)).length
    · rw [hp1] at h1; simp at h1
    · cases hp2 : c.CheckNumberOfSamples (pre ++ post).length
          (Reference.countedSamples c parameters true (tpre ++ tpost)).length
      · rw [hp2] at h2; simp at h2
      · rfl

/-- Witness of C16: a sample outside the mask between two samples inside it. -/
theorem invalid_sample_contributes_nothing_witness :
    (positionsPerSample Config.constructor sceneHalfMasked (fixedDraws []) 0
        ([[0, 0]] ++ [1, 0] :: [[0, 5]])
        = some ([([0, 0], [0, 1, 2])] ++ ([1, 0], [0, 1, 2]) :: [([0, 5], [0, 1, 2])])
      ∧ positionsPerSample Config.constructor sceneHalfMasked (fixedDraws []) 0
          ([[0, 0]] ++ [[0, 5]]) = some ([([0, 0], [0, 1, 2])] ++ [([0, 5], [0, 1, 2])])
      ∧ ∀ gradientMode, ∀ p ∈ ([0, 1, 2] : List Int),
          Reference.isValid sceneHalfMasked [] gradientMode [1, 0] p = false)
    ∧ (GetValueAndDerivative Config.constructor sceneHalfMasked (fixedDraws []) 0 []
          ([[0, 0]] ++ [1, 0] :: [[0, 5]]) [] ≠ .insufficientSamples
        → GetValueAndDerivative Config.constructor sceneHalfMasked (fixedDraws []) 0 []
          ([[0, 0]] ++ [[0, 5]]) [] ≠ .insufficientSamples
        → GetValueAndDerivative Config.constructor sceneHalfMasked (fixedDraws []) 0 []
            ([[0, 0]] ++ [1, 0] :: [[0, 5]]) []
          = GetValueAndDerivative Config.constructor sceneHalfMasked (fixedDraws []) 0 []
            ([[0, 0]] ++ [[0, 5]]) []) :=
  ⟨⟨rfl, rfl, fun _ _ _ => rfl⟩,
    (invalid_sample_contributes_nothing Config.constructor sceneHalfMasked (fixedDraws [])
      (fixedDraws []) 0 [] [[0, 0]] [[0, 5]] [1, 0] [0, 1, 2] [([0, 0], [0, 1, 2])]
      [([0, 5], [0, 1, 2])] [] rfl rfl (fun _ _ _ => rfl)).2.2.2.2⟩

/-- C17. In deterministic mode what `GetValue` and `GetValueAndDerivative` return depends
neither on the value of `m_NumberOfPixelsCounted` before the call, nor on the content or size
of the `derivative` argument before the call, nor on the random source: a call repeated with
the same parameters on the state that the first call left returns the same value and
gradient. -/
theorem deterministic_call_is_stateless (cfg : Config) (c : Collaborators)
    (rng rng' : Nat → RandomSource) (numberOfPixelsCounted numberOfPixelsCounted' : Nat)
    (parameters : List ℚ) (sampleContainer : List Point) (derivative derivative' : List ℚ)
    (hdet : cfg.m_SampleLastDimensionRandomly = false) :
    GetValue cfg c rng numberOfPixelsCounted parameters sampleContainer
        = GetValue cfg c rng' numberOfPixelsCounted' parameters sampleContainer
      ∧ GetValueAndDerivative cfg c rng numberOfPixelsCounted parameters sampleContainer
          derivative
        = GetValueAndDerivative cfg c rng' numberOfPixelsCounted' parameters sampleContainer
          derivative'
      ∧ ∀ value gradient,
          GetValueAndDerivative cfg c rng numberOfPixelsCounted parameters sampleContainer
            derivative = .returned (value, gradient)
          → GetValueAndDerivative cfg c rng' numberOfPixelsCounted' parameters sampleContainer
              gradient = .returned (value, gradient)
            ∧ GetValue cfg c rng' numberOfPixelsCounted' parameters sampleContainer
              = GetValue cfg c rng numberOfPixelsCounted parameters sampleContainer := by
  have hV : GetValue cfg c rng numberOfPixelsCounted parameters sampleContainer
      = GetValue cfg c rng' numberOfPixelsCounted' parameters sampleContainer := by
    rw [GetValue_eq cfg c rng numberOfPixelsCounted parameters sampleContainer _
        (positionsPerSample_deterministic cfg c rng hdet 0 sampleContainer),
      GetValue_eq cfg c rng' numberOfPixelsCounted' parameters sampleContainer _
        (positionsPerSample_deterministic cfg c rng' hdet 0 sampleContainer)]
  have hG : ∀ d d' : List ℚ,
      GetValueAndDerivative cfg c rng numberOfPixelsCounted parameters sampleContainer d
        = GetValueAndDerivative cfg c rng' numberOfPixelsCounted' parameters sampleContainer
          d' := by
    intro d d'
    rw [GetValueAndDerivative_eq cfg c rng numberOfPixelsCounted parameters sampleContainer d _
        (positionsPerSample_deterministic cfg c rng hdet 0 sampleContainer),
      GetValueAndDerivative_eq cfg c rng' numberOfPixelsCounted' parameters sampleContainer d' _
        (positionsPerSample_deterministic cfg c rng' hdet 0 sampleContainer)]
  refine ⟨hV, hG derivative derivative', ?_⟩
  intro value gradient h
  exact ⟨by rw [← hG derivative gradient]; exact h, hV.symm⟩

/-- Witness of C17: the regression scene called with two different states before the call. -/
theorem deterministic_call_is_stateless_witness :
    Config.constructor.m_SampleLastDimensionRandomly = false
    ∧ GetValueAndDerivative Config.constructor sceneRegression (fixedDraws []) 0 [] [[0, 0]] []
      = GetValueAndDerivative Config.constructor sceneRegression (fixedDraws [1]) 1 []
          [[0, 0]] [-2 / 3] :=
  ⟨rfl, (deterministic_call_is_stateless Config.constructor sceneRegression (fixedDraws [])
    (fixedDraws [1]) 0 1 [] [[0, 0]] [] [-2 / 3] rfl).2.1⟩

theorem countedSamples_perm (c : Collaborators) (parameters : List ℚ) (gradientMode : Bool)
    {tagged tagged' : List (Point × List Int)} (h : tagged.Perm tagged') :
    (Reference.countedSamples c parameters gradientMode tagged).Perm
      (Reference.countedSamples c parameters gradientMode tagged') :=
  h.filter _

theorem value_perm (c : Collaborators) (parameters : List ℚ) (gradientMode : Bool)
    {tagged tagged' : List (Point × List Int)} (h : tagged.Perm tagged') :
    Reference.value c parameters gradientMode tagged
      = Reference.value c parameters gradientMode tagged' := by
  unfold Reference.value Reference.accumulatedCost
  rw [((countedSamples_perm c parameters gradientMode h).map _).sum_eq,
    (countedSamples_perm c parameters gradientMode h).length_eq]

theorem gradient_perm (c : Collaborators) (parameters : List ℚ)
    {tagged tagged' : List (Point × List Int)} (h : tagged.Perm tagged') :
    Reference.gradient c parameters tagged = Reference.gradient c parameters tagged' := by
  funext j
  unfold Reference.gradient
  rw [((countedSamples_perm c parameters true h).map _).sum_eq,
    (countedSamples_perm c parameters true h).length_eq]

/-- C19. In deterministic mode a permutation of the spatial samples of the container changes
neither the samples counted as valid (up to their order), nor their tally, nor the value, nor
the gradient. -/
theorem sample_order_independent (cfg : Config) (c : Collaborators)
    (rng rng' : Nat → RandomSource) (numberOfPixelsCounted : Nat) (parameters : List ℚ)
    (sampleContainer permuted : List Point) (derivative : List ℚ)
    (hdet : cfg.m_SampleLastDimensionRandomly = false)
    (hperm : sampleContainer.Perm permuted) :
    (∀ gradientMode,
        (Reference.countedSamples c parameters gradientMode
            (sampleContainer.map (fun x => (x, Reference.fullSequence c.lastDimSize)))).Perm
          (Reference.countedSamples c parameters gradientMode
            (permuted.map (fun x => (x, Reference.fullSequence c.lastDimSize))))
        ∧ (Reference.countedSamples c parameters gradientMode
            (sampleContainer.map (fun x => (x, Reference.fullSequence c.lastDimSize)))).length
          = (Reference.countedSamples c parameters gradientMode
            (permuted.map (fun x => (x, Reference.fullSequence c.lastDimSize)))).length)
      ∧ GetValue cfg c rng numberOfPixelsCounted parameters sampleContainer
        = GetValue cfg c rng' numberOfPixelsCounted parameters permuted
      ∧ GetValueAndDerivative cfg c rng numberOfPixelsCounted parameters sampleContainer
          derivative
        = GetValueAndDerivative cfg c rng' numberOfPixelsCounted parameters permuted
          derivative := by
  have htag : (sampleContainer.map (fun x => (x, Reference.fullSequence c.lastDimSize))).Perm
      (permuted.map (fun x => (x, Reference.fullSequence c.lastDimSize))) := hperm.map _
  refine ⟨fun m => ⟨countedSamples_perm c parameters m htag,
    (countedSamples_perm c parameters m htag).length_eq⟩, ?_, ?_⟩
  · rw [GetValue_eq cfg c rng numberOfPixelsCounted parameters sampleContainer _
        (positionsPerSample_deterministic cfg c rng hdet 0 sampleContainer),
      GetValue_eq cfg c rng' numberOfPixelsCounted parameters permuted _
        (positionsPerSample_deterministic cfg c rng' hdet 0 permuted),
      value_perm c parameters false htag,
      (countedSamples_perm c parameters false htag).length_eq, hperm.length_eq]
  · rw [GetValueAndDerivative_eq cfg c rng numberOfPixelsCounted parameters sampleContainer
        derivative _ (positionsPerSample_deterministic cfg c rng hdet 0 sampleContainer),
      GetValueAndDerivative_eq cfg c rng' numberOfPixelsCounted parameters permuted
        derivative _ (positionsPerSample_deterministic cfg c rng' hdet 0 permuted),
      value_perm c parameters true htag, gradient_perm c parameters htag,
      (countedSamples_perm c parameters true htag).length_eq, hperm.length_eq]

/-- Witness of C19: three spatial samples of the half-masked scene, rotated. -/
theorem sample_order_independent_witness :
    (Config.constructor.m_SampleLastDimensionRandomly = false
      ∧ ([[0, 0], [1, 0], [0, 5]] : List Point).Perm [[1, 0], [0, 5], [0, 0]])
    ∧ GetValueAndDerivative Config.constructor sceneHalfMasked (fixedDraws []) 0 []
        [[0, 0], [1, 0], [0, 5]] []
      = GetValueAndDerivative Config.constructor sceneHalfMasked (fixedDraws []) 0 []
        [[1, 0], [0, 5], [0, 0]] [] :=
  ⟨⟨rfl, @List.perm_append_comm Point [[0, 0]] [[1, 0], [0, 5]]⟩,
    (sample_order_independent Config.constructor sceneHalfMasked (fixedDraws [])
      (fixedDraws []) 0 [] [[0, 0], [1, 0], [0, 5]] [[1, 0], [0, 5], [0, 0]] [] rfl
      (@List.perm_append_comm Point [[0, 0]] [[1, 0], [0, 5]])).2.2⟩

/-! ## The validity of a position -/

/-- C18. A last-dimension position is counted, `numSamplesOk` incremented and its intensity
added to both sums, iff the transform reports the point inside its support and the mapped
point is inside the moving mask and the moving image can be evaluated there; otherwise sums
and count stay as they are. The mask is not consulted when the transform check fails and the
interpolator is not consulted when the transform or the mask check fails, so the outcome of
the checks does not depend on them then. -/
theorem position_validity (c : Collaborators) (parameters : List ℚ) (fixedPoint : Point)
    (wantDerivative : Bool) (lastDimPositions : List Int) (d : Nat) (sv : ValueLoopState)
    (sd : DerivativeLoopState) :
    (checkSampleLogged c parameters fixedPoint wantDerivative).1
        = checkSample c parameters fixedPoint wantDerivative
      ∧ ((checkSample c parameters fixedPoint wantDerivative).1 = true
          ↔ (c.TransformPoint parameters fixedPoint).1 = true
            ∧ c.IsInsideMovingMask (c.TransformPoint parameters fixedPoint).2 = true
            ∧ (c.EvaluateMovingImageValueAndDerivative
                (c.TransformPoint parameters fixedPoint).2 wantDerivative).1 = true)
      ∧ ((c.TransformPoint parameters fixedPoint).1 = false
          → (checkSampleLogged c parameters fixedPoint wantDerivative).2
              = [Consulted.transform]
            ∧ ∀ (mask : Point → Bool) (evaluate : Point → Bool → Bool × ℚ × List ℚ),
                checkSample { c with IsInsideMovingMask := mask,
                                     EvaluateMovingImageValueAndDerivative := evaluate }
                    parameters fixedPoint wantDerivative
                  = checkSample c parameters fixedPoint wantDerivative)
      ∧ ((c.TransformPoint parameters fixedPoint).1 = true
          → c.IsInsideMovingMask (c.TransformPoint parameters fixedPoint).2 = false
          → (checkSampleLogged c parameters fixedPoint wantDerivative).2
              = [Consulted.transform, Consulted.movingMask]
            ∧ ∀ (evaluate : Point → Bool → Bool × ℚ × List ℚ),
                checkSample { c with EvaluateMovingImageValueAndDerivative := evaluate }
                    parameters fixedPoint wantDerivative
                  = checkSample c parameters fixedPoint wantDerivative)
      ∧ ((c.TransformPoint parameters fixedPoint).1 = true
          → c.IsInsideMovingMask (c.TransformPoint parameters fixedPoint).2 = true
          → (checkSampleLogged c parameters fixedPoint wantDerivative).2
              = [Consulted.transform, Consulted.movingMask, Consulted.interpolator])
      ∧ ((valueLoopBody c parameters lastDimPositions sv d).numSamplesOk
          = sv.numSamplesOk
            + (if (checkSample c parameters (c.TransformContinuousIndexToPhysicalPoint
                (sv.voxelCoord.set c.lastDim ((lastDimPositions.getD d 0 : Int) : ℚ)))
                false).1 then 1 else 0)
        ∧ (valueLoopBody c parameters lastDimPositions sv d).sumValues
          = sv.sumValues
            + (if (checkSample c parameters (c.TransformContinuousIndexToPhysicalPoint
                (sv.voxelCoord.set c.lastDim ((lastDimPositions.getD d 0 : Int) : ℚ)))
                false).1
               then (checkSample c parameters (c.TransformContinuousIndexToPhysicalPoint
                (sv.voxelCoord.set c.lastDim ((lastDimPositions.getD d 0 : Int) : ℚ)))
                false).2.1 else 0)
        ∧ (valueLoopBody c parameters lastDimPositions sv d).sumValuesSquared
          = sv.sumValuesSquared
            + (if (checkSample c parameters (c.TransformContinuousIndexToPhysicalPoint
                (sv.voxelCoord.set c.lastDim ((lastDimPositions.getD d 0 : Int) : ℚ)))
                false).1
               then (checkSample c parameters (c.TransformContinuousIndexToPhysicalPoint
                (sv.voxelCoord.set c.lastDim ((lastDimPositions.getD d 0 : Int) : ℚ)))
                false).2.1 * (checkSample c parameters
                  (c.TransformContinuousIndexToPhysicalPoint
                    (sv.voxelCoord.set c.lastDim ((lastDimPositions.getD d 0 : Int) : ℚ)))
                  false).2.1 else 0))
      ∧ ((derivativeLoopBody c parameters lastDimPositions sd d).numSamplesOk
          = sd.numSamplesOk
            + (if (checkSample c parameters (c.TransformContinuousIndexToPhysicalPoint
                (sd.voxelCoord.set c.lastDim ((lastDimPositions.getD d 0 : Int) : ℚ)))
                true).1 then 1 else 0)
        ∧ (derivativeLoopBody c parameters lastDimPositions sd d).sumValues
          = sd.sumValues
            + (if (checkSample c parameters (c.TransformContinuousIndexToPhysicalPoint
                (sd.voxelCoord.set c.lastDim ((lastDimPositions.getD d 0 : Int) : ℚ)))
                true).1
               then (checkSample c parameters (c.TransformContinuousIndexToPhysicalPoint
                (sd.voxelCoord.set c.lastDim ((lastDimPositions.getD d 0 : Int) : ℚ)))
                true).2.1 else 0)
        ∧ (derivativeLoopBody c parameters lastDimPositions sd d).sumValuesSquared
          = sd.sumValuesSquared
            + (if (checkSample c parameters (c.TransformContinuousIndexToPhysicalPoint
                (sd.voxelCoord.set c.lastDim ((lastDimPositions.getD d 0 : Int) : ℚ)))
                true).1
               then (checkSample c parameters (c.TransformContinuousIndexToPhysicalPoint
                (sd.voxelCoord.set c.lastDim ((lastDimPositions.getD d 0 : Int) : ℚ)))
                true).2.1 * (checkSample c parameters
                  (c.TransformContinuousIndexToPhysicalPoint
                    (sd.voxelCoord.set c.lastDim ((lastDimPositions.getD d 0 : Int) : ℚ)))
                  true).2.1 else 0)) := by
  refine ⟨?_, ?_, ?_, ?_, ?_, ⟨?_, ?_, ?_⟩, ⟨?_, ?_, ?_⟩⟩
  · unfold checkSampleLogged checkSample
    cases h1 : (c.TransformPoint parameters fixedPoint).1 <;>
      cases h2 : c.IsInsideMovingMask (c.TransformPoint parameters fixedPoint).2 <;>
      simp [h1, h2]
  · unfold checkSample
    cases h1 : (c.TransformPoint parameters fixedPoint).1 <;>
      cases h2 : c.IsInsideMovingMask (c.TransformPoint parameters fixedPoint).2 <;>
      simp [h1, h2]
  · intro h1
    refine ⟨by simp [checkSampleLogged, h1], ?_⟩
    intro mask evaluate
    simp [checkSample, h1]
  · intro h1 h2
    refine ⟨by simp [checkSampleLogged, h1, h2], ?_⟩
    intro evaluate
    simp [checkSample, h1, h2]
  · intro h1 h2
    simp [checkSampleLogged, h1, h2]
  all_goals
    first
    | (simp only [valueLoopBody]
       generalize (checkSample c parameters (c.TransformContinuousIndexToPhysicalPoint
          (sv.voxelCoord.set c.lastDim ((lastDimPositions.getD d 0 : Int) : ℚ))) false) = r
       cases h : r.1 <;> simp [h])
    | (simp only [derivativeLoopBody]
       generalize (checkSample c parameters (c.TransformContinuousIndexToPhysicalPoint
          (sd.voxelCoord.set c.lastDim ((lastDimPositions.getD d 0 : Int) : ℚ))) true) = r
       cases h : r.1 <;> simp [h])

/-- Witness of C18: a point outside the mask of the half-masked scene; the interpolator is not
consulted. -/
theorem position_validity_witness :
    ((sceneHalfMasked.TransformPoint [] [1, 0]).1 = true
      ∧ sceneHalfMasked.IsInsideMovingMask (sceneHalfMasked.TransformPoint [] [1, 0]).2 = false)
    ∧ (checkSampleLogged sceneHalfMasked [] [1, 0] true).2
        = [Consulted.transform, Consulted.movingMask] :=
  ⟨⟨rfl, rfl⟩, ((position_validity sceneHalfMasked [] [1, 0] true [] 0
    { voxelCoord := [], fixedPoint := [], sumValues := 0, sumValuesSquared := 0,
      numSamplesOk := 0 }
    { voxelCoord := [], fixedPoint := [], sumValues := 0, sumValuesSquared := 0,
      numSamplesOk := 0, imageJacobian := [], nzjis := [], MT := [], dMTdmu := [] }).2.2.2.1
    rfl rfl).1⟩

/-! ## SampleRandom as first-occurrence extraction -/

theorem collectNew_append (seen a b : List Int) :
    Reference.collectNew seen (a ++ b)
      = Reference.collectNew (Reference.collectNew seen a) b := by
  unfold Reference.collectNew
  rw [List.foldl_append]

theorem collectNew_cons (seen : List Int) (r : Int) (rest : List Int) :
    Reference.collectNew seen (r :: rest)
      = Reference.collectNew (if r ∈ seen then seen else seen ++ [r]) rest := rfl

theorem collectNew_of_seen (seen l : List Int) (h : ∀ y ∈ l, y ∈ seen) :
    Reference.collectNew seen l = seen := by
  induction l with
  | nil => rfl
  | cons a rest ih =>
    rw [collectNew_cons, if_pos (h a (List.mem_cons_self _ _))]
    exact ih (fun y hy => h y (List.mem_cons_of_mem _ hy))

theorem collectNew_extends (seen l : List Int) :
    ∃ t, Reference.collectNew seen l = seen ++ t := by
  induction l generalizing seen with
  | nil => exact ⟨[], by simp [Reference.collectNew]⟩
  | cons a rest ih =>
    rw [collectNew_cons]
    by_cases ha : a ∈ seen
    · rw [if_pos ha]; exact ih seen
    · rw [if_neg ha]
      obtain ⟨t, ht⟩ := ih (seen ++ [a])
      exact ⟨a :: t, by rw [ht]; simp⟩

theorem mem_collectNew (seen l : List Int) (y : Int) :
    y ∈ Reference.collectNew seen l ↔ y ∈ seen ∨ y ∈ l := by
  induction l generalizing seen with
  | nil => simp [Reference.collectNew]
  | cons a rest ih =>
    rw [collectNew_cons, ih]
    by_cases ha : a ∈ seen
    · rw [if_pos ha]
      constructor
      · rintro (h | h)
        · exact Or.inl h
        · exact Or.inr (List.mem_cons_of_mem _ h)
      · rintro (h | h)
        · exact Or.inl h
        · rcases List.mem_cons.1 h with rfl | h'
          · exact Or.inl ha
          · exact Or.inr h'
    · rw [if_neg ha]
      simp only [List.mem_append, List.mem_singleton, List.mem_cons]
      tauto

theorem drawUntilNew_split {numbers draws rest : List Int} {r : Int}
    (h : drawUntilNew numbers draws = some (r, rest)) :
    ∃ skipped, draws = skipped ++ r :: rest ∧ (∀ y ∈ skipped, y ∈ numbers) ∧ r ∉ numbers := by
  induction draws with
  | nil => simp [drawUntilNew] at h
  | cons a tl ih =>
    unfold drawUntilNew at h
    by_cases ha : a ∈ numbers
    · rw [if_pos ha] at h
      obtain ⟨skipped, h1, h2, h3⟩ := ih h
      refine ⟨a :: skipped, by rw [h1]; rfl, ?_, h3⟩
      intro y hy
      rcases List.mem_cons.1 hy with rfl | hy'
      · exact ha
      · exact h2 y hy'
    · rw [if_neg ha] at h
      simp only [Option.some.injEq, Prod.mk.injEq] at h
      obtain ⟨rfl, rfl⟩ := h
      exact ⟨[], rfl, fun y hy => by simp at hy, ha⟩

theorem sampleLoop_split {k : Nat} {numbers draws out rest : List Int}
    (h : sampleLoop k numbers draws = some (out, rest)) :
    ∃ consumed, draws = consumed ++ rest ∧ Reference.collectNew numbers consumed = out
      ∧ (0 < k → ∃ earlier last, consumed = earlier ++ [last]
          ∧ last ∉ Reference.collectNew numbers earlier
          ∧ out = Reference.collectNew numbers earlier ++ [last]) := by
  induction k generalizing numbers draws with
  | zero =>
    simp only [sampleLoop, Option.some.injEq, Prod.mk.injEq] at h
    obtain ⟨rfl, rfl⟩ := h
    exact ⟨[], rfl, rfl, fun h0 => absurd h0 (Nat.lt_irrefl 0)⟩
  | succ k ih =>
    unfold sampleLoop at h
    cases hd : drawUntilNew numbers draws with
    | none => simp [hd] at h
    | some pr =>
      obtain ⟨r, rest1⟩ := pr
      simp only [hd] at h
      obtain ⟨skipped, s1, s2, s3⟩ := drawUntilNew_split hd
      have hskip : Reference.collectNew numbers (skipped ++ [r]) = numbers ++ [r] := by
        rw [collectNew_append, collectNew_of_seen numbers skipped s2, collectNew_cons,
          if_neg s3]
        rfl
      obtain ⟨consumed1, c1, c2, c3⟩ := ih h
      refine ⟨skipped ++ r :: consumed1, ?_, ?_, ?_⟩
      · rw [s1, c1]; simp
      · have : skipped ++ r :: consumed1 = (skipped ++ [r]) ++ consumed1 := by simp
        rw [this, collectNew_append, hskip, c2]
      · intro _
        rcases Nat.eq_zero_or_pos k with hk | hk
        · subst hk
          simp only [sampleLoop, Option.some.injEq, Prod.mk.injEq] at h
          obtain ⟨rfl, rfl⟩ := h
          have hc : consumed1 = [] := by
            have := congrArg List.length c1
            simp only [List.length_append] at this
            exact List.length_eq_zero.1 (by omega)
          subst hc
          refine ⟨skipped, r, rfl, ?_, ?_⟩
          · rw [collectNew_of_seen numbers skipped s2]; exact s3
          · rw [collectNew_of_seen numbers skipped s2]
        · obtain ⟨earlier1, last, e1, e2, e3⟩ := c3 hk
          have hearlier : Reference.collectNew numbers (skipped ++ r :: earlier1)
              = Reference.collectNew (numbers ++ [r]) earlier1 := by
            have : skipped ++ r :: earlier1 = (skipped ++ [r]) ++ earlier1 := by simp
            rw [this, collectNew_append, hskip]
          refine ⟨skipped ++ r :: earlier1, last, by rw [e1]; simp, ?_, ?_⟩
          · rw [hearlier]; exact e2
          · rw [hearlier]; exact e3

/-- C20. Whenever `SampleRandom( n, m )` returns, what it returns is the list of the first `n`
distinct values of the draw sequence in the order of their first occurrence, and the draws it
has consumed end exactly where the `n`-th distinct value occurs for the first time. -/
theorem SampleRandom_first_occurrences (n m : Int) (gen : RandomSource)
    (numbers out rest : List Int) (h : SampleRandom n m gen numbers = some (out, rest)) :
    out = (Reference.firstOccurrences (gen m)).take n.toNat
      ∧ out.length = n.toNat
      ∧ ∃ consumed, gen m = consumed ++ rest
        ∧ Reference.firstOccurrences consumed = out
        ∧ (0 < n → ∃ earlier last, consumed = earlier ++ [last]
            ∧ last ∉ earlier
            ∧ out = Reference.firstOccurrences earlier ++ [last]
            ∧ List.indexOf last (gen m) + 1 = consumed.length) := by
  obtain ⟨consumed, c1, c2, c3⟩ := sampleLoop_split h
  have hlen : out.length = n.toNat := by
    have := (sampleLoop_some h).1
    simpa using this
  refine ⟨?_, hlen, consumed, c1, c2, ?_⟩
  · unfold Reference.firstOccurrences
    rw [c1, collectNew_append, c2]
    obtain ⟨t, ht⟩ := collectNew_extends out rest
    rw [ht, ← hlen, List.take_left]
  · intro hn
    obtain ⟨earlier, last, e1, e2, e3⟩ := c3 (by omega)
    have hnot : last ∉ earlier := by
      intro hmem
      exact e2 ((mem_collectNew [] earlier last).2 (Or.inr hmem))
    refine ⟨earlier, last, e1, hnot, e3, ?_⟩
    rw [c1, e1, List.append_assoc, List.indexOf_append_of_not_mem hnot]
    simp

/-- Witness of C20: three values out of the draws `2, 2, 0, 2, 1, 0`. -/
theorem SampleRandom_first_occurrences_witness :
    SampleRandom 3 2 (fun _ => [2, 2, 0, 2, 1, 0]) [9] = some ([2, 0, 1], [0])
    ∧ ([2, 0, 1] : List Int) = (Reference.firstOccurrences [2, 2, 0, 2, 1, 0]).take 3 :=
  ⟨by decide, (SampleRandom_first_occurrences 3 2 (fun _ => [2, 2, 0, 2, 1, 0]) [9]
    [2, 0, 1] [0] (by decide)).1⟩

/-! ## SampleRandom beyond the population -/

/-- C21. For `m ≥ 0`, `n > m + 1` and any draw sequence over `[0, m]`, however long,
`SampleRandom( n, m )` does not return: once `m + 1` values are collected every further draw
is rejected. -/
theorem SampleRandom_never_returns (n m : Int) (gen : RandomSource) (numbers : List Int)
    (hm : 0 ≤ m) (hn : m + 1 < n) (hgen : gen.InClosedRange m) :
    SampleRandom n m gen numbers = none := by
  cases h : SampleRandom n m gen numbers with
  | none => rfl
  | some pr =>
    exfalso
    obtain ⟨out, rest⟩ := pr
    obtain ⟨h1, h2, h3⟩ := sampleLoop_some h
    have hnd : out.Nodup := h2 List.nodup_nil
    have hsub : out.toFinset ⊆ Finset.Icc (0 : Int) m := by
      intro x hx
      rw [List.mem_toFinset] at hx
      rw [Finset.mem_Icc]
      rcases h3 x hx with h' | h'
      · simp at h'
      · exact hgen x h'
    have hcard := Finset.card_le_card hsub
    rw [List.toFinset_card_of_nodup hnd, Int.card_Icc, h1] at hcard
    simp only [List.length_nil, Nat.zero_add] at hcard
    omega

/-- Witness of C21: three values asked of the range `[0, 1]`. -/
theorem SampleRandom_never_returns_witness :
    ((0 : Int) ≤ 1 ∧ (1 : Int) + 1 < 3
      ∧ RandomSource.InClosedRange (fun _ => [0, 1, 1, 0, 0, 1]) 1)
    ∧ SampleRandom 3 1 (fun _ => [0, 1, 1, 0, 0, 1]) [] = none :=
  ⟨⟨by decide, by decide, by
      intro x hx
      have : x = 0 ∨ x = 1 ∨ x = 1 ∨ x = 0 ∨ x = 0 ∨ x = 1 := by simpa using hx
      rcases this with rfl | rfl | rfl | rfl | rfl | rfl <;> decide⟩,
    SampleRandom_never_returns 3 1 (fun _ => [0, 1, 1, 0, 0, 1]) [] (by decide) (by decide)
      (by
        intro x hx
        have : x = 0 ∨ x = 1 ∨ x = 1 ∨ x = 0 ∨ x = 0 ∨ x = 1 := by simpa using hx
        rcases this with rfl | rfl | rfl | rfl | rfl | rfl <;> decide)⟩

/-! ## Non-negativity -/

theorem sum_sq_centered (vs : List ℚ) (mean : ℚ) :
    (vs.map (fun v => (v - mean) ^ 2)).sum
      = (vs.map (fun v => v ^ 2)).sum - 2 * mean * vs.sum + (vs.length : ℚ) * mean ^ 2 := by
  induction vs with
  | nil => simp
  | cons a rest ih =>
    simp only [List.map_cons, List.sum_cons, List.length_cons, ih]
    push_cast
    ring

theorem variance_nonneg (vs : List ℚ) (hk : 1 ≤ vs.length) : 0 ≤ Reference.variance vs := by
  have hk0 : (0 : ℚ) < (vs.length : ℚ) := by
    have : 0 < vs.length := hk
    exact_mod_cast this
  have hcentered : Reference.variance vs
      = (vs.map (fun v => (v - vs.sum / (vs.length : ℚ)) ^ 2)).sum / (vs.length : ℚ) := by
    rw [sum_sq_centered]
    unfold Reference.variance
    field_simp
    ring
  rw [hcentered]
  apply div_nonneg _ hk0.le
  apply List.sum_nonneg
  intro y hy
  rw [List.mem_map] at hy
  obtain ⟨v, _, rfl⟩ := hy
  exact sq_nonneg _

theorem value_nonneg (c : Collaborators) (parameters : List ℚ) (gradientMode : Bool)
    (tagged : List (Point × List Int)) :
    0 ≤ Reference.value c parameters gradientMode tagged := by
  unfold Reference.value Reference.accumulatedCost
  apply div_nonneg _ (Nat.cast_nonneg _)
  apply List.sum_nonneg
  intro y hy
  rw [List.mem_map] at hy
  obtain ⟨sample, hs, rfl⟩ := hy
  apply variance_nonneg
  have := (List.mem_filter.1 hs).2
  simpa using this

theorem valueSampleBody_none (cfg : Config) (c : Collaborators) (parameters : List ℚ)
    (gen : RandomSource) (st : ValueState) (x : Point)
    (h : chosenPositions cfg c gen = none) :
    valueSampleBody cfg c parameters gen st x = none := by
  unfold chosenPositions at h
  unfold valueSampleBody
  cases hr : cfg.m_SampleLastDimensionRandomly with
  | true =>
    rw [hr] at h
    have h' : (SampleRandom cfg.m_NumSamplesLastDimension c.lastDimSize gen
        st.lastDimPositions).map Prod.fst = none := h
    simp only [if_true, h']
  | false =>
    rw [hr] at h
    simp at h

theorem derivativeSampleBody_none (cfg : Config) (c : Collaborators) (parameters : List ℚ)
    (gen : RandomSource) (st : DerivativeState) (x : Point)
    (h : chosenPositions cfg c gen = none) :
    derivativeSampleBody cfg c parameters gen st x = none := by
  unfold chosenPositions at h
  unfold derivativeSampleBody
  cases hr : cfg.m_SampleLastDimensionRandomly with
  | true =>
    rw [hr] at h
    have h' : (SampleRandom cfg.m_NumSamplesLastDimension c.lastDimSize gen
        st.lastDimPositions).map Prod.fst = none := h
    simp only [if_true, h']
  | false =>
    rw [hr] at h
    simp at h

theorem valueSampleLoop_none (cfg : Config) (c : Collaborators) (parameters : List ℚ)
    (rng : Nat → RandomSource) (xs : List Point) :
    ∀ (call : Nat) (st : ValueState),
      positionsPerSample cfg c rng call xs = none →
      (cfg.m_SampleLastDimensionRandomly = false
        → st.lastDimPositions = allPositions c.lastDimSize) →
      valueSampleLoop cfg c parameters rng call xs st = none := by
  induction xs with
  | nil => intro call st h _; simp [positionsPerSample] at h
  | cons x rest ih =>
    intro call st h hdet
    unfold valueSampleLoop
    cases hc : chosenPositions cfg c (rng call) with
    | none => simp only [valueSampleBody_none cfg c parameters (rng call) st x hc]
    | some ps =>
      obtain ⟨st1, b1, b2, _, _⟩ :=
        valueSampleBody_eq cfg c parameters (rng call) st x ps hc hdet
      simp only [b1]
      apply ih
      · unfold positionsPerSample at h
        cases hrec : positionsPerSample cfg c rng (call + 1) rest with
        | none => rfl
        | some tl => simp [hc, hrec] at h
      · intro hd
        rw [b2]
        have := chosenPositions_deterministic cfg c (rng call) hd
        rw [hc] at this
        exact Option.some.inj this

theorem derivativeSampleLoop_none (cfg : Config) (c : Collaborators) (parameters : List ℚ)
    (rng : Nat → RandomSource) (xs : List Point) :
    ∀ (call : Nat) (st : DerivativeState),
      positionsPerSample cfg c rng call xs = none →
      SampleLoopInvariant cfg c st →
      derivativeSampleLoop cfg c parameters rng call xs st = none := by
  induction xs with
  | nil => intro call st h _; simp [positionsPerSample] at h
  | cons x rest ih =>
    intro call st h hinv
    unfold derivativeSampleLoop
    cases hc : chosenPositions cfg c (rng call) with
    | none => simp only [derivativeSampleBody_none cfg c parameters (rng call) st x hc]
    | some ps =>
      obtain ⟨st1, b1, binv, _⟩ :=
        derivativeSampleBody_eq cfg c parameters (rng call) st x ps hc hinv
      simp only [b1]
      apply ih _ _ _ binv
      unfold positionsPerSample at h
      cases hrec : positionsPerSample cfg c rng (call + 1) rest with
      | none => rfl
      | some tl => simp [hc, hrec] at h

/-- What `GetValue` does when some call of `SampleRandom` does not finish. -/
theorem GetValue_unfinished (cfg : Config) (c : Collaborators) (rng : Nat → RandomSource)
    (numberOfPixelsCounted : Nat) (parameters : List ℚ) (sampleContainer : List Point)
    (h : positionsPerSample cfg c rng 0 sampleContainer = none) :
    GetValue cfg c rng numberOfPixelsCounted parameters sampleContainer
      = .samplerUnfinished := by
  have hloop := valueSampleLoop_none cfg c parameters rng sampleContainer 0
    { m_NumberOfPixelsCounted := 0, measure := 0,
      lastDimPositions := allPositions c.lastDimSize } h (fun _ => rfl)
  unfold GetValue
  simp only [hloop]

/-- What `GetValueAndDerivative` does when some call of `SampleRandom` does not finish. -/
theorem GetValueAndDerivative_unfinished (cfg : Config) (c : Collaborators)
    (rng : Nat → RandomSource) (numberOfPixelsCounted : Nat) (parameters : List ℚ)
    (sampleContainer : List Point) (derivative : List ℚ)
    (h : positionsPerSample cfg c rng 0 sampleContainer = none) :
    GetValueAndDerivative cfg c rng numberOfPixelsCounted parameters sampleContainer derivative
      = .samplerUnfinished := by
  have hloop := derivativeSampleLoop_none cfg c parameters rng sampleContainer 0
    (derivativeInit cfg c) h (derivativeInit_invariant cfg c)
  unfold GetValueAndDerivative
  simp only [hloop]

/-- C22. For `k ≥ 1` intensities the variance term `(Σ v²)/k − ((Σ v)/k)²` added to the
measure is not negative, and so is every value that `GetValue` or `GetValueAndDerivative`
returns, in either sampling mode. -/
theorem returned_value_nonneg (cfg : Config) (c : Collaborators) (rng : Nat → RandomSource)
    (numberOfPixelsCounted : Nat) (parameters : List ℚ) (sampleContainer : List Point)
    (derivative : List ℚ) :
    (∀ vs : List ℚ, 1 ≤ vs.length → 0 ≤ Reference.variance vs)
      ∧ (∀ value, GetValue cfg c rng numberOfPixelsCounted parameters sampleContainer
            = .returned value → 0 ≤ value)
      ∧ (∀ value gradient,
          GetValueAndDerivative cfg c rng numberOfPixelsCounted parameters sampleContainer
            derivative = .returned (value, gradient) → 0 ≤ value) := by
  refine ⟨variance_nonneg, ?_, ?_⟩
  · intro value h
    cases hp : positionsPerSample cfg c rng 0 sampleContainer with
    | none =>
      rw [GetValue_unfinished cfg c rng numberOfPixelsCounted parameters sampleContainer hp] at h
      exact Outcome.noConfusion h
    | some tagged =>
      rw [GetValue_eq cfg c rng numberOfPixelsCounted parameters sampleContainer tagged hp] at h
      split at h
      · split at h
        · exact Outcome.noConfusion h
        · rw [← Outcome.returned.inj h]
          exact value_nonneg c parameters false tagged
      · exact Outcome.noConfusion h
  · intro value gradient h
    cases hp : positionsPerSample cfg c rng 0 sampleContainer with
    | none =>
      rw [GetValueAndDerivative_unfinished cfg c rng numberOfPixelsCounted parameters
        sampleContainer derivative hp] at h
      exact Outcome.noConfusion h
    | some tagged =>
      rw [GetValueAndDerivative_eq cfg c rng numberOfPixelsCounted parameters sampleContainer
        derivative tagged hp] at h
      split at h
      · split at h
        · exact Outcome.noConfusion h
        · have := Outcome.returned.inj h
          rw [← (Prod.mk.inj this).1]
          exact value_nonneg c parameters true tagged
      · exact Outcome.noConfusion h

/-- Witness of C22: the value `2` of the regression scene. -/
theorem returned_value_nonneg_witness :
    GetValue Config.constructor sceneRegression (fixedDraws []) 0 [] [[0, 0]] = .returned 2
    ∧ (0 : ℚ) ≤ 2 := by
  have h : GetValue Config.constructor sceneRegression (fixedDraws []) 0 [] [[0, 0]]
      = .returned 2 := by
    rw [GetValue_eq Config.constructor sceneRegression (fixedDraws []) 0 [] [[0, 0]]
      [([0, 0], [0, 1, 2])] rfl]
    simp [Reference.value, Reference.accumulatedCost, Reference.countedSamples,
      Reference.validIntensities, Reference.isValid, Reference.intensityAt,
      Reference.mappedAt, Reference.pointAt, Reference.variance, sceneRegression, tableScene,
      Collaborators.lastDim]
    norm_num
  exact ⟨h, (returned_value_nonneg Config.constructor sceneRegression (fixedDraws []) 0 []
    [[0, 0]] []).2.1 2 h⟩

/-! ## Intensity shifts -/

theorem positionsPerSample_shift (cfg : Config) (c : Collaborators) (rng : Nat → RandomSource)
    (shift : ℚ) (call : Nat) (xs : List Point) :
    positionsPerSample cfg (shiftIntensity c shift) rng call xs
      = positionsPerSample cfg c rng call xs := by
  induction xs generalizing call with
  | nil => rfl
  | cons x rest ih =>
    unfold positionsPerSample
    rw [ih]
    rfl

theorem validIntensities_shift (c : Collaborators) (parameters : List ℚ) (gradientMode : Bool)
    (shift : ℚ) (sample : Point × List Int) :
    Reference.validIntensities (shiftIntensity c shift) parameters gradientMode sample
      = (Reference.validIntensities c parameters gradientMode sample).map
          (fun v => v + shift) := by
  unfold Reference.validIntensities
  rw [List.map_map]
  rfl

theorem sum_map_add (vs : List ℚ) (shift : ℚ) :
    (vs.map (fun v => v + shift)).sum = vs.sum + (vs.length : ℚ) * shift := by
  induction vs with
  | nil => simp
  | cons a rest ih =>
    simp only [List.map_cons, List.sum_cons, List.length_cons, ih]
    push_cast
    ring

theorem sum_sq_map_add (vs : List ℚ) (shift : ℚ) :
    ((vs.map (fun v => v + shift)).map (fun v => v ^ 2)).sum
      = (vs.map (fun v => v ^ 2)).sum + 2 * shift * vs.sum + (vs.length : ℚ) * shift ^ 2 := by
  induction vs with
  | nil => simp
  | cons a rest ih =>
    simp only [List.map_cons, List.sum_cons, List.length_cons, ih]
    push_cast
    ring

theorem variance_shift (vs : List ℚ) (shift : ℚ) :
    Reference.variance (vs.map (fun v => v + shift)) = Reference.variance vs := by
  by_cases hk : vs.length = 0
  · rw [List.length_eq_zero.1 hk]
    rfl
  · have hk0 : (vs.length : ℚ) ≠ 0 := by exact_mod_cast hk
    unfold Reference.variance
    rw [sum_sq_map_add, sum_map_add, List.length_map]
    have h1 : (vs.sum + (vs.length : ℚ) * shift) / (vs.length : ℚ)
        = vs.sum / (vs.length : ℚ) + shift := by
      rw [add_div, mul_div_cancel_left₀ _ hk0]
    have h2 : ((vs.map (fun v => v ^ 2)).sum + 2 * shift * vs.sum
          + (vs.length : ℚ) * shift ^ 2) / (vs.length : ℚ)
        = (vs.map (fun v => v ^ 2)).sum / (vs.length : ℚ)
          + 2 * shift * (vs.sum / (vs.length : ℚ)) + shift ^ 2 := by
      rw [add_div, add_div, mul_div_cancel_left₀ _ hk0, mul_div_assoc]
    rw [h1, h2]
    ring

theorem countedSamples_shift (c : Collaborators) (parameters : List ℚ) (gradientMode : Bool)
    (shift : ℚ) (tagged : List (Point × List Int)) :
    Reference.countedSamples (shiftIntensity c shift) parameters gradientMode tagged
      = Reference.countedSamples c parameters gradientMode tagged := by
  unfold Reference.countedSamples
  simp only [validIntensities_shift, List.length_map]

theorem value_shift (c : Collaborators) (parameters : List ℚ) (gradientMode : Bool)
    (shift : ℚ) (tagged : List (Point × List Int)) :
    Reference.value (shiftIntensity c shift) parameters gradientMode tagged
      = Reference.value c parameters gradientMode tagged := by
  unfold Reference.value Reference.accumulatedCost
  simp only [countedSamples_shift, validIntensities_shift, variance_shift]

theorem sampleGradient_shift (c : Collaborators) (parameters : List ℚ) (shift : ℚ) (j : Nat)
    (sample : Point × List Int) :
    Reference.sampleGradient (shiftIntensity c shift) parameters j sample
      = Reference.sampleGradient c parameters j sample := by
  unfold Reference.sampleGradient
  simp only [validIntensities_shift, List.length_map]
  have hvalid : Reference.isValid (shiftIntensity c shift) parameters true sample.1
      = Reference.isValid c parameters true sample.1 := rfl
  rw [hvalid]
  by_cases hk : (Reference.validIntensities c parameters true sample).length = 0
  · have hnil : sample.2.filter (Reference.isValid c parameters true sample.1) = [] := by
      have : (sample.2.filter (Reference.isValid c parameters true sample.1)).length = 0 := by
        simpa [Reference.validIntensities] using hk
      exact List.length_eq_zero.1 this
    rw [hnil]
    simp only [List.map_nil]
  · have hk0 : ((Reference.validIntensities c parameters true sample).length : ℚ) ≠ 0 := by
      exact_mod_cast hk
    congr 1
    apply List.map_congr_left
    intro p _
    unfold Reference.positionGradient
    have hnz : Reference.nonZeroIndicesAt (shiftIntensity c shift) parameters sample.1 p
        = Reference.nonZeroIndicesAt c parameters sample.1 p := rfl
    have hcv : Reference.contributionAt (shiftIntensity c shift) parameters sample.1 p
        = Reference.contributionAt c parameters sample.1 p := rfl
    have hint : Reference.intensityAt (shiftIntensity c shift) parameters true sample.1 p
        = Reference.intensityAt c parameters true sample.1 p + shift := rfl
    have hmean : ((Reference.validIntensities c parameters true sample).sum
          + ((Reference.validIntensities c parameters true sample).length : ℚ) * shift)
        / ((Reference.validIntensities c parameters true sample).length : ℚ)
        = (Reference.validIntensities c parameters true sample).sum
          / ((Reference.validIntensities c parameters true sample).length : ℚ) + shift := by
      rw [add_div, mul_div_cancel_left₀ _ hk0]
    rw [hnz, hcv, hint, sum_map_add, hmean]
    congr 1
    apply List.map_congr_left
    intro i _
    ring

theorem gradient_shift (c : Collaborators) (parameters : List ℚ) (shift : ℚ)
    (tagged : List (Point × List Int)) :
    Reference.gradient (shiftIntensity c shift) parameters tagged
      = Reference.gradient c parameters tagged := by
  funext j
  unfold Reference.gradient
  simp only [countedSamples_shift]
  congr 2
  apply List.map_congr_left
  intro sample _
  exact sampleGradient_shift c parameters shift j sample

/-- C23. Replacing the moving image's intensity at every point by intensity plus a constant,
with validity flags, spatial derivatives and Jacobians as they are, changes neither what
`GetValue` returns nor the value and gradient of `GetValueAndDerivative`, in either sampling
mode. -/
theorem intensity_shift_invariant (cfg : Config) (c : Collaborators)
    (rng : Nat → RandomSource) (numberOfPixelsCounted : Nat) (parameters : List ℚ)
    (sampleContainer : List Point) (derivative : List ℚ) (shift : ℚ) :
    GetValue cfg (shiftIntensity c shift) rng numberOfPixelsCounted parameters sampleContainer
        = GetValue cfg c rng numberOfPixelsCounted parameters sampleContainer
      ∧ GetValueAndDerivative cfg (shiftIntensity c shift) rng numberOfPixelsCounted
          parameters sampleContainer derivative
        = GetValueAndDerivative cfg c rng numberOfPixelsCounted parameters sampleContainer
          derivative := by
  cases hp : positionsPerSample cfg c rng 0 sampleContainer with
  | none =>
    have hp' : positionsPerSample cfg (shiftIntensity c shift) rng 0 sampleContainer
        = none := by
      rw [positionsPerSample_shift]; exact hp
    exact ⟨by rw [GetValue_unfinished _ _ _ _ _ _ hp', GetValue_unfinished _ _ _ _ _ _ hp],
      by rw [GetValueAndDerivative_unfinished _ _ _ _ _ _ _ hp',
        GetValueAndDerivative_unfinished _ _ _ _ _ _ _ hp]⟩
  | some tagged =>
    have hp' : positionsPerSample cfg (shiftIntensity c shift) rng 0 sampleContainer
        = some tagged := by
      rw [positionsPerSample_shift]; exact hp
    constructor
    · rw [GetValue_eq _ _ _ _ _ _ tagged hp', GetValue_eq _ _ _ _ _ _ tagged hp,
        countedSamples_shift, value_shift]
      rfl
    · rw [GetValueAndDerivative_eq _ _ _ _ _ _ _ tagged hp',
        GetValueAndDerivative_eq _ _ _ _ _ _ _ tagged hp, countedSamples_shift, value_shift,
        gradient_shift]
      rfl

/-! ## Deterministic mode and the sample-count setting -/

/-- C24. When `m_SampleLastDimensionRandomly` is false, `m_NumSamplesLastDimension` has no
effect: whatever its value, both functions visit the positions `0, 1, ..., lastDimSize-1` in
that order for every spatial sample, and two configurations return the same value and
gradient. -/
theorem deterministic_mode_ignores_sample_count (cfg cfg' : Config) (c : Collaborators)
    (rng rng' : Nat → RandomSource) (gen : RandomSource) (numberOfPixelsCounted : Nat)
    (parameters : List ℚ) (sampleContainer : List Point) (derivative : List ℚ)
    (hdet : cfg.m_SampleLastDimensionRandomly = false)
    (hdet' : cfg'.m_SampleLastDimensionRandomly = false) :
    chosenPositions cfg c gen = some (Reference.fullSequence c.lastDimSize)
      ∧ valuePathPositions (Reference.fullSequence c.lastDimSize)
        = Reference.fullSequence c.lastDimSize
      ∧ derivativePathPositions cfg c (Reference.fullSequence c.lastDimSize)
        = Reference.fullSequence c.lastDimSize
      ∧ positionsPerSample cfg c rng 0 sampleContainer
        = some (sampleContainer.map (fun x => (x, Reference.fullSequence c.lastDimSize)))
      ∧ GetValue cfg c rng numberOfPixelsCounted parameters sampleContainer
        = GetValue cfg' c rng' numberOfPixelsCounted parameters sampleContainer
      ∧ GetValueAndDerivative cfg c rng numberOfPixelsCounted parameters sampleContainer
          derivative
        = GetValueAndDerivative cfg' c rng' numberOfPixelsCounted parameters sampleContainer
          derivative := by
  refine ⟨chosenPositions_deterministic cfg c gen hdet, visited_positions_length _, ?_,
    positionsPerSample_deterministic cfg c rng hdet 0 sampleContainer, ?_, ?_⟩
  · have hlen : realNumLastDimPositions cfg c
        = (Reference.fullSequence c.lastDimSize).length := by
      simp [realNumLastDimPositions, Reference.fullSequence, hdet]
    unfold derivativePathPositions
    rw [hlen]
    exact visited_positions_length _
  · rw [GetValue_eq cfg c rng numberOfPixelsCounted parameters sampleContainer _
        (positionsPerSample_deterministic cfg c rng hdet 0 sampleContainer),
      GetValue_eq cfg' c rng' numberOfPixelsCounted parameters sampleContainer _
        (positionsPerSample_deterministic cfg' c rng' hdet' 0 sampleContainer)]
  · rw [GetValueAndDerivative_eq cfg c rng numberOfPixelsCounted parameters sampleContainer
        derivative _ (positionsPerSample_deterministic cfg c rng hdet 0 sampleContainer),
      GetValueAndDerivative_eq cfg' c rng' numberOfPixelsCounted parameters sampleContainer
        derivative _ (positionsPerSample_deterministic cfg' c rng' hdet' 0 sampleContainer)]

/-- Witness of C24: ten samples requested against none, on the regression scene. -/
theorem deterministic_mode_ignores_sample_count_witness :
    (Config.constructor.m_SampleLastDimensionRandomly = false
      ∧ ({ m_SampleLastDimensionRandomly := false, m_NumSamplesLastDimension := 0 } :
          Config).m_SampleLastDimensionRandomly = false)
    ∧ GetValueAndDerivative Config.constructor sceneRegression (fixedDraws []) 0 [] [[0, 0]] []
      = GetValueAndDerivative
          { m_SampleLastDimensionRandomly := false, m_NumSamplesLastDimension := 0 }
          sceneRegression (fixedDraws []) 0 [] [[0, 0]] [] :=
  ⟨⟨rfl, rfl⟩, (deterministic_mode_ignores_sample_count Config.constructor
    { m_SampleLastDimensionRandomly := false, m_NumSamplesLastDimension := 0 }
    sceneRegression (fixedDraws []) (fixedDraws []) (fun _ => []) 0 [] [[0, 0]] [] rfl
    rfl).2.2.2.2.2⟩

/-! ## Bounds of the indexed accesses -/

theorem derivativeLoopTraced_spec (c : Collaborators) (parameters : List ℚ) (x : Point)
    (positions : List Int) (size : Nat) (s0 : DerivativeLoopState)
    (h0 : FirstLoopInvariant c parameters x positions size 0 s0)
    (hpos : positions.length = size) (n : Nat) (hn : n ≤ size) :
    (derivativeLoopTraced c parameters positions n s0).1
        = (List.range n).foldl (derivativeLoopBody c parameters positions) s0
      ∧ ∀ a ∈ (derivativeLoopTraced c parameters positions n s0).2, a.index < a.size := by
  induction n with
  | zero => simp [derivativeLoopTraced]
  | succ n ih =>
    obtain ⟨ih1, ih2⟩ := ih (by omega)
    have inv := derivativeLoop_invariant c parameters x positions size s0 h0 n (by omega)
    unfold derivativeLoopTraced at ih1 ih2 ⊢
    rw [List.range_succ, List.foldl_append, List.foldl_append]
    simp only [List.foldl_cons, List.foldl_nil]
    rw [ih1]
    refine ⟨rfl, ?_⟩
    intro a ha
    rcases List.mem_append.1 ha with ha | ha
    · exact ih2 a ha
    · unfold derivativeLoopAccesses at ha
      simp only [List.mem_cons] at ha
      rcases ha with rfl | ha
      · show n < positions.length
        omega
      · split at ha
        · simp only [List.mem_cons, List.mem_singleton, List.not_mem_nil, or_false] at ha
          rcases ha with rfl | rfl | rfl
          · dsimp only
            rw [inv.sizeNzjis]; omega
          · dsimp only
            rw [inv.sizeMT]; omega
          · dsimp only
            rw [inv.sizeDMTdmu]; omega
        · simp only [List.mem_cons, List.mem_singleton, List.not_mem_nil, or_false] at ha
          rcases ha with rfl | rfl | rfl
          · dsimp only
            rw [inv.sizeDMTdmu]; omega
          · dsimp only
            rw [inv.sizeDMTdmu]; omega
          · dsimp only
            rw [inv.sizeNzjis]; omega

theorem updateDerivativeAccesses_bounds (n : Nat) (nzjis : List (List Nat)) (MT : List ℚ)
    (dMTdmu : List (List ℚ)) (derivative : List ℚ)
    (h1 : n ≤ nzjis.length) (h2 : n ≤ MT.length) (h3 : n ≤ dMTdmu.length)
    (hrow : ∀ d, d < n → (nzjis.getD d []).length ≤ (dMTdmu.getD d []).length)
    (hidx : ∀ d, d < n → ∀ j, j < (nzjis.getD d []).length
      → (nzjis.getD d []).getD j 0 < derivative.length) :
    ∀ a ∈ updateDerivativeAccesses n nzjis MT dMTdmu derivative, a.index < a.size := by
  intro a ha
  unfold updateDerivativeAccesses at ha
  rw [List.mem_flatMap] at ha
  obtain ⟨d, hd, ha⟩ := ha
  rw [List.mem_range] at hd
  rcases List.mem_cons.1 ha with rfl | ha
  · show d < nzjis.length
    omega
  · rw [List.mem_flatMap] at ha
    obtain ⟨j, hj, ha⟩ := ha
    rw [List.mem_range] at hj
    simp only [List.mem_cons, List.mem_singleton, List.not_mem_nil, or_false] at ha
    rcases ha with rfl | rfl | rfl | rfl | rfl | rfl
    · show d < nzjis.length
      omega
    · exact hj
    · exact hidx d hd j hj
    · show d < MT.length
      omega
    · show d < dMTdmu.length
      omega
    · show j < (dMTdmu.getD d []).length
      exact Nat.lt_of_lt_of_le hj (hrow d hd)

theorem slotIndices_length (c : Collaborators) (parameters : List ℚ) (x : Point) (p : Int)
    (hlen : ∀ fixedPoint, (c.EvaluateTransformJacobian parameters fixedPoint).2.length
      = c.GetNumberOfNonZeroJacobianIndices) :
    (slotIndices c parameters x p).length = c.GetNumberOfNonZeroJacobianIndices := by
  unfold slotIndices
  split
  · exact hlen _
  · simp

theorem slotContribution_length (c : Collaborators) (parameters : List ℚ) (x : Point)
    (p : Int) :
    (slotContribution c parameters x p).length = c.GetNumberOfNonZeroJacobianIndices := by
  unfold slotContribution
  split
  · unfold Reference.contributionAt
    rw [innerProduct_length]
    simp
  · simp

theorem slotIndices_lt (c : Collaborators) (parameters : List ℚ) (x : Point) (p : Int)
    (hP : 1 ≤ c.GetNumberOfParameters)
    (hidx : ∀ fixedPoint, ∀ i ∈ (c.EvaluateTransformJacobian parameters fixedPoint).2,
      i < c.GetNumberOfParameters)
    (j : Nat) (hj : j < (slotIndices c parameters x p).length) :
    (slotIndices c parameters x p).getD j 0 < c.GetNumberOfParameters := by
  cases hv : Reference.isValid c parameters true x p with
  | true =>
    have e : slotIndices c parameters x p = Reference.nonZeroIndicesAt c parameters x p := by
      unfold slotIndices; rw [hv]; rfl
    rw [e] at hj ⊢
    rw [List.getD_eq_getElem _ _ hj]
    exact hidx _ _ (List.getElem_mem _)
  | false =>
    have e : slotIndices c parameters x p
        = List.replicate c.GetNumberOfNonZeroJacobianIndices 0 := by
      unfold slotIndices; rw [hv]; rfl
    rw [e]
    simp only [List.getD_eq_getElem?_getD, List.getElem?_replicate]
    split <;> exact hP

theorem derivativeLoopTraced_fst (c : Collaborators) (parameters : List ℚ)
    (positions : List Int) (n : Nat) (s0 : DerivativeLoopState) :
    (derivativeLoopTraced c parameters positions n s0).1
      = (List.range n).foldl (derivativeLoopBody c parameters positions) s0 := by
  unfold derivativeLoopTraced
  induction n with
  | zero => rfl
  | succ n ih =>
    rw [List.range_succ, List.foldl_append, List.foldl_append]
    simp only [List.foldl_cons, List.foldl_nil]
    rw [ih]

theorem derivativeSampleAccesses_bounds (cfg : Config) (c : Collaborators)
    (parameters : List ℚ) (gen : RandomSource) (st : DerivativeState) (x : Point)
    (hinv : SampleLoopInvariant cfg c st) (hP : 1 ≤ c.GetNumberOfParameters)
    (hidx : ∀ fixedPoint, ∀ i ∈ (c.EvaluateTransformJacobian parameters fixedPoint).2,
      i < c.GetNumberOfParameters)
    (hlen : ∀ fixedPoint, (c.EvaluateTransformJacobian parameters fixedPoint).2.length
      = c.GetNumberOfNonZeroJacobianIndices) :
    ∀ a ∈ derivativeSampleAccesses cfg c parameters gen st x, a.index < a.size := by
  cases hc : chosenPositions cfg c gen with
  | none =>
    intro a ha
    unfold chosenPositions at hc
    unfold derivativeSampleAccesses at ha
    cases hr : cfg.m_SampleLastDimensionRandomly with
    | true =>
      rw [hr] at hc
      have h' : (SampleRandom cfg.m_NumSamplesLastDimension c.lastDimSize gen
          st.lastDimPositions).map Prod.fst = none := hc
      simp only [hr, if_true, h'] at ha
      simp at ha
    | false =>
      rw [hr] at hc
      simp at hc
  | some ps =>
    have hs := chosenPositions_sampled cfg c gen st.lastDimPositions ps hc hinv.positions
    have hps := chosenPositions_length cfg c gen ps hc
    have h0 := firstLoopInvariant_init c parameters x ps (realNumLastDimPositions cfg c)
      st.imageJacobian st.nzjis st.dMTdmu hinv.sizeImageJacobian hinv.sizeNzjis
      hinv.sizeDMTdmu
    obtain ⟨t1, t2⟩ := derivativeLoopTraced_spec c parameters x ps
      (realNumLastDimPositions cfg c) _ h0 hps (realNumLastDimPositions cfg c) (Nat.le_refl _)
    have inv := derivativeLoop_invariant c parameters x ps (realNumLastDimPositions cfg c) _ h0
      (realNumLastDimPositions cfg c) (Nat.le_refl _)
    rw [← t1] at inv
    intro a ha
    unfold derivativeSampleAccesses at ha
    simp only [hs, hinv.sizeMT] at ha
    rcases List.mem_append.1 ha with ha | ha
    · exact t2 a ha
    · split at ha
      · refine updateDerivativeAccesses_bounds _ _ _ _ _ (by rw [inv.sizeNzjis])
          (by rw [inv.sizeMT]) (by rw [inv.sizeDMTdmu]) ?_ ?_ a ha
        · intro d hd
          rw [inv.slotNzjis d hd, inv.slotDMTdmu d hd, slotIndices_length c parameters x _ hlen,
            slotContribution_length]
        · intro d hd j hj
          rw [inv.slotNzjis d hd] at hj ⊢
          rw [hinv.sizeDerivative]
          exact slotIndices_lt c parameters x _ hP hidx j hj
      · simp at ha

theorem derivativeSampleLoopAccesses_bounds (cfg : Config) (c : Collaborators)
    (parameters : List ℚ) (rng : Nat → RandomSource)
    (hP : 1 ≤ c.GetNumberOfParameters)
    (hidx : ∀ fixedPoint, ∀ i ∈ (c.EvaluateTransformJacobian parameters fixedPoint).2,
      i < c.GetNumberOfParameters)
    (hlen : ∀ fixedPoint, (c.EvaluateTransformJacobian parameters fixedPoint).2.length
      = c.GetNumberOfNonZeroJacobianIndices)
    (xs : List Point) :
    ∀ (call : Nat) (st : DerivativeState), SampleLoopInvariant cfg c st →
      ∀ a ∈ derivativeSampleLoopAccesses cfg c parameters rng call xs st,
        a.index < a.size := by
  induction xs with
  | nil =>
    intro call st _ a ha
    simp [derivativeSampleLoopAccesses] at ha
  | cons x rest ih =>
    intro call st hinv a ha
    unfold derivativeSampleLoopAccesses at ha
    rcases List.mem_append.1 ha with ha | ha
    · exact derivativeSampleAccesses_bounds cfg c parameters (rng call) st x hinv hP hidx hlen
        a ha
    · cases hc : chosenPositions cfg c (rng call) with
      | none =>
        rw [derivativeSampleBody_none cfg c parameters (rng call) st x hc] at ha
        simp at ha
      | some ps =>
        obtain ⟨st1, b1, binv, _⟩ :=
          derivativeSampleBody_eq cfg c parameters (rng call) st x ps hc hinv
        rw [b1] at ha
        exact ih (call + 1) st1 binv a ha

/-- C25. When the transform has at least one parameter, every index in every nonzero-index
list it returns is below the number of parameters, and every such list has as many entries
as the transform declares nonzero Jacobian indices, then every read of `lastDimPositions[d]`,
`MT[d]`, `dMTdmu[d][j]`, `nzjis[d][j]`, every write of a slot `d` of `nzjis`, `MT`, `dMTdmu`
and every write `derivative[nzjis[d][j]]` of `GetValueAndDerivative` is inside its vector, in
deterministic and in stochastic mode, the zero-filled slots of invalid positions included.
The traced first loop goes through the same states as the first loop itself. -/
theorem gradient_accesses_in_bounds (cfg : Config) (c : Collaborators)
    (rng : Nat → RandomSource) (parameters : List ℚ) (sampleContainer : List Point)
    (hP : 1 ≤ c.GetNumberOfParameters)
    (hidx : ∀ fixedPoint, ∀ i ∈ (c.EvaluateTransformJacobian parameters fixedPoint).2,
      i < c.GetNumberOfParameters)
    (hlen : ∀ fixedPoint, (c.EvaluateTransformJacobian parameters fixedPoint).2.length
      = c.GetNumberOfNonZeroJacobianIndices) :
    (∀ a ∈ GetValueAndDerivativeAccesses cfg c rng parameters sampleContainer,
        a.index < a.size)
      ∧ ∀ (positions : List Int) (n : Nat) (s : DerivativeLoopState),
          (derivativeLoopTraced c parameters positions n s).1
            = (List.range n).foldl (derivativeLoopBody c parameters positions) s :=
  ⟨derivativeSampleLoopAccesses_bounds cfg c parameters rng hP hidx hlen sampleContainer 0
      (derivativeInit cfg c) (derivativeInit_invariant cfg c),
    fun positions n s => derivativeLoopTraced_fst c parameters positions n s⟩

/-- Witness of C25: stochastic mode on the half-masked scene, two positions per sample drawn
from `2, 2, 0`, one spatial sample valid and one not. -/
theorem gradient_accesses_in_bounds_witness :
    (1 ≤ sceneHalfMasked.GetNumberOfParameters
      ∧ (∀ fixedPoint, ∀ i ∈ (sceneHalfMasked.EvaluateTransformJacobian [] fixedPoint).2,
          i < sceneHalfMasked.GetNumberOfParameters)
      ∧ ∀ fixedPoint, (sceneHalfMasked.EvaluateTransformJacobian [] fixedPoint).2.length
          = sceneHalfMasked.GetNumberOfNonZeroJacobianIndices)
    ∧ ∀ a ∈ GetValueAndDerivativeAccesses (stochastic 2) sceneHalfMasked
        (fixedDraws [2, 2, 0]) [] [[0, 0], [1, 0]], a.index < a.size :=
  ⟨⟨by decide, fun _ i hi => by
      have : i = 0 := by simpa [sceneHalfMasked, sceneRegression, tableScene] using hi
      subst this
      decide, fun _ => rfl⟩,
    (gradient_accesses_in_bounds (stochastic 2) sceneHalfMasked (fixedDraws [2, 2, 0]) []
      [[0, 0], [1, 0]] (by decide) (fun _ i hi => by
        have : i = 0 := by simpa [sceneHalfMasked, sceneRegression, tableScene] using hi
        subst this
        decide) (fun _ => rfl)).1⟩

/-- The accesses of the witness scene, evaluated: the valid sample makes the accesses of both
loops, the sample outside the mask those of the first loop only. -/
theorem gradient_accesses_example :
    (GetValueAndDerivativeAccesses (stochastic 2) sceneHalfMasked (fixedDraws [2, 2, 0]) []
        [[0, 0], [1, 0]]).length = 30
      ∧ (GetValueAndDerivativeAccesses (stochastic 2) sceneHalfMasked
          (fixedDraws [2, 2, 0]) [] [[0, 0], [1, 0]]).map (fun a => a.size)
        = (List.replicate 8 2 ++ [2, 2, 1, 1, 2, 2, 1, 2, 2, 1, 1, 2, 2, 1]
            ++ List.replicate 8 2) := by
  decide

/-! ## The positions a stochastic round evaluates -/

/-- C8, the code at a failing input. Five samples are requested on a last dimension of size
three, so that `Initialize` leaves `min 5 3 = 3`. With draws `3, 1, 3, 1, 0, 2`, all inside the
closed range `[0, lastDimSize]` that both functions pass to `SampleRandom`, the round of the
spatial sample evaluates the moving image at the last-dimension coordinates `3, 1, 0` in
`GetValue` and in `GetValueAndDerivative`: three pairwise distinct coordinates, of which only
two are positions `0 .. lastDimSize - 1`. -/
theorem stochastic_round_evaluates_fewer_positions :
    RandomSource.InClosedRange (fun _ => [3, 1, 3, 1, 0, 2]) (sceneRegression.lastDimSize : Int)
      ∧ (Initialize (stochastic 5) sceneRegression.lastDimSize).m_NumSamplesLastDimension
        = min 5 sceneRegression.lastDimSize
      ∧ GetValueVisited (Initialize (stochastic 5) sceneRegression.lastDimSize) sceneRegression
          (fixedDraws [3, 1, 3, 1, 0, 2]) [] [[0, 0]] = some [[3, 1, 0]]
      ∧ GetValueAndDerivativeVisited (Initialize (stochastic 5) sceneRegression.lastDimSize)
          sceneRegression (fixedDraws [3, 1, 3, 1, 0, 2]) [] [[0, 0]] = some [[3, 1, 0]]
      ∧ positionsInside sceneRegression.lastDimSize [3, 1, 0] = [1, 0]
      ∧ (positionsInside sceneRegression.lastDimSize [3, 1, 0]).length
        < min 5 sceneRegression.lastDimSize := by
  refine ⟨?_, by decide, by decide!, by decide!, by decide!, by decide!⟩
  intro x hx
  simp only [List.mem_cons, List.mem_singleton, List.not_mem_nil, or_false] at hx
  rcases hx with h | h | h | h | h | h <;> subst h <;> decide
/-! ## Exact arithmetic against the arithmetic of doubles -/

theorem valueSampleLoopRounded_id (cfg : Config) (c : Collaborators) (parameters : List ℚ)
    (rng : Nat → RandomSource) (xs : List Point) :
    ∀ (call : Nat) (st : ValueState),
      valueSampleLoopRounded id cfg c parameters rng call xs st
        = valueSampleLoop cfg c parameters rng call xs st := by
  induction xs with
  | nil => intro call st; rfl
  | cons x rest ih =>
    intro call st
    unfold valueSampleLoopRounded valueSampleLoop
    have hbody : valueSampleBodyRounded id cfg c parameters (rng call) st x
        = valueSampleBody cfg c parameters (rng call) st x := rfl
    rw [hbody]
    cases valueSampleBody cfg c parameters (rng call) st x with
    | none => rfl
    | some st' => exact ih (call + 1) st'

theorem derivativeSampleLoopRounded_id (cfg : Config) (c : Collaborators) (parameters : List ℚ)
    (rng : Nat → RandomSource) (xs : List Point) :
    ∀ (call : Nat) (st : DerivativeState),
      derivativeSampleLoopRounded id cfg c parameters rng call xs st
        = derivativeSampleLoop cfg c parameters rng call xs st := by
  induction xs with
  | nil => intro call st; rfl
  | cons x rest ih =>
    intro call st
    unfold derivativeSampleLoopRounded derivativeSampleLoop
    have hbody : derivativeSampleBodyRounded id cfg c parameters (rng call) st x
        = derivativeSampleBody cfg c parameters (rng call) st x := rfl
    rw [hbody]
    cases derivativeSampleBody cfg c parameters (rng call) st x with
    | none => rfl
    | some st' => exact ih (call + 1) st'

/-- With the identity in the place of the rounding, the definitions with rounded operations
are `GetValue` and `GetValueAndDerivative` as embedded for exact arithmetic. -/
theorem rounded_with_identity (cfg : Config) (c : Collaborators) (rng : Nat → RandomSource)
    (numberOfPixelsCounted : Nat) (parameters : List ℚ) (sampleContainer : List Point)
    (derivative : List ℚ) :
    GetValueRounded id cfg c rng numberOfPixelsCounted parameters sampleContainer
        = GetValue cfg c rng numberOfPixelsCounted parameters sampleContainer
      ∧ GetValueAndDerivativeRounded id cfg c rng numberOfPixelsCounted parameters
          sampleContainer derivative
        = GetValueAndDerivative cfg c rng numberOfPixelsCounted parameters sampleContainer
          derivative := by
  constructor
  · unfold GetValueRounded GetValue
    simp only [valueSampleLoopRounded_id]
    rfl
  · unfold GetValueAndDerivativeRounded GetValueAndDerivative
    simp only [derivativeSampleLoopRounded_id]
    rfl

/-- The rounding on examples: one tenth is no double and is rounded to `tenth`; doubles are
kept; a tie goes to the even neighbour; below the least exponent the spacing stays
`2 ^ (-1074)`. -/
theorem roundToDouble_examples :
    roundToDouble (1 / 10) = tenth
      ∧ roundToDouble tenth = tenth
      ∧ roundToDouble (2 * tenth) = 2 * tenth
      ∧ roundToDouble (4 * tenth) = 4 * tenth
      ∧ roundToDouble (2 ^ 53 + 1) = 2 ^ 53
      ∧ roundToDouble (2 ^ 53 + 3) = 2 ^ 53 + 4
      ∧ roundToDouble (-(2 / 3)) = -(6004799503160661 / 9007199254740992)
      ∧ roundToDouble (3 / 2 ^ 1075) = 2 / 2 ^ 1074 := by
  decide!

/-- C12, counterexample. One spatial sample, last dimension of size three, all positions valid
with the same intensity, the double nearest to `0.1`: with the operations of lines 229-251
(and 397-447) rounded as operations on doubles are, the variance term and the value returned
by `GetValue` and by `GetValueAndDerivative` are `-2 ^ (-59)`, about `-1.7e-18`, and not `0`;
in exact arithmetic the same call returns `0`. -/
theorem constant_intensities_rounded_value :
    (∀ p wantDerivative,
        (sceneFlatTenth.EvaluateMovingImageValueAndDerivative p wantDerivative).2.1 = tenth)
      ∧ roundToDouble tenth = tenth
      ∧ GetValueRounded roundToDouble Config.constructor sceneFlatTenth (fixedDraws []) 0 []
          [[0, 0]] = .returned (-1 / 2 ^ 59)
      ∧ (GetValueAndDerivativeRounded roundToDouble Config.constructor sceneFlatTenth
          (fixedDraws []) 0 [] [[0, 0]] []).map Prod.fst = .returned (-1 / 2 ^ 59)
      ∧ GetValueRounded roundToDouble Config.constructor sceneFlatTenth (fixedDraws []) 0 []
          [[0, 0]] ≠ .returned 0
      ∧ GetValue Config.constructor sceneFlatTenth (fixedDraws []) 0 [] [[0, 0]]
        = .returned 0 := by
  refine ⟨fun _ _ => rfl, by decide!, by decide!, by decide!, by decide!, by decide!⟩

/-- C13, counterexample. One spatial sample, last dimension of size three, one parameter with
index list `[0]` and contribution `1` at every position, intensities the doubles nearest to
`0.1`, `0.2`, `0.4`: with the operations of lines 120-134 and 397-448 rounded as operations on
doubles are, the sample adds `-3 * 2 ^ (-56)`, about `-4.2e-17`, to the gradient entry, and
`GetValueAndDerivative` returns that instead of `0`; in exact arithmetic the same call returns
the gradient `0`. -/
theorem constant_contribution_rounded_gradient :
    (∀ p, sceneConstantJacobianTenths.EvaluateTransformJacobian [] p = ([1, 0], [0]))
      ∧ (∀ p wantDerivative,
          (sceneConstantJacobianTenths.EvaluateMovingImageValueAndDerivative p
            wantDerivative).2.2 = [1, 0])
      ∧ (∀ p wantDerivative, roundToDouble
          (sceneConstantJacobianTenths.EvaluateMovingImageValueAndDerivative p
            wantDerivative).2.1
          = (sceneConstantJacobianTenths.EvaluateMovingImageValueAndDerivative p
            wantDerivative).2.1)
      ∧ (derivativeSampleBodyRounded roundToDouble Config.constructor
          sceneConstantJacobianTenths [] (fixedDraws [] 0)
          (derivativeInit Config.constructor sceneConstantJacobianTenths) [0, 0]).map
            (fun st => (st.derivative, st.dMTdmu, st.nzjis))
        = some ([-3 / 2 ^ 56], [[1], [1], [1]], [[0], [0], [0]])
      ∧ GetValueAndDerivativeRounded roundToDouble Config.constructor
          sceneConstantJacobianTenths (fixedDraws []) 0 [] [[0, 0]] []
        = .returned (1120895907256657 / 2 ^ 56, [-3 / 2 ^ 56])
      ∧ (GetValueAndDerivative Config.constructor sceneConstantJacobianTenths (fixedDraws [])
          0 [] [[0, 0]] []).map Prod.snd = .returned [0] := by
  refine ⟨fun _ => rfl, fun _ _ => rfl, ?_, by decide!, by decide!, by decide!⟩
  intro p wantDerivative
  have h1 : roundToDouble tenth = tenth := by decide!
  have h2 : roundToDouble (2 * tenth) = 2 * tenth := by decide!
  have h4 : roundToDouble (4 * tenth) = 4 * tenth := by decide!
  show roundToDouble (if p.getD 1 0 = 0 then tenth else if p.getD 1 0 = 1 then 2 * tenth
    else 4 * tenth) = (if p.getD 1 0 = 0 then tenth else if p.getD 1 0 = 1 then 2 * tenth
    else 4 * tenth)
  split
  · exact h1
  · split
    · exact h2
    · exact h4

end VarianceOverLastDimension
